import Mathlib

/-!
# Verification of the Monkey interpreter core (parser + evaluator)

Shallow embedding of the Go sources of this repository:

* `src/unnamed/part_000` — the Pratt parser (`package parser`);
* `src/evaluator/evaluator.go` — the evaluator (`package evaluator`);
* `src/unnamed/part_001` — a second, older copy of the evaluator;
* `src/object/environment.go` — the environment type.

The `token`, `ast` and `object` data definitions and the `builtins` table are
not part of the sources; their shapes are modelled from the specification
(token kinds, AST variants, value variants, builtin names) exactly where the
sources consume them.

Conventions of the embedding:

* The lexer is a finite list of tokens; `NextToken` past the end yields the
  `EOF` token forever (the token-source contract of the spec).
* Go's `nil` AST child pointers are `Option` values; Go's `nil`
  `object.Object` result is the `none` result.
* Parser and evaluator are fuel-indexed; `none` at the top level means the
  fuel ran out (or, for the evaluator, a Go runtime panic such as division
  by zero or an out-of-range parameter index — the sources never handle
  those, they crash).
* Go objects are pointers; each constructed object carries the allocation
  reference (`ref`) it was given, drawn from a counter in the evaluator
  state.  Go's `==` on `object.Object` interface values (pointer identity)
  is `objRef` equality, because distinct allocations receive distinct refs.
-/

set_option maxHeartbeats 1000000

namespace Monkey

/-! ## Tokens (kinds from the spec §3; the parser consumes them) -/

inductive TokenType where
  | ILLEGAL | EOF
  | IDENT | INT | STRING
  | ASSIGN | PLUS | MINUS | BANG | ASTERISK | SLASH
  | LT | GT | EQ | NOT_EQ
  | COMMA | SEMICOLON | COLON
  | LPAREN | RPAREN | LBRACE | RBRACE | LBRACKET | RBRACKET
  | FUNCTION | LET | TRUE | FALSE | IF | ELSE | RETURN
  deriving DecidableEq, Repr, Fintype

/-- Modelled from the spec: the display string of a token kind, used only in
parser error messages (`token.TokenType` is a string constant in Go). -/
def TokenType.str : TokenType → String
  | .ILLEGAL => "ILLEGAL" | .EOF => "EOF"
  | .IDENT => "IDENT" | .INT => "INT" | .STRING => "STRING"
  | .ASSIGN => "=" | .PLUS => "+" | .MINUS => "-" | .BANG => "!"
  | .ASTERISK => "*" | .SLASH => "/"
  | .LT => "<" | .GT => ">" | .EQ => "==" | .NOT_EQ => "!="
  | .COMMA => "," | .SEMICOLON => ";" | .COLON => ":"
  | .LPAREN => "(" | .RPAREN => ")" | .LBRACE => "\x7b" | .RBRACE => "\x7d"
  | .LBRACKET => "[" | .RBRACKET => "]"
  | .FUNCTION => "FUNCTION" | .LET => "LET" | .TRUE => "TRUE"
  | .FALSE => "FALSE" | .IF => "IF" | .ELSE => "ELSE" | .RETURN => "RETURN"

structure Token where
  ttype : TokenType
  literal : String
  deriving DecidableEq, Repr

/-- The token the lexer yields once the input is exhausted. -/
def eofToken : Token := ⟨.EOF, ""⟩

/-! ## AST (variants from the spec §3, fields exactly as the parser builds
them and the evaluator reads them).  `Option` children model Go's `nil`
pointers, which the parser really produces on error paths. -/

mutual
inductive Expr where
  | ident (value : String)
  | intLit (value : Int)
  | strLit (value : String)
  | boolLit (value : Bool)
  | prefixE (op : String) (right : Option Expr)
  | infixE (op : String) (left : Option Expr) (right : Option Expr)
  | ifE (cond : Option Expr) (conseq : List Stmt) (alt : Option (List Stmt))
  | funcLit (params : Option (List String)) (body : List Stmt)
  | call (fn : Option Expr) (args : Option (List (Option Expr)))
  | arrayLit (elems : List (Option Expr))
  | hashLit (pairs : List (Option Expr × Option Expr))
  | indexE (left : Option Expr) (index : Option Expr)

inductive Stmt where
  | letS (name : String) (value : Option Expr)
  | returnS (value : Option Expr)
  | exprS (e : Option Expr)
end

/-! ## Parser (src/unnamed/part_000) -/

/-- Precedence constants (`iota` block, part_000 lines 27-36).  Note there is
no `INDEX` level in the source. -/
def LOWEST : Nat := 1
def EQUALS : Nat := 2
def LESSGREATER : Nat := 3
def SUM : Nat := 4
def PRODUCT : Nat := 5
def PREFIX : Nat := 6
def CALL : Nat := 7

/-- `var precedences` (part_000 lines 38-48). -/
def precedencesMap : TokenType → Option Nat
  | .EQ => some EQUALS
  | .NOT_EQ => some EQUALS
  | .LT => some LESSGREATER
  | .GT => some LESSGREATER
  | .PLUS => some SUM
  | .MINUS => some SUM
  | .SLASH => some PRODUCT
  | .ASTERISK => some PRODUCT
  | .LPAREN => some CALL
  | _ => none

/-- Tags naming the prefix parselets registered in `New`. -/
inductive PrefixKind where
  | identP | intP | prefixOpP | boolP | groupP | ifP | fnP
  deriving DecidableEq, Repr

/-- Tags naming the infix parselets registered in `New`. -/
inductive InfixKind where
  | infixOpI | callI
  deriving DecidableEq, Repr

/-- `p.prefixParseFns` as filled by `New` (part_000 lines 53-62). -/
def prefixFnFor : TokenType → Option PrefixKind
  | .IDENT => some .identP
  | .INT => some .intP
  | .BANG => some .prefixOpP
  | .MINUS => some .prefixOpP
  | .TRUE => some .boolP
  | .FALSE => some .boolP
  | .LPAREN => some .groupP
  | .IF => some .ifP
  | .FUNCTION => some .fnP
  | _ => none

/-- `p.infixParseFns` as filled by `New` (part_000 lines 64-73). -/
def infixFnFor : TokenType → Option InfixKind
  | .PLUS => some .infixOpI
  | .MINUS => some .infixOpI
  | .SLASH => some .infixOpI
  | .ASTERISK => some .infixOpI
  | .EQ => some .infixOpI
  | .NOT_EQ => some .infixOpI
  | .LT => some .infixOpI
  | .GT => some .infixOpI
  | .LPAREN => some .callI
  | _ => none

/-- Parser state: the unread lexer output plus the two-token window and the
error list (the fields of `Parser`). -/
structure PState where
  toks : List Token
  curToken : Token
  peekToken : Token
  errors : List String
  deriving DecidableEq, Repr

/-- The lexer contract: one token per call, `EOF` forever once exhausted. -/
def lexNext : List Token → Token × List Token
  | [] => (eofToken, [])
  | t :: r => (t, r)

/-- `p.nextToken()` (part_000 lines 82-85). -/
def nextToken (st : PState) : PState :=
  let (t, r) := lexNext st.toks
  { toks := r, curToken := st.peekToken, peekToken := t, errors := st.errors }

def curTokenIs (t : TokenType) (st : PState) : Bool := st.curToken.ttype = t
def peekTokenIs (t : TokenType) (st : PState) : Bool := st.peekToken.ttype = t

/-- The message pushed by `peekError` (part_000 lines 470-474). -/
def peekErrorMsg (t : TokenType) (actual : TokenType) : String :=
  "expected next token to be " ++ t.str ++ ", got " ++ actual.str ++ " instead"

def pushError (msg : String) (st : PState) : PState :=
  { st with errors := st.errors ++ [msg] }

/-- `p.expectPeek(t)` (part_000 lines 456-464). -/
def expectPeek (t : TokenType) (st : PState) : Bool × PState :=
  if peekTokenIs t st then (true, nextToken st)
  else (false, pushError (peekErrorMsg t st.peekToken.ttype) st)

/-- `p.peekPrecedence()` (part_000 lines 488-494). -/
def peekPrecedence (st : PState) : Nat :=
  (precedencesMap st.peekToken.ttype).getD LOWEST

/-- `p.curPrecedence()` (part_000 lines 496-502). -/
def curPrecedence (st : PState) : Nat :=
  (precedencesMap st.curToken.ttype).getD LOWEST

/-- The message pushed by `noPrefixParseFnError` (part_000 lines 175-178). -/
def noPrefixMsg (t : TokenType) : String :=
  "no prefix parse function for " ++ t.str ++ " found"

/-! ### Claim C1 — the dispatch and precedence tables

The spec's registration table additionally lists STRING, LBRACKET and LBRACE
prefix parselets, an LBRACKET infix parselet, and an INDEX precedence for
`[`.  None of those exist in `New` or `precedences` in part_000 (the source
precedence ladder even stops at CALL). -/

/-- The registration table the spec (and claim C1) describes, written from
the spec's words to be compared with the source table `prefixFnFor`.  The
spec additionally names parselets for STRING (string literal), LBRACKET
(array literal) and LBRACE (hash literal); those have no tag in the source,
so this table can only be stated via `isSome`-style comparison below. -/
def specPrefixRegistered : TokenType → Bool
  | .IDENT => true | .INT => true | .STRING => true
  | .BANG => true | .MINUS => true
  | .TRUE => true | .FALSE => true
  | .LPAREN => true | .LBRACKET => true | .LBRACE => true
  | .IF => true | .FUNCTION => true
  | _ => false

/-- The infix registrations the spec's table lists. -/
def specInfixRegistered : TokenType → Bool
  | .PLUS => true | .MINUS => true | .SLASH => true | .ASTERISK => true
  | .EQ => true | .NOT_EQ => true | .LT => true | .GT => true
  | .LPAREN => true | .LBRACKET => true
  | _ => false

/-- The operator-to-precedence table the spec lists, with `[` at a level
INDEX one above CALL. -/
def specPrecedences : TokenType → Option Nat
  | .EQ => some EQUALS
  | .NOT_EQ => some EQUALS
  | .LT => some LESSGREATER
  | .GT => some LESSGREATER
  | .PLUS => some SUM
  | .MINUS => some SUM
  | .SLASH => some PRODUCT
  | .ASTERISK => some PRODUCT
  | .LPAREN => some CALL
  | .LBRACKET => some (CALL + 1)
  | _ => none

end Monkey

namespace Monkey

/-! ### Integer literals

`parseIntegerLiteral` calls `strconv.ParseInt(lit, 0, 64)`: optional sign,
then base detected from the prefix (`0x`/`0X` hex, `0b`/`0B` binary,
`0o`/`0O` octal, a bare leading `0` legacy-octal, else decimal), and a
signed-64-bit range check.  (Go also accepts `_` digit separators in base-0
mode; the lexer never produces them and they are not modelled.) -/

def digitVal (c : Char) : Option Nat :=
  if '0' ≤ c ∧ c ≤ '9' then some (c.toNat - '0'.toNat)
  else if 'a' ≤ c ∧ c ≤ 'f' then some (c.toNat - 'a'.toNat + 10)
  else if 'A' ≤ c ∧ c ≤ 'F' then some (c.toNat - 'A'.toNat + 10)
  else none

def digitsVal (base : Nat) : List Char → Option Nat
  | [] => none
  | cs => go cs 0
where go : List Char → Nat → Option Nat
  | [], acc => some acc
  | c :: rest, acc =>
    match digitVal c with
    | some d => if d < base then go rest (acc * base + d) else none
    | none => none

/-- `strconv.ParseInt(s, 0, 64)` (success = `some`). -/
def goParseInt64 (s : String) : Option Int :=
  let (neg, cs) : Bool × List Char :=
    match s.data with
    | '-' :: rest => (true, rest)
    | '+' :: rest => (false, rest)
    | cs => (false, cs)
  let mag : Option Nat :=
    match cs with
    | '0' :: 'x' :: rest => digitsVal 16 rest
    | '0' :: 'X' :: rest => digitsVal 16 rest
    | '0' :: 'b' :: rest => digitsVal 2 rest
    | '0' :: 'B' :: rest => digitsVal 2 rest
    | '0' :: 'o' :: rest => digitsVal 8 rest
    | '0' :: 'O' :: rest => digitsVal 8 rest
    | ['0'] => some 0
    | '0' :: rest => digitsVal 8 rest
    | cs => digitsVal 10 cs
  match mag with
  | none => none
  | some m =>
    if neg then
      if m ≤ 2 ^ 63 then some (-(m : Int)) else none
    else
      if m ≤ 2 ^ 63 - 1 then some (m : Int) else none

/-- The message of `parseIntegerLiteral` on failure (`%q` quotes the
literal; escaping of special characters inside it is not modelled). -/
def couldNotParseMsg (lit : String) : String :=
  "could not parse \"" ++ lit ++ "\" as integer"

/-- `p.parseIntegerLiteral()` (part_000 lines 206-221), minus the fuel-free
wrapper: it never recurses. -/
def parseIntegerLiteral (st : PState) : Option Expr × PState :=
  match goParseInt64 st.curToken.literal with
  | some v => (some (.intLit v), st)
  | none => (none, pushError (couldNotParseMsg st.curToken.literal) st)

/-! ### The recursive parselets (part_000)

Every function takes a fuel argument and every call, recursive or not,
steps the fuel down by one; `none` means the fuel ran out.  The sufficiency
theorem for claim C8 shows a fuel linear in the token count always
suffices, so this changes nothing for real inputs. -/

mutual

/-- The loop of `ParseProgram` (part_000 lines 88-101).  Known
infidelity: in Go a nil `*ast.LetStatement` reaches this loop as a typed
non-nil `ast.Statement` interface value, so the `stmt != nil` check
passes and the nil statement is appended to the program; the embedding
drops a `none` statement instead.  The difference can only surface when
`parseLetStatement` fails. -/
def parseProgramLoop : Nat → List Stmt → PState → Option (List Stmt × PState)
  | 0, _, _ => none
  | fuel+1, acc, st =>
    if curTokenIs .EOF st then some (acc, st)
    else
      match parseStatement fuel st with
      | none => none
      | some (stmtRes, st1) =>
        let acc1 := match stmtRes with
          | none => acc
          | some s => acc ++ [s]
        parseProgramLoop fuel acc1 (nextToken st1)

/-- `p.parseStatement()` (part_000 lines 104-113). -/
def parseStatement : Nat → PState → Option (Option Stmt × PState)
  | 0, _ => none
  | fuel+1, st =>
    match st.curToken.ttype with
    | .LET => parseLetStatement fuel st
    | .RETURN => parseReturnStatement fuel st
    | _ => parseExpressionStatement fuel st

/-- `p.parseLetStatement()` (part_000 lines 118-140). -/
def parseLetStatement : Nat → PState → Option (Option Stmt × PState)
  | 0, _ => none
  | fuel+1, st =>
    match expectPeek .IDENT st with
    | (false, st1) => some (none, st1)
    | (true, st1) =>
      let name := st1.curToken.literal
      match expectPeek .ASSIGN st1 with
      | (false, st2) => some (none, st2)
      | (true, st2) =>
        let st3 := nextToken st2
        match parseExpression fuel LOWEST st3 with
        | none => none
        | some (v, st4) =>
          let st5 := if peekTokenIs .SEMICOLON st4 then nextToken st4 else st4
          some (some (.letS name v), st5)

/-- `p.parseReturnStatement()` (part_000 lines 145-157). -/
def parseReturnStatement : Nat → PState → Option (Option Stmt × PState)
  | 0, _ => none
  | fuel+1, st =>
    let st1 := nextToken st
    match parseExpression fuel LOWEST st1 with
    | none => none
    | some (v, st2) =>
      let st3 := if peekTokenIs .SEMICOLON st2 then nextToken st2 else st2
      some (some (.returnS v), st3)

/-- `p.parseExpressionStatement()` (part_000 lines 160-172). -/
def parseExpressionStatement : Nat → PState → Option (Option Stmt × PState)
  | 0, _ => none
  | fuel+1, st =>
    match parseExpression fuel LOWEST st with
    | none => none
    | some (e, st1) =>
      let st2 := if peekTokenIs .SEMICOLON st1 then nextToken st1 else st1
      some (some (.exprS e), st2)

/-- `p.parseExpression(precedence)` (part_000 lines 181-203). -/
def parseExpression : Nat → Nat → PState → Option (Option Expr × PState)
  | 0, _, _ => none
  | fuel+1, prec, st =>
    match prefixFnFor st.curToken.ttype with
    | none => some (none, pushError (noPrefixMsg st.curToken.ttype) st)
    | some pk =>
      match runPrefixParselet fuel pk st with
      | none => none
      | some (left, st1) => parseExpressionLoop fuel prec left st1

/-- The `for` loop inside `parseExpression` (part_000 lines 191-200). -/
def parseExpressionLoop :
    Nat → Nat → Option Expr → PState → Option (Option Expr × PState)
  | 0, _, _, _ => none
  | fuel+1, prec, left, st =>
    if peekTokenIs .SEMICOLON st = false ∧ prec < peekPrecedence st then
      match infixFnFor st.peekToken.ttype with
      | none => some (left, st)
      | some ik =>
        let st1 := nextToken st
        match runInfixParselet fuel ik left st1 with
        | none => none
        | some (left1, st2) => parseExpressionLoop fuel prec left1 st2
    else some (left, st)

/-- Dispatch to the registered prefix parselet.  The bodies of
`parseIdentifier` (lines 484-486), `parseBoolean` (254-257),
`parsePrefixExpression` (223-235) and `parseGroupedExpression` (260-270)
are inlined here; `parseIfExpression` and `parseFunctionLiteral` are
separate below. -/
def runPrefixParselet : Nat → PrefixKind → PState → Option (Option Expr × PState)
  | 0, _, _ => none
  | fuel+1, pk, st =>
    match pk with
    | .identP => some (some (.ident st.curToken.literal), st)
    | .intP => some (parseIntegerLiteral st)
    | .boolP => some (some (.boolLit (curTokenIs .TRUE st)), st)
    | .prefixOpP =>
      let op := st.curToken.literal
      let st1 := nextToken st
      match parseExpression fuel PREFIX st1 with
      | none => none
      | some (r, st2) => some (some (.prefixE op r), st2)
    | .groupP =>
      let st1 := nextToken st
      match parseExpression fuel LOWEST st1 with
      | none => none
      | some (e, st2) =>
        match expectPeek .RPAREN st2 with
        | (false, st3) => some (none, st3)
        | (true, st3) => some (e, st3)
    | .ifP => parseIfExpression fuel st
    | .fnP => parseFunctionLiteral fuel st

/-- `p.parseIfExpression()` (part_000 lines 273-304). -/
def parseIfExpression : Nat → PState → Option (Option Expr × PState)
  | 0, _ => none
  | fuel+1, st =>
    match expectPeek .LPAREN st with
    | (false, st1) => some (none, st1)
    | (true, st1) =>
      let st2 := nextToken st1
      match parseExpression fuel LOWEST st2 with
      | none => none
      | some (cond, st3) =>
        match expectPeek .RPAREN st3 with
        | (false, st4) => some (none, st4)
        | (true, st4) =>
          match expectPeek .LBRACE st4 with
          | (false, st5) => some (none, st5)
          | (true, st5) =>
            match parseBlockStatement fuel st5 with
            | none => none
            | some (conseq, st6) =>
              if peekTokenIs .ELSE st6 then
                let st7 := nextToken st6
                match expectPeek .LBRACE st7 with
                | (false, st8) => some (none, st8)
                | (true, st8) =>
                  match parseBlockStatement fuel st8 with
                  | none => none
                  | some (alt, st9) =>
                    some (some (.ifE cond conseq (some alt)), st9)
              else some (some (.ifE cond conseq none), st6)

/-- `p.parseFunctionLiteral()` (part_000 lines 380-402).  Note: when the
parameter list fails it is `nil`, but parsing continues and, if `{`
follows, a FunctionLiteral node is still produced around the `nil` list. -/
def parseFunctionLiteral : Nat → PState → Option (Option Expr × PState)
  | 0, _ => none
  | fuel+1, st =>
    match expectPeek .LPAREN st with
    | (false, st1) => some (none, st1)
    | (true, st1) =>
      match parseFunctionParameters fuel st1 with
      | none => none
      | some (ps, st2) =>
        match expectPeek .LBRACE st2 with
        | (false, st3) => some (none, st3)
        | (true, st3) =>
          match parseBlockStatement fuel st3 with
          | none => none
          | some (body, st4) => some (some (.funcLit ps body), st4)

/-- `p.parseFunctionParameters()` (part_000 lines 407-446). -/
def parseFunctionParameters :
    Nat → PState → Option (Option (List String) × PState)
  | 0, _ => none
  | fuel+1, st =>
    if peekTokenIs .RPAREN st then some (some [], nextToken st)
    else
      let st1 := nextToken st
      match parseParamLoop fuel [st1.curToken.literal] st1 with
      | none => none
      | some (ids, st2) =>
        match expectPeek .RPAREN st2 with
        | (false, st3) => some (none, st3)
        | (true, st3) => some (some ids, st3)

/-- The comma loop of `parseFunctionParameters` (part_000 lines 428-437). -/
def parseParamLoop : Nat → List String → PState → Option (List String × PState)
  | 0, _, _ => none
  | fuel+1, acc, st =>
    if peekTokenIs .COMMA st then
      let st1 := nextToken st
      let st2 := nextToken st1
      parseParamLoop fuel (acc ++ [st2.curToken.literal]) st2
    else some (acc, st)

/-- Dispatch to the registered infix parselet: `parseInfixExpression`
(part_000 lines 238-252) and `parseCallExpression` (309-316) inlined. -/
def runInfixParselet :
    Nat → InfixKind → Option Expr → PState → Option (Option Expr × PState)
  | 0, _, _, _ => none
  | fuel+1, ik, left, st =>
    match ik with
    | .infixOpI =>
      let op := st.curToken.literal
      let prec := curPrecedence st
      let st1 := nextToken st
      match parseExpression fuel prec st1 with
      | none => none
      | some (r, st2) => some (some (.infixE op left r), st2)
    | .callI =>
      match parseCallArguments fuel st with
      | none => none
      | some (args, st1) => some (some (.call left args), st1)

/-- `p.parseCallArguments()` (part_000 lines 321-355). -/
def parseCallArguments :
    Nat → PState → Option (Option (List (Option Expr)) × PState)
  | 0, _ => none
  | fuel+1, st =>
    if peekTokenIs .RPAREN st then some (some [], nextToken st)
    else
      let st1 := nextToken st
      match parseExpression fuel LOWEST st1 with
      | none => none
      | some (a, st2) =>
        match parseArgsLoop fuel [a] st2 with
        | none => none
        | some (args, st3) =>
          match expectPeek .RPAREN st3 with
          | (false, st4) => some (none, st4)
          | (true, st4) => some (some args, st4)

/-- The comma loop of `parseCallArguments` (part_000 lines 339-346). -/
def parseArgsLoop :
    Nat → List (Option Expr) → PState → Option (List (Option Expr) × PState)
  | 0, _, _ => none
  | fuel+1, acc, st =>
    if peekTokenIs .COMMA st then
      let st1 := nextToken st
      let st2 := nextToken st1
      match parseExpression fuel LOWEST st2 with
      | none => none
      | some (a, st3) => parseArgsLoop fuel (acc ++ [a]) st3
    else some (acc, st)

/-- `p.parseBlockStatement()` (part_000 lines 360-375). -/
def parseBlockStatement : Nat → PState → Option (List Stmt × PState)
  | 0, _ => none
  | fuel+1, st => parseBlockLoop fuel [] (nextToken st)

/-- The loop of `parseBlockStatement` (part_000 lines 366-372).  Same
typed-nil infidelity as `parseProgramLoop`: Go appends a failed let
statement (a typed non-nil interface holding a nil pointer), the
embedding drops it. -/
def parseBlockLoop : Nat → List Stmt → PState → Option (List Stmt × PState)
  | 0, _, _ => none
  | fuel+1, acc, st =>
    if curTokenIs .RBRACE st = false ∧ curTokenIs .EOF st = false then
      match parseStatement fuel st with
      | none => none
      | some (sres, st1) =>
        let acc1 := match sres with
          | none => acc
          | some s => acc ++ [s]
        parseBlockLoop fuel acc1 (nextToken st1)
    else some (acc, st)

end

/-- `New(l)` (part_000 lines 50-80): fresh parser over the token stream,
then two `nextToken` calls to fill the window. -/
def newParser (toks : List Token) : PState :=
  nextToken (nextToken
    { toks := toks, curToken := ⟨.ILLEGAL, ""⟩, peekToken := ⟨.ILLEGAL, ""⟩,
      errors := [] })

/-- `p.ParseProgram()` (part_000 lines 88-101). -/
def parseProgram (fuel : Nat) (st : PState) : Option (List Stmt × PState) :=
  parseProgramLoop fuel [] st

/-- A fuel budget linear in the stream length; C8 proves it suffices. -/
def fuelFor (toks : List Token) : Nat := 36 * toks.length + 120

/-- Run the whole pipeline `New` + `ParseProgram` on a token stream. -/
def runParser (toks : List Token) : Option (List Stmt × PState) :=
  parseProgram (fuelFor toks) (newParser toks)

/-- **C1, counterexample.**  The parser's tables are missing every entry the
claim adds over the source: no prefix parselet is registered for STRING,
LBRACKET or LBRACE, no infix parselet for LBRACKET, and `[` has no
precedence entry at all — `peekPrecedence` yields LOWEST for it, not a level
above CALL. -/
theorem c1_tables_missing_entries :
    prefixFnFor .STRING = none ∧
    prefixFnFor .LBRACKET = none ∧
    prefixFnFor .LBRACE = none ∧
    infixFnFor .LBRACKET = none ∧
    precedencesMap .LBRACKET = none ∧
    (precedencesMap .LBRACKET).getD LOWEST = LOWEST ∧
    ¬ (∀ t, (prefixFnFor t).isSome = specPrefixRegistered t) ∧
    ¬ (∀ t, (infixFnFor t).isSome = specInfixRegistered t) ∧
    ¬ (∀ t, precedencesMap t = specPrecedences t) := by
  refine ⟨rfl, rfl, rfl, rfl, rfl, rfl, ?_, ?_, ?_⟩ <;> decide

/-- The registrations `New` actually performs: prefix parselets exactly for
IDENT, INT, BANG, MINUS, TRUE, FALSE, LPAREN, IF, FUNCTION. -/
def srcPrefixRegistered : TokenType → Bool
  | .IDENT => true | .INT => true | .BANG => true | .MINUS => true
  | .TRUE => true | .FALSE => true | .LPAREN => true
  | .IF => true | .FUNCTION => true
  | _ => false

/-- The infix registrations `New` actually performs. -/
def srcInfixRegistered : TokenType → Bool
  | .PLUS => true | .MINUS => true | .SLASH => true | .ASTERISK => true
  | .EQ => true | .NOT_EQ => true | .LT => true | .GT => true
  | .LPAREN => true
  | _ => false

/-- The operator-to-precedence table with the `[`→INDEX row removed: what
the amended claim asserts the source's `precedences` map holds. -/
def specPrecedencesAmended : TokenType → Option Nat
  | .EQ => some EQUALS
  | .NOT_EQ => some EQUALS
  | .LT => some LESSGREATER
  | .GT => some LESSGREATER
  | .PLUS => some SUM
  | .MINUS => some SUM
  | .SLASH => some PRODUCT
  | .ASTERISK => some PRODUCT
  | .LPAREN => some CALL
  | _ => none

/-- **C1, amended.**  At parser construction the dispatch tables contain
exactly the source's entries: prefix parselets for IDENT, INT, BANG, MINUS,
TRUE, FALSE, LPAREN, IF and FUNCTION (so none for STRING, LBRACKET or
LBRACE), infix parselets for the eight binary operators and LPAREN (so none
for LBRACKET), and the precedence table maps `==`,`!=`→EQUALS, `<`,`>`→
LESSGREATER, `+`,`-`→SUM, `/`,`*`→PRODUCT, `(`→CALL and nothing else —
there is no INDEX level, and `[`, being unlisted, falls back to LOWEST. -/
theorem c1_tables_as_in_source :
    (∀ t, (prefixFnFor t).isSome = srcPrefixRegistered t) ∧
    (∀ t, (infixFnFor t).isSome = srcInfixRegistered t) ∧
    (∀ t, precedencesMap t = specPrecedencesAmended t) ∧
    (precedencesMap .LBRACKET).getD LOWEST = LOWEST := by
  refine ⟨?_, ?_, ?_, rfl⟩ <;> decide

/-! ### Claim C7 — left-associativity at equal precedence -/

/-- The tokens `New` registers `parseInfixExpression` for. -/
def infixOpTokens : List TokenType :=
  [.PLUS, .MINUS, .SLASH, .ASTERISK, .EQ, .NOT_EQ, .LT, .GT]

/-- Every ordered pair of binary-operator tokens sharing a precedence
level. -/
def samePrecPairs : List (TokenType × TokenType) :=
  (infixOpTokens.product infixOpTokens).filter
    (fun p => decide (precedencesMap p.1 = precedencesMap p.2))

/-- A binary-operator token as the lexer produces it. -/
def opToken (t : TokenType) : Token := ⟨t, t.str⟩

/-- The token stream of `1 <op1> 2 <op2> 3`. -/
def assocTemplate (o1 o2 : TokenType) : List Token :=
  [⟨.INT, "1"⟩, opToken o1, ⟨.INT, "2"⟩, opToken o2, ⟨.INT, "3"⟩]

/-- The left-associated AST `((1 <op1> 2) <op2> 3)`. -/
def assocExpected (o1 o2 : TokenType) : List Stmt :=
  [.exprS (some (.infixE o2.str
      (some (.infixE o1.str (some (.intLit 1)) (some (.intLit 2))))
      (some (.intLit 3))))]

/-- **C7.**  For every pair of infix operators at the same precedence level
(the 16 pairs drawn from the levels EQUALS, LESSGREATER, SUM and
PRODUCT), parsing
`1 <op1> 2 <op2> 3` yields the left-associated AST `((1 <op1> 2) <op2> 3)`
with no parse errors — the strict `<` comparison against the peek
precedence in `parseExpression` stops the loop at equal precedence, so the
left operand is grouped first. -/
theorem c7_left_assoc :
    samePrecPairs =
      [(.PLUS, .PLUS), (.PLUS, .MINUS), (.MINUS, .PLUS), (.MINUS, .MINUS),
       (.SLASH, .SLASH), (.SLASH, .ASTERISK),
       (.ASTERISK, .SLASH), (.ASTERISK, .ASTERISK),
       (.EQ, .EQ), (.EQ, .NOT_EQ), (.NOT_EQ, .EQ), (.NOT_EQ, .NOT_EQ),
       (.LT, .LT), (.LT, .GT), (.GT, .LT), (.GT, .GT)] ∧
    ∀ p ∈ samePrecPairs,
      (runParser (assocTemplate p.1 p.2)).map (fun r => (r.1, r.2.errors)) =
        some (assocExpected p.1 p.2, []) := by
  refine ⟨by decide, ?_⟩
  intro p hp
  fin_cases hp <;> rfl

/-- **C7, witness.**  The spec's own example: `1 - 2 - 3` parses as
`((1 - 2) - 3)`. -/
theorem c7_left_assoc_witness :
    (TokenType.MINUS, TokenType.MINUS) ∈ samePrecPairs ∧
    (runParser (assocTemplate .MINUS .MINUS)).map (fun r => (r.1, r.2.errors)) =
      some ([.exprS (some (.infixE "-"
          (some (.infixE "-" (some (.intLit 1)) (some (.intLit 2))))
          (some (.intLit 3))))], []) :=
  ⟨by decide, c7_left_assoc.2 (.MINUS, .MINUS) (by decide)⟩

/-! ### Claim C5 — expect_peek failure behaviour

The claim says every parselet in which `expectPeek` fails yields nothing
and its **parent propagates that absence rather than producing a node
around it**, explicitly including the call-argument parselet.  The source
contradicts the parenthetical: `parseCallExpression` (part_000 lines
309-316) stores whatever `parseCallArguments` returned — `nil` included —
into a CallExpression node and returns that node. -/

/-- **C5, counterexample.**  Parsing `add(1` (argument list never closed):
`expectPeek(RPAREN)` fails inside `parseCallArguments`, the error is
recorded and the argument list is `nil` — yet the resulting program
contains a CallExpression node wrapping the `nil` argument list, instead of
the parent propagating the absence. -/
theorem c5_call_wraps_nil_args :
    (runParser [⟨.IDENT, "add"⟩, ⟨.LPAREN, "("⟩, ⟨.INT, "1"⟩]).map
        (fun r => (r.1, r.2.errors)) =
      some ([.exprS (some (.call (some (.ident "add")) none))],
            [peekErrorMsg .RPAREN .EOF]) := rfl

/-- **C5, amended.**  When `expect_peek` fails it always records
`"expected next token to be <kind>, got <actual> instead"` and the
failing parse function returns `nil` — **except** that
`parseCallExpression` always wraps the result of `parseCallArguments`
(the `nil` list included) in a CallExpression node, and
`parseFunctionLiteral` carries a `nil` parameter list forward, wrapping
it in a FunctionLiteral node when a `{` body follows.  The conjuncts
cover, in order: (1) `expectPeek` failure itself; the failure sites in
(2)-(3) `parseLetStatement`, (4) `parseGroupedExpression`, (5)-(8)
`parseIfExpression`, (9)-(10) `parseFunctionLiteral`, (11)
`parseFunctionParameters`, (12) `parseCallArguments`; (13)-(14) the two
wrapping exceptions. -/
theorem c5_expect_peek_failure_amended :
    (∀ t st, st.peekToken.ttype ≠ t →
      expectPeek t st = (false, pushError (peekErrorMsg t st.peekToken.ttype) st)) ∧
    (∀ fuel st, st.peekToken.ttype ≠ .IDENT →
      parseLetStatement (fuel+1) st =
        some (none, pushError (peekErrorMsg .IDENT st.peekToken.ttype) st)) ∧
    (∀ fuel st, st.peekToken.ttype = .IDENT →
      (nextToken st).peekToken.ttype ≠ .ASSIGN →
      parseLetStatement (fuel+1) st =
        some (none, pushError (peekErrorMsg .ASSIGN (nextToken st).peekToken.ttype)
          (nextToken st))) ∧
    (∀ fuel st e st2, parseExpression fuel LOWEST (nextToken st) = some (e, st2) →
      st2.peekToken.ttype ≠ .RPAREN →
      runPrefixParselet (fuel+1) .groupP st =
        some (none, pushError (peekErrorMsg .RPAREN st2.peekToken.ttype) st2)) ∧
    (∀ fuel st, st.peekToken.ttype ≠ .LPAREN →
      parseIfExpression (fuel+1) st =
        some (none, pushError (peekErrorMsg .LPAREN st.peekToken.ttype) st)) ∧
    (∀ fuel st cond st3, st.peekToken.ttype = .LPAREN →
      parseExpression fuel LOWEST (nextToken (nextToken st)) = some (cond, st3) →
      st3.peekToken.ttype ≠ .RPAREN →
      parseIfExpression (fuel+1) st =
        some (none, pushError (peekErrorMsg .RPAREN st3.peekToken.ttype) st3)) ∧
    (∀ fuel st cond st3, st.peekToken.ttype = .LPAREN →
      parseExpression fuel LOWEST (nextToken (nextToken st)) = some (cond, st3) →
      st3.peekToken.ttype = .RPAREN →
      (nextToken st3).peekToken.ttype ≠ .LBRACE →
      parseIfExpression (fuel+1) st =
        some (none, pushError (peekErrorMsg .LBRACE (nextToken st3).peekToken.ttype)
          (nextToken st3))) ∧
    (∀ fuel st cond st3 conseq st6, st.peekToken.ttype = .LPAREN →
      parseExpression fuel LOWEST (nextToken (nextToken st)) = some (cond, st3) →
      st3.peekToken.ttype = .RPAREN →
      (nextToken st3).peekToken.ttype = .LBRACE →
      parseBlockStatement fuel (nextToken (nextToken st3)) = some (conseq, st6) →
      st6.peekToken.ttype = .ELSE →
      (nextToken st6).peekToken.ttype ≠ .LBRACE →
      parseIfExpression (fuel+1) st =
        some (none, pushError (peekErrorMsg .LBRACE (nextToken st6).peekToken.ttype)
          (nextToken st6))) ∧
    (∀ fuel st, st.peekToken.ttype ≠ .LPAREN →
      parseFunctionLiteral (fuel+1) st =
        some (none, pushError (peekErrorMsg .LPAREN st.peekToken.ttype) st)) ∧
    (∀ fuel st ps st2, st.peekToken.ttype = .LPAREN →
      parseFunctionParameters fuel (nextToken st) = some (ps, st2) →
      st2.peekToken.ttype ≠ .LBRACE →
      parseFunctionLiteral (fuel+1) st =
        some (none, pushError (peekErrorMsg .LBRACE st2.peekToken.ttype) st2)) ∧
    (∀ fuel st ids st2, st.peekToken.ttype ≠ .RPAREN →
      parseParamLoop fuel [(nextToken st).curToken.literal] (nextToken st) =
        some (ids, st2) →
      st2.peekToken.ttype ≠ .RPAREN →
      parseFunctionParameters (fuel+1) st =
        some (none, pushError (peekErrorMsg .RPAREN st2.peekToken.ttype) st2)) ∧
    (∀ fuel st a st2 args st3, st.peekToken.ttype ≠ .RPAREN →
      parseExpression fuel LOWEST (nextToken st) = some (a, st2) →
      parseArgsLoop fuel [a] st2 = some (args, st3) →
      st3.peekToken.ttype ≠ .RPAREN →
      parseCallArguments (fuel+1) st =
        some (none, pushError (peekErrorMsg .RPAREN st3.peekToken.ttype) st3)) ∧
    (∀ fuel left st r st1, parseCallArguments fuel st = some (r, st1) →
      runInfixParselet (fuel+1) .callI left st = some (some (.call left r), st1)) ∧
    (∀ fuel st ps st2 body st3, st.peekToken.ttype = .LPAREN →
      parseFunctionParameters fuel (nextToken st) = some (ps, st2) →
      st2.peekToken.ttype = .LBRACE →
      parseBlockStatement fuel (nextToken st2) = some (body, st3) →
      parseFunctionLiteral (fuel+1) st = some (some (.funcLit ps body), st3)) := by
  refine ⟨?_, ?_, ?_, ?_, ?_, ?_, ?_, ?_, ?_, ?_, ?_, ?_, ?_, ?_⟩
  · intro t st h
    simp [expectPeek, peekTokenIs, h]
  · intro fuel st h
    simp [parseLetStatement, expectPeek, peekTokenIs, h]
  · intro fuel st h1 h2
    simp [parseLetStatement, expectPeek, peekTokenIs, h1, h2]
  · intro fuel st e st2 hpe h
    simp [runPrefixParselet, hpe, expectPeek, peekTokenIs, h]
  · intro fuel st h
    simp [parseIfExpression, expectPeek, peekTokenIs, h]
  · intro fuel st cond st3 h1 hpe h2
    simp [parseIfExpression, expectPeek, peekTokenIs, h1, hpe, h2]
  · intro fuel st cond st3 h1 hpe h2 h3
    simp [parseIfExpression, expectPeek, peekTokenIs, h1, hpe, h2, h3]
  · intro fuel st cond st3 conseq st6 h1 hpe h2 h3 hb h4 h5
    simp [parseIfExpression, expectPeek, peekTokenIs, h1, hpe, h2, h3, hb, h4, h5]
  · intro fuel st h
    simp [parseFunctionLiteral, expectPeek, peekTokenIs, h]
  · intro fuel st ps st2 h1 hp h2
    simp [parseFunctionLiteral, expectPeek, peekTokenIs, h1, hp, h2]
  · intro fuel st ids st2 h1 hl h2
    simp [parseFunctionParameters, expectPeek, peekTokenIs, h1, hl, h2]
  · intro fuel st a st2 args st3 h1 hpe hl h2
    simp [parseCallArguments, expectPeek, peekTokenIs, h1, hpe, hl, h2]
  · intro fuel left st r st1 h
    simp [runInfixParselet, h]
  · intro fuel st ps st2 body st3 h1 hp h2 hb
    simp [parseFunctionLiteral, expectPeek, peekTokenIs, h1, hp, h2, hb]

/-- **C5, witness.**  Conjunct 2 at `let 5` (the IDENT check fails: the
error is recorded and the let parselet yields nothing) and conjunct 13 at
the `add(1` state (the call parselet wraps the `nil` argument list). -/
theorem c5_expect_peek_failure_amended_witness :
    ((⟨[], ⟨.LET, "let"⟩, ⟨.INT, "5"⟩, []⟩ : PState).peekToken.ttype ≠ .IDENT ∧
      parseLetStatement 6 ⟨[], ⟨.LET, "let"⟩, ⟨.INT, "5"⟩, []⟩ =
        some (none, pushError (peekErrorMsg .IDENT .INT)
          ⟨[], ⟨.LET, "let"⟩, ⟨.INT, "5"⟩, []⟩)) ∧
    (parseCallArguments 20 ⟨[], ⟨.LPAREN, "("⟩, ⟨.INT, "1"⟩, []⟩ =
        some (none, pushError (peekErrorMsg .RPAREN .EOF)
          ⟨[], ⟨.INT, "1"⟩, ⟨.EOF, ""⟩, []⟩) ∧
      runInfixParselet 21 .callI (some (.ident "add"))
          ⟨[], ⟨.LPAREN, "("⟩, ⟨.INT, "1"⟩, []⟩ =
        some (some (.call (some (.ident "add")) none),
          pushError (peekErrorMsg .RPAREN .EOF) ⟨[], ⟨.INT, "1"⟩, ⟨.EOF, ""⟩, []⟩)) :=
  ⟨⟨by decide,
      c5_expect_peek_failure_amended.2.1 5 ⟨[], ⟨.LET, "let"⟩, ⟨.INT, "5"⟩, []⟩
        (by decide)⟩,
    ⟨rfl,
      c5_expect_peek_failure_amended.2.2.2.2.2.2.2.2.2.2.2.2.1 20
        (some (.ident "add")) ⟨[], ⟨.LPAREN, "("⟩, ⟨.INT, "1"⟩, []⟩ none
        (pushError (peekErrorMsg .RPAREN .EOF) ⟨[], ⟨.INT, "1"⟩, ⟨.EOF, ""⟩, []⟩)
        rfl⟩⟩

/-! ### Claim C8 — termination of ParseProgram

The measure `mu` counts the unread input: three per buffered lexer token
plus two if the peek token is not yet EOF plus one if the current token is
not yet EOF.  `nextToken` never increases it and strictly decreases it
whenever it is positive; every cycle in the parser's call graph passes a
`nextToken` guarded by a non-EOF token, so a fuel linear in `mu` suffices
for the whole mutual recursion. -/

def mu (st : PState) : Nat :=
  3 * st.toks.length + (if st.peekToken.ttype = .EOF then 0 else 2) +
    (if st.curToken.ttype = .EOF then 0 else 1)

@[simp] lemma mu_pushError (m : String) (st : PState) :
    mu (pushError m st) = mu st := rfl

lemma mu_nextToken_le (st : PState) : mu (nextToken st) ≤ mu st := by
  rcases st with ⟨toks, cur, peek, errs⟩
  cases toks with
  | nil =>
    by_cases hp : peek.ttype = .EOF <;> by_cases hc : cur.ttype = .EOF <;>
      simp [mu, nextToken, lexNext, eofToken, hp, hc] <;> omega
  | cons t r =>
    by_cases hp : peek.ttype = .EOF <;> by_cases hc : cur.ttype = .EOF <;>
      by_cases ht : t.ttype = .EOF <;>
      simp [mu, nextToken, lexNext, eofToken, hp, hc, ht] <;> omega

lemma mu_nextToken_lt (st : PState) (h : 0 < mu st) :
    mu (nextToken st) < mu st := by
  rcases st with ⟨toks, cur, peek, errs⟩
  cases toks with
  | nil =>
    by_cases hp : peek.ttype = .EOF <;> by_cases hc : cur.ttype = .EOF <;>
      simp [mu, nextToken, lexNext, eofToken, hp, hc] at h ⊢ <;> omega
  | cons t r =>
    by_cases hp : peek.ttype = .EOF <;> by_cases hc : cur.ttype = .EOF <;>
      by_cases ht : t.ttype = .EOF <;>
      simp [mu, nextToken, lexNext, eofToken, hp, hc, ht] at h ⊢ <;> omega

lemma mu_pos_of_cur_ne (st : PState) (h : st.curToken.ttype ≠ .EOF) :
    0 < mu st := by
  unfold mu; rw [if_neg h]; omega

lemma mu_pos_of_peek_ne (st : PState) (h : st.peekToken.ttype ≠ .EOF) :
    0 < mu st := by
  unfold mu; rw [if_neg h]; omega

lemma mu_zero_parts (st : PState) (h : mu st = 0) :
    st.toks = [] ∧ st.curToken.ttype = .EOF ∧ st.peekToken.ttype = .EOF := by
  unfold mu at h
  split_ifs at h with h1 h2
  exact ⟨List.length_eq_zero.mp (by omega), h2, h1⟩

lemma mu_parseIntegerLiteral (st : PState) :
    mu (parseIntegerLiteral st).2 = mu st := by
  unfold parseIntegerLiteral
  cases goParseInt64 st.curToken.literal <;> simp

lemma expectPeek_true (t : TokenType) (st : PState)
    (hp : peekTokenIs t st = true) :
    expectPeek t st = (true, nextToken st) := by simp [expectPeek, hp]

lemma expectPeek_false (t : TokenType) (st : PState)
    (hp : peekTokenIs t st = false) :
    expectPeek t st = (false, pushError (peekErrorMsg t st.peekToken.ttype) st) := by
  simp [expectPeek, hp]

/-- In the fully-drained state (`mu = 0`: no buffered tokens, EOF in both
window slots) `parseExpression` stops at once: EOF has no prefix parselet. -/
lemma parseExpression_at_empty (k prec : Nat) (st : PState) (h : mu st = 0) :
    parseExpression (k+1) prec st =
      some (none, pushError (noPrefixMsg .EOF) st) ∧
    mu (pushError (noPrefixMsg .EOF) st) = 0 := by
  obtain ⟨-, hc, -⟩ := mu_zero_parts st h
  constructor
  · simp [parseExpression, hc, prefixFnFor]
  · simpa using h

lemma infixFnFor_ne_eof (t : TokenType) (ik : InfixKind)
    (h : infixFnFor t = some ik) : t ≠ .EOF := by
  rintro rfl; simp [infixFnFor] at h

/-- Fuel sufficiency for the whole mutual parser: with fuel exceeding
twelve times the measure plus a per-function rank, every parser function
returns a result, and the result state's measure never exceeds the input
state's.  One conjunct per function, ranks decreasing along same-measure
call edges; measure-decreasing edges can raise the rank again. -/
lemma parserFuelSufficient : ∀ n : Nat,
    (∀ st acc, 12 * mu st + 10 < n →
      ∃ out st2, parseProgramLoop n acc st = some (out, st2) ∧ mu st2 ≤ mu st) ∧
    (∀ st, 12 * mu st + 11 < n →
      ∃ out st2, parseBlockStatement n st = some (out, st2) ∧ mu st2 ≤ mu st) ∧
    (∀ st acc, 12 * mu st + 10 < n →
      ∃ out st2, parseBlockLoop n acc st = some (out, st2) ∧ mu st2 ≤ mu st) ∧
    (∀ st, 12 * mu st + 9 < n →
      ∃ out st2, parseStatement n st = some (out, st2) ∧ mu st2 ≤ mu st) ∧
    (∀ st, 12 * mu st + 8 < n →
      ∃ out st2, parseLetStatement n st = some (out, st2) ∧ mu st2 ≤ mu st) ∧
    (∀ st, 12 * mu st + 8 < n →
      ∃ out st2, parseReturnStatement n st = some (out, st2) ∧ mu st2 ≤ mu st) ∧
    (∀ st, 12 * mu st + 8 < n →
      ∃ out st2, parseExpressionStatement n st = some (out, st2) ∧ mu st2 ≤ mu st) ∧
    (∀ st prec, 12 * mu st + 7 < n →
      ∃ out st2, parseExpression n prec st = some (out, st2) ∧ mu st2 ≤ mu st) ∧
    (∀ st pk, 12 * mu st + 6 < n →
      ∃ out st2, runPrefixParselet n pk st = some (out, st2) ∧ mu st2 ≤ mu st) ∧
    (∀ st prec left, 12 * mu st + 6 < n →
      ∃ out st2, parseExpressionLoop n prec left st = some (out, st2) ∧
        mu st2 ≤ mu st) ∧
    (∀ st ik left, 12 * mu st + 6 < n →
      ∃ out st2, runInfixParselet n ik left st = some (out, st2) ∧
        mu st2 ≤ mu st) ∧
    (∀ st, 12 * mu st + 5 < n →
      ∃ out st2, parseIfExpression n st = some (out, st2) ∧ mu st2 ≤ mu st) ∧
    (∀ st, 12 * mu st + 5 < n →
      ∃ out st2, parseFunctionLiteral n st = some (out, st2) ∧ mu st2 ≤ mu st) ∧
    (∀ st, 12 * mu st + 4 < n →
      ∃ out st2, parseCallArguments n st = some (out, st2) ∧ mu st2 ≤ mu st) ∧
    (∀ st, 12 * mu st + 4 < n →
      ∃ out st2, parseFunctionParameters n st = some (out, st2) ∧ mu st2 ≤ mu st) ∧
    (∀ st acc, 12 * mu st + 3 < n →
      ∃ out st2, parseArgsLoop n acc st = some (out, st2) ∧ mu st2 ≤ mu st) ∧
    (∀ st acc, 12 * mu st + 3 < n →
      ∃ out st2, parseParamLoop n acc st = some (out, st2) ∧ mu st2 ≤ mu st) := by
  intro n
  induction n with
  | zero =>
    refine ⟨?_, ?_, ?_, ?_, ?_, ?_, ?_, ?_, ?_, ?_, ?_, ?_, ?_, ?_, ?_, ?_, ?_⟩ <;>
      (intros; omega)
  | succ n ih =>
    obtain ⟨IHprog, IHblockS, IHblockL, IHstmt, IHlet, IHret, IHexprS, IHexpr,
      IHpre, IHloop, IHinf, IHif, IHfn, IHcallA, IHfnP, IHargsL, IHparamL⟩ := ih
    refine ⟨?_, ?_, ?_, ?_, ?_, ?_, ?_, ?_, ?_, ?_, ?_, ?_, ?_, ?_, ?_, ?_, ?_⟩
    -- parseProgramLoop (rank 10)
    · intro st acc h
      cases hEOF : curTokenIs .EOF st with
      | true => exact ⟨acc, st, by simp [parseProgramLoop, hEOF], le_rfl⟩
      | false =>
        have hcne : st.curToken.ttype ≠ .EOF := by simpa [curTokenIs] using hEOF
        have hpos : 0 < mu st := mu_pos_of_cur_ne st hcne
        obtain ⟨sres, st1, hps, hm1⟩ := IHstmt st (by omega)
        have hm3 : mu (nextToken st1) < mu st := by
          rcases Nat.eq_zero_or_pos (mu st1) with h0 | hp1
          · have h4 := mu_nextToken_le st1; omega
          · have h4 := mu_nextToken_lt st1 hp1; omega
        cases sres with
        | none =>
          obtain ⟨out2, st2, hrec, hm2⟩ := IHprog (nextToken st1) acc (by omega)
          refine ⟨out2, st2, ?_, by omega⟩
          simp only [parseProgramLoop, hEOF, hps]
          simpa using hrec
        | some s =>
          obtain ⟨out2, st2, hrec, hm2⟩ :=
            IHprog (nextToken st1) (acc ++ [s]) (by omega)
          refine ⟨out2, st2, ?_, by omega⟩
          simp only [parseProgramLoop, hEOF, hps]
          simpa using hrec
    -- parseBlockStatement (rank 11)
    · intro st h
      have hle := mu_nextToken_le st
      obtain ⟨out, st2, hr, hm⟩ := IHblockL (nextToken st) [] (by omega)
      exact ⟨out, st2, by simp only [parseBlockStatement]; exact hr, by omega⟩
    -- parseBlockLoop (rank 10)
    · intro st acc h
      by_cases hg : curTokenIs .RBRACE st = false ∧ curTokenIs .EOF st = false
      · have hcne : st.curToken.ttype ≠ .EOF := by simpa [curTokenIs] using hg.2
        have hpos : 0 < mu st := mu_pos_of_cur_ne st hcne
        obtain ⟨sres, st1, hps, hm1⟩ := IHstmt st (by omega)
        have hm3 : mu (nextToken st1) < mu st := by
          rcases Nat.eq_zero_or_pos (mu st1) with h0 | hp1
          · have h4 := mu_nextToken_le st1; omega
          · have h4 := mu_nextToken_lt st1 hp1; omega
        cases sres with
        | none =>
          obtain ⟨out2, st2, hrec, hm2⟩ := IHblockL (nextToken st1) acc (by omega)
          refine ⟨out2, st2, ?_, by omega⟩
          simp only [parseBlockLoop]
          rw [if_pos hg]
          simp only [hps]
          simpa using hrec
        | some s =>
          obtain ⟨out2, st2, hrec, hm2⟩ :=
            IHblockL (nextToken st1) (acc ++ [s]) (by omega)
          refine ⟨out2, st2, ?_, by omega⟩
          simp only [parseBlockLoop]
          rw [if_pos hg]
          simp only [hps]
          simpa using hrec
      · exact ⟨acc, st, by simp only [parseBlockLoop]; rw [if_neg hg], le_rfl⟩
    -- parseStatement (rank 9)
    · intro st h
      cases hty : st.curToken.ttype <;>
        simp only [parseStatement, hty] <;>
        first
          | exact IHlet st (by omega)
          | exact IHret st (by omega)
          | exact IHexprS st (by omega)
    -- parseLetStatement (rank 8)
    · intro st h
      cases hp1 : peekTokenIs .IDENT st with
      | false =>
        refine ⟨none, pushError (peekErrorMsg .IDENT st.peekToken.ttype) st,
          ?_, by rw [mu_pushError]⟩
        simp [parseLetStatement, expectPeek_false _ _ hp1]
      | true =>
        have he1 := expectPeek_true _ _ hp1
        have hle1 := mu_nextToken_le st
        cases hp2 : peekTokenIs .ASSIGN (nextToken st) with
        | false =>
          refine ⟨none, pushError
            (peekErrorMsg .ASSIGN (nextToken st).peekToken.ttype) (nextToken st),
            ?_, by rw [mu_pushError]; omega⟩
          simp [parseLetStatement, he1, expectPeek_false _ _ hp2]
        | true =>
          have he2 := expectPeek_true _ _ hp2
          have hle2 := mu_nextToken_le (nextToken st)
          have hle3 := mu_nextToken_le (nextToken (nextToken st))
          obtain ⟨v, st4, hpe, hm4⟩ :=
            IHexpr (nextToken (nextToken (nextToken st))) LOWEST (by omega)
          have hle4 := mu_nextToken_le st4
          refine ⟨some (.letS (nextToken st).curToken.literal v),
            if peekTokenIs .SEMICOLON st4 then nextToken st4 else st4, ?_, ?_⟩
          · simp only [parseLetStatement, he1, he2, hpe]
          · split_ifs <;> omega
    -- parseReturnStatement (rank 8)
    · intro st h
      have hle1 := mu_nextToken_le st
      obtain ⟨v, st2, hpe, hm2⟩ := IHexpr (nextToken st) LOWEST (by omega)
      have hle2 := mu_nextToken_le st2
      refine ⟨some (.returnS v),
        if peekTokenIs .SEMICOLON st2 then nextToken st2 else st2, ?_, ?_⟩
      · simp only [parseReturnStatement, hpe]
      · split_ifs <;> omega
    -- parseExpressionStatement (rank 8)
    · intro st h
      obtain ⟨e, st1, hpe, hm1⟩ := IHexpr st LOWEST (by omega)
      have hle1 := mu_nextToken_le st1
      refine ⟨some (.exprS e),
        if peekTokenIs .SEMICOLON st1 then nextToken st1 else st1, ?_, ?_⟩
      · simp only [parseExpressionStatement, hpe]
      · split_ifs <;> omega
    -- parseExpression (rank 7)
    · intro st prec h
      cases hpf : prefixFnFor st.curToken.ttype with
      | none =>
        exact ⟨none, pushError (noPrefixMsg st.curToken.ttype) st,
          by simp [parseExpression, hpf], by rw [mu_pushError]⟩
      | some pk =>
        obtain ⟨left, st1, hpp, hm1⟩ := IHpre st pk (by omega)
        obtain ⟨out2, st2, hloop, hm2⟩ := IHloop st1 prec left (by omega)
        exact ⟨out2, st2,
          by simp only [parseExpression, hpf, hpp]; exact hloop, by omega⟩
    -- runPrefixParselet (rank 6)
    · intro st pk h
      cases pk with
      | identP =>
        exact ⟨some (.ident st.curToken.literal), st,
          by simp [runPrefixParselet], le_rfl⟩
      | intP =>
        refine ⟨(parseIntegerLiteral st).1, (parseIntegerLiteral st).2,
          ?_, le_of_eq (mu_parseIntegerLiteral st)⟩
        simp [runPrefixParselet]
      | boolP =>
        exact ⟨some (.boolLit (curTokenIs .TRUE st)), st,
          by simp [runPrefixParselet], le_rfl⟩
      | prefixOpP =>
        rcases Nat.eq_zero_or_pos (mu st) with h0 | hpos
        · obtain ⟨k, rfl⟩ : ∃ k, n = k + 1 := ⟨n - 1, by omega⟩
          have hz0 : mu (nextToken st) = 0 := by
            have := mu_nextToken_le st; omega
          obtain ⟨heq, hmz⟩ := parseExpression_at_empty k PREFIX (nextToken st) hz0
          refine ⟨some (.prefixE st.curToken.literal none),
            pushError (noPrefixMsg .EOF) (nextToken st), ?_, by omega⟩
          simp only [runPrefixParselet, heq]
        · have hlt := mu_nextToken_lt st hpos
          obtain ⟨r, st2, hpe, hm⟩ := IHexpr (nextToken st) PREFIX (by omega)
          exact ⟨some (.prefixE st.curToken.literal r), st2,
            by simp only [runPrefixParselet, hpe], by omega⟩
      | groupP =>
        rcases Nat.eq_zero_or_pos (mu st) with h0 | hpos
        · obtain ⟨k, rfl⟩ : ∃ k, n = k + 1 := ⟨n - 1, by omega⟩
          have hz0 : mu (nextToken st) = 0 := by
            have := mu_nextToken_le st; omega
          obtain ⟨heq, hmz⟩ := parseExpression_at_empty k LOWEST (nextToken st) hz0
          obtain ⟨-, -, hpk⟩ := mu_zero_parts (nextToken st) hz0
          have hrp : peekTokenIs .RPAREN
              (pushError (noPrefixMsg .EOF) (nextToken st)) = false := by
            simp [peekTokenIs, pushError, hpk]
          refine ⟨none, pushError
            (peekErrorMsg .RPAREN
              (pushError (noPrefixMsg .EOF) (nextToken st)).peekToken.ttype)
            (pushError (noPrefixMsg .EOF) (nextToken st)), ?_,
            by rw [mu_pushError]; omega⟩
          simp only [runPrefixParselet, heq, expectPeek_false _ _ hrp]
        · have hlt := mu_nextToken_lt st hpos
          obtain ⟨e, st2, hpe, hm⟩ := IHexpr (nextToken st) LOWEST (by omega)
          cases hrp : peekTokenIs .RPAREN st2 with
          | false =>
            refine ⟨none,
              pushError (peekErrorMsg .RPAREN st2.peekToken.ttype) st2, ?_,
              by rw [mu_pushError]; omega⟩
            simp only [runPrefixParselet, hpe, expectPeek_false _ _ hrp]
          | true =>
            have hle2 := mu_nextToken_le st2
            refine ⟨e, nextToken st2, ?_, by omega⟩
            simp only [runPrefixParselet, hpe, expectPeek_true _ _ hrp]
      | ifP =>
        obtain ⟨out, st2, hr, hm⟩ := IHif st (by omega)
        exact ⟨out, st2, by simp only [runPrefixParselet]; exact hr, hm⟩
      | fnP =>
        obtain ⟨out, st2, hr, hm⟩ := IHfn st (by omega)
        exact ⟨out, st2, by simp only [runPrefixParselet]; exact hr, hm⟩
    -- parseExpressionLoop (rank 6)
    · intro st prec left h
      by_cases hg : peekTokenIs .SEMICOLON st = false ∧ prec < peekPrecedence st
      · cases hif : infixFnFor st.peekToken.ttype with
        | none =>
          refine ⟨left, st, ?_, le_rfl⟩
          simp only [parseExpressionLoop]
          rw [if_pos hg]
          simp [hif]
        | some ik =>
          have hne := infixFnFor_ne_eof _ _ hif
          have hpos : 0 < mu st := mu_pos_of_peek_ne st hne
          have hlt := mu_nextToken_lt st hpos
          obtain ⟨left1, st2, hinf, hm2⟩ := IHinf (nextToken st) ik left (by omega)
          obtain ⟨out3, st3, hrec, hm3⟩ := IHloop st2 prec left1 (by omega)
          refine ⟨out3, st3, ?_, by omega⟩
          simp only [parseExpressionLoop]
          rw [if_pos hg]
          simp only [hif, hinf]
          simpa using hrec
      · exact ⟨left, st,
          by simp only [parseExpressionLoop]; rw [if_neg hg], le_rfl⟩
    -- runInfixParselet (rank 6)
    · intro st ik left h
      cases ik with
      | infixOpI =>
        rcases Nat.eq_zero_or_pos (mu st) with h0 | hpos
        · obtain ⟨k, rfl⟩ : ∃ k, n = k + 1 := ⟨n - 1, by omega⟩
          have hz0 : mu (nextToken st) = 0 := by
            have := mu_nextToken_le st; omega
          obtain ⟨heq, hmz⟩ :=
            parseExpression_at_empty k (curPrecedence st) (nextToken st) hz0
          refine ⟨some (.infixE st.curToken.literal left none),
            pushError (noPrefixMsg .EOF) (nextToken st), ?_, by omega⟩
          simp only [runInfixParselet, heq]
        · have hlt := mu_nextToken_lt st hpos
          obtain ⟨r, st2, hpe, hm⟩ :=
            IHexpr (nextToken st) (curPrecedence st) (by omega)
          exact ⟨some (.infixE st.curToken.literal left r), st2,
            by simp only [runInfixParselet, hpe], by omega⟩
      | callI =>
        obtain ⟨args, st1, hca, hm⟩ := IHcallA st (by omega)
        exact ⟨some (.call left args), st1,
          by simp only [runInfixParselet, hca], hm⟩
    -- parseIfExpression (rank 5)
    · intro st h
      cases hp1 : peekTokenIs .LPAREN st with
      | false =>
        refine ⟨none, pushError (peekErrorMsg .LPAREN st.peekToken.ttype) st,
          ?_, by rw [mu_pushError]⟩
        simp [parseIfExpression, expectPeek_false _ _ hp1]
      | true =>
        have hpeek : st.peekToken.ttype = .LPAREN := by
          simpa [peekTokenIs] using hp1
        have hpos : 0 < mu st := mu_pos_of_peek_ne st (by simp [hpeek])
        have he1 := expectPeek_true _ _ hp1
        have hlt1 := mu_nextToken_lt st hpos
        have hle2 := mu_nextToken_le (nextToken st)
        obtain ⟨cond, st3, hpe, hm3⟩ :=
          IHexpr (nextToken (nextToken st)) LOWEST (by omega)
        cases hp2 : peekTokenIs .RPAREN st3 with
        | false =>
          refine ⟨none, pushError (peekErrorMsg .RPAREN st3.peekToken.ttype) st3,
            ?_, by rw [mu_pushError]; omega⟩
          simp only [parseIfExpression, he1, hpe, expectPeek_false _ _ hp2]
        | true =>
          have he2 := expectPeek_true _ _ hp2
          have hle3 := mu_nextToken_le st3
          cases hp3 : peekTokenIs .LBRACE (nextToken st3) with
          | false =>
            refine ⟨none, pushError
              (peekErrorMsg .LBRACE (nextToken st3).peekToken.ttype)
              (nextToken st3), ?_, by rw [mu_pushError]; omega⟩
            simp only [parseIfExpression, he1, hpe, he2, expectPeek_false _ _ hp3]
          | true =>
            have he3 := expectPeek_true _ _ hp3
            have hle4 := mu_nextToken_le (nextToken st3)
            obtain ⟨conseq, st6, hbl, hm6⟩ :=
              IHblockS (nextToken (nextToken st3)) (by omega)
            cases hp4 : peekTokenIs .ELSE st6 with
            | false =>
              refine ⟨some (.ifE cond conseq none), st6, ?_, by omega⟩
              simp only [parseIfExpression, he1, hpe, he2, he3, hbl, hp4]
              simp
            | true =>
              have hle6 := mu_nextToken_le st6
              cases hp5 : peekTokenIs .LBRACE (nextToken st6) with
              | false =>
                refine ⟨none, pushError
                  (peekErrorMsg .LBRACE (nextToken st6).peekToken.ttype)
                  (nextToken st6), ?_, by rw [mu_pushError]; omega⟩
                simp only [parseIfExpression, he1, hpe, he2, he3, hbl, hp4,
                  expectPeek_false _ _ hp5]
                simp
              | true =>
                have he5 := expectPeek_true _ _ hp5
                have hle7 := mu_nextToken_le (nextToken st6)
                obtain ⟨alt, st9, hbl2, hm9⟩ :=
                  IHblockS (nextToken (nextToken st6)) (by omega)
                refine ⟨some (.ifE cond conseq (some alt)), st9, ?_, by omega⟩
                simp only [parseIfExpression, he1, hpe, he2, he3, hbl, hp4, he5,
                  hbl2]
                simp
    -- parseFunctionLiteral (rank 5)
    · intro st h
      cases hp1 : peekTokenIs .LPAREN st with
      | false =>
        refine ⟨none, pushError (peekErrorMsg .LPAREN st.peekToken.ttype) st,
          ?_, by rw [mu_pushError]⟩
        simp [parseFunctionLiteral, expectPeek_false _ _ hp1]
      | true =>
        have hpeek : st.peekToken.ttype = .LPAREN := by
          simpa [peekTokenIs] using hp1
        have hpos : 0 < mu st := mu_pos_of_peek_ne st (by simp [hpeek])
        have he1 := expectPeek_true _ _ hp1
        have hlt1 := mu_nextToken_lt st hpos
        obtain ⟨ps, st2, hfp, hm2⟩ := IHfnP (nextToken st) (by omega)
        cases hp2 : peekTokenIs .LBRACE st2 with
        | false =>
          refine ⟨none, pushError (peekErrorMsg .LBRACE st2.peekToken.ttype) st2,
            ?_, by rw [mu_pushError]; omega⟩
          simp only [parseFunctionLiteral, he1, hfp, expectPeek_false _ _ hp2]
        | true =>
          have he2 := expectPeek_true _ _ hp2
          have hle3 := mu_nextToken_le st2
          obtain ⟨body, st4, hbl, hm4⟩ := IHblockS (nextToken st2) (by omega)
          refine ⟨some (.funcLit ps body), st4, ?_, by omega⟩
          simp only [parseFunctionLiteral, he1, hfp, he2, hbl]
    -- parseCallArguments (rank 4)
    · intro st h
      cases hp : peekTokenIs .RPAREN st with
      | true =>
        exact ⟨some [], nextToken st, by simp [parseCallArguments, hp],
          mu_nextToken_le st⟩
      | false =>
        rcases Nat.eq_zero_or_pos (mu st) with h0 | hpos
        · obtain ⟨k, rfl⟩ : ∃ k, n = k + 1 := ⟨n - 1, by omega⟩
          have hz0 : mu (nextToken st) = 0 := by
            have := mu_nextToken_le st; omega
          obtain ⟨heq, hmz⟩ := parseExpression_at_empty k LOWEST (nextToken st) hz0
          obtain ⟨-, -, hpk⟩ := mu_zero_parts (nextToken st) hz0
          have hcm : peekTokenIs .COMMA
              (pushError (noPrefixMsg .EOF) (nextToken st)) = false := by
            simp [peekTokenIs, pushError, hpk]
          have hrp : peekTokenIs .RPAREN
              (pushError (noPrefixMsg .EOF) (nextToken st)) = false := by
            simp [peekTokenIs, pushError, hpk]
          obtain ⟨m, rfl⟩ : ∃ m, k = m + 1 := ⟨k - 1, by omega⟩
          refine ⟨none, pushError
            (peekErrorMsg .RPAREN
              (pushError (noPrefixMsg .EOF) (nextToken st)).peekToken.ttype)
            (pushError (noPrefixMsg .EOF) (nextToken st)), ?_,
            by rw [mu_pushError]; omega⟩
          simp [parseCallArguments, hp, heq, parseArgsLoop, hcm,
            expectPeek_false _ _ hrp]
        · have hlt := mu_nextToken_lt st hpos
          obtain ⟨a, st2, hpe, hm2⟩ := IHexpr (nextToken st) LOWEST (by omega)
          obtain ⟨args, st3, hal, hm3⟩ := IHargsL st2 [a] (by omega)
          cases hrp : peekTokenIs .RPAREN st3 with
          | false =>
            refine ⟨none, pushError (peekErrorMsg .RPAREN st3.peekToken.ttype)
              st3, ?_, by rw [mu_pushError]; omega⟩
            simp only [parseCallArguments, hp, hpe, hal,
              expectPeek_false _ _ hrp]
            simp
          | true =>
            have hle4 := mu_nextToken_le st3
            refine ⟨some args, nextToken st3, ?_, by omega⟩
            simp only [parseCallArguments, hp, hpe, hal, expectPeek_true _ _ hrp]
            simp
    -- parseFunctionParameters (rank 4)
    · intro st h
      cases hp : peekTokenIs .RPAREN st with
      | true =>
        exact ⟨some [], nextToken st, by simp [parseFunctionParameters, hp],
          mu_nextToken_le st⟩
      | false =>
        have hle1 := mu_nextToken_le st
        obtain ⟨ids, st2, hpl, hm2⟩ := IHparamL (nextToken st)
          [(nextToken st).curToken.literal] (by omega)
        cases hrp : peekTokenIs .RPAREN st2 with
        | false =>
          refine ⟨none, pushError (peekErrorMsg .RPAREN st2.peekToken.ttype) st2,
            ?_, by rw [mu_pushError]; omega⟩
          simp only [parseFunctionParameters, hp, hpl, expectPeek_false _ _ hrp]
          simp
        | true =>
          have hle3 := mu_nextToken_le st2
          refine ⟨some ids, nextToken st2, ?_, by omega⟩
          simp only [parseFunctionParameters, hp, hpl, expectPeek_true _ _ hrp]
          simp
    -- parseArgsLoop (rank 3)
    · intro st acc h
      cases hcm : peekTokenIs .COMMA st with
      | false => exact ⟨acc, st, by simp [parseArgsLoop, hcm], le_rfl⟩
      | true =>
        have hpeek : st.peekToken.ttype = .COMMA := by
          simpa [peekTokenIs] using hcm
        have hpos : 0 < mu st := mu_pos_of_peek_ne st (by simp [hpeek])
        have hlt1 := mu_nextToken_lt st hpos
        have hle2 := mu_nextToken_le (nextToken st)
        obtain ⟨a, st3, hpe, hm3⟩ :=
          IHexpr (nextToken (nextToken st)) LOWEST (by omega)
        obtain ⟨out4, st4, hrec, hm4⟩ := IHargsL st3 (acc ++ [a]) (by omega)
        refine ⟨out4, st4, ?_, by omega⟩
        simp only [parseArgsLoop, hcm, hpe]
        simpa using hrec
    -- parseParamLoop (rank 3)
    · intro st acc h
      cases hcm : peekTokenIs .COMMA st with
      | false => exact ⟨acc, st, by simp [parseParamLoop, hcm], le_rfl⟩
      | true =>
        have hpeek : st.peekToken.ttype = .COMMA := by
          simpa [peekTokenIs] using hcm
        have hpos : 0 < mu st := mu_pos_of_peek_ne st (by simp [hpeek])
        have hlt1 := mu_nextToken_lt st hpos
        have hle2 := mu_nextToken_le (nextToken st)
        obtain ⟨out3, st3, hrec, hm3⟩ := IHparamL (nextToken (nextToken st))
          (acc ++ [(nextToken (nextToken st)).curToken.literal]) (by omega)
        refine ⟨out3, st3, ?_, by omega⟩
        simp only [parseParamLoop, hcm]
        simpa using hrec

/-- **C8.**  For every finite token stream (the lexer yields EOF forever
past its end), running `New` + `ParseProgram` with the linear fuel budget
`fuelFor` terminates with a (possibly empty) statement list: the Go parser
loops always finish on such a stream. -/
theorem c8_parse_program_terminates (toks : List Token) :
    ∃ prog st2, runParser toks = some (prog, st2) := by
  have hmu0 : mu (PState.mk toks ⟨.ILLEGAL, ""⟩ ⟨.ILLEGAL, ""⟩ []) =
      3 * toks.length + 3 := by
    simp [mu]
  have h1 := mu_nextToken_le (PState.mk toks ⟨.ILLEGAL, ""⟩ ⟨.ILLEGAL, ""⟩ [])
  have h2 := mu_nextToken_le
    (nextToken (PState.mk toks ⟨.ILLEGAL, ""⟩ ⟨.ILLEGAL, ""⟩ []))
  have hbound : 12 * mu (newParser toks) + 10 < fuelFor toks := by
    unfold newParser fuelFor
    omega
  obtain ⟨prog, st2, heq, -⟩ :=
    (parserFuelSufficient (fuelFor toks)).1 (newParser toks) [] hbound
  exact ⟨prog, st2, heq⟩


/-! ## Objects (the `object` package, modelled from spec §3 "Values")

Every Go object here is a pointer; the embedding gives each constructed
object the allocation reference (`ref`) it was born with, drawn from a
counter in the evaluator state.  Go's `==` on two `object.Object` interface
values — pointer identity — is therefore `objRef` equality.  `nil`
`object.Object` interface values are `none : Option Obj`; they really occur
(a `let` statement evaluates to nil) and the sources crash on most of them,
modelled as an overall `none` result. -/

/-- `object.HashKey`: (type, value) pairs for the three hashable types.
The string case carries the string itself rather than its fnv-64a digest
(hash collisions are not modelled; equal contents give equal keys, as the
spec requires). -/
inductive HashKey where
  | intKey (value : Int)
  | boolKey (value : Bool)
  | strKey (value : String)
  deriving DecidableEq, Repr

inductive Obj where
  | integer (ref : Nat) (value : Int)
  | boolean (ref : Nat) (value : Bool)
  | null (ref : Nat)
  | str (ref : Nat) (value : String)
  | returnValue (ref : Nat) (value : Option Obj)
  | error (ref : Nat) (message : String)
  | function (ref : Nat) (params : Option (List String)) (body : List Stmt)
      (env : Nat)
  | array (ref : Nat) (elements : List (Option Obj))
  | hash (ref : Nat) (pairs : List (HashKey × Obj × Option Obj))
  | builtin (ref : Nat) (name : String)

def objRef : Obj → Nat
  | .integer r _ => r
  | .boolean r _ => r
  | .null r => r
  | .str r _ => r
  | .returnValue r _ => r
  | .error r _ => r
  | .function r _ _ _ => r
  | .array r _ => r
  | .hash r _ => r
  | .builtin r _ => r

/-- The `ObjectType` constants. -/
def INTEGER_OBJ : String := "INTEGER"
def BOOLEAN_OBJ : String := "BOOLEAN"
def NULL_OBJ : String := "NULL"
def STRING_OBJ : String := "STRING"
def RETURN_VALUE_OBJ : String := "RETURN_VALUE"
def ERROR_OBJ : String := "ERROR"
def FUNCTION_OBJ : String := "FUNCTION"
def ARRAY_OBJ : String := "ARRAY"
def HASH_OBJ : String := "HASH"
def BUILTIN_OBJ : String := "BUILTIN"

/-- `obj.Type()`. -/
def typeTag : Obj → String
  | .integer .. => INTEGER_OBJ
  | .boolean .. => BOOLEAN_OBJ
  | .null .. => NULL_OBJ
  | .str .. => STRING_OBJ
  | .returnValue .. => RETURN_VALUE_OBJ
  | .error .. => ERROR_OBJ
  | .function .. => FUNCTION_OBJ
  | .array .. => ARRAY_OBJ
  | .hash .. => HASH_OBJ
  | .builtin .. => BUILTIN_OBJ

/-- The process-wide singletons (evaluator.go lines 9-13), with the fixed
refs 0, 1, 2. -/
def NULLobj : Obj := .null 0
def TRUEobj : Obj := .boolean 1 true
def FALSEobj : Obj := .boolean 2 false

/-- Modelled from the spec (§4.4): the read-only `builtins` table of the
missing builtins.go, holding the six baseline builtins at fixed refs 3-8. -/
def builtins : String → Option Obj
  | "len" => some (.builtin 3 "len")
  | "first" => some (.builtin 4 "first")
  | "last" => some (.builtin 5 "last")
  | "rest" => some (.builtin 6 "rest")
  | "push" => some (.builtin 7 "push")
  | "puts" => some (.builtin 8 "puts")
  | _ => none

/-- `object.Hashable`: Integer, Boolean and String have `HashKey()`. -/
def hashKeyOf : Obj → Option HashKey
  | .integer _ v => some (.intKey v)
  | .boolean _ b => some (.boolKey b)
  | .str _ s => some (.strKey s)
  | _ => none

/-! ## Environments (src/object/environment.go), as a heap of frames

Environments are shared and mutable, so they live in a heap indexed by
`Nat` refs; `outer` of a frame always points to an earlier-created frame
(`NewEnclosedEnvironment` receives an already-existing environment), so
chains strictly descend and a walk from ref `i` takes at most `i+1`
steps. -/

structure Frame where
  store : List (String × Option Obj)
  outer : Option Nat

/-- Evaluator state: the environment heap plus the allocation counter
(refs 0-8 are reserved for the singletons and builtins). -/
structure EState where
  frames : List Frame
  nextRef : Nat

def alloc (st : EState) : Nat × EState :=
  (st.nextRef, { st with nextRef := st.nextRef + 1 })

/-- Go map read. -/
def storeGet : List (String × Option Obj) → String → Option (Option Obj)
  | [], _ => none
  | (k, v) :: rest, name => if k = name then some v else storeGet rest name

/-- Go map write (overwrite or add). -/
def storeSet : List (String × Option Obj) → String → Option Obj →
    List (String × Option Obj)
  | [], name, v => [(name, v)]
  | (k, w) :: rest, name, v =>
    if k = name then (k, v) :: rest else (k, w) :: storeSet rest name v

/-- The recursion of `Environment.Get`, fuelled by the starting ref: outer
refs strictly descend in every state the evaluator builds, so `i+1` steps
always reach the chain's end. -/
def envGetAux : Nat → EState → Nat → String → Option (Option Obj)
  | 0, _, _, _ => none
  | fuel+1, st, i, name =>
    match st.frames.get? i with
    | none => none
    | some fr =>
      match storeGet fr.store name with
      | some v => some v
      | none =>
        match fr.outer with
        | none => none
        | some o => envGetAux fuel st o name

/-- `e.Get(name)` (environment.go lines 28-34): innermost binding, else
recurse into `outer`, else not found. -/
def envGet (st : EState) (i : Nat) (name : String) : Option (Option Obj) :=
  envGetAux (i+1) st i name

/-- `e.Set(name, val)` (environment.go lines 39-42): always writes the
innermost frame. -/
def envSet (st : EState) (i : Nat) (name : String) (v : Option Obj) : EState :=
  match st.frames.get? i with
  | none => st
  | some fr =>
    { st with
      frames := st.frames.set i { fr with store := storeSet fr.store name v } }

/-- `NewEnclosedEnvironment(outer)` (environment.go lines 3-7). -/
def newEnclosedEnvironment (outer : Nat) (st : EState) : Nat × EState :=
  (st.frames.length, { st with frames := st.frames ++ [⟨[], some outer⟩] })

/-- The state a fresh session starts from: one root environment, allocation
counter past the reserved refs. -/
def initEState : EState := { frames := [⟨[], none⟩], nextRef := 9 }

/-! ## Shared evaluator helpers (identical in evaluator.go and part_001) -/

/-- `newError(format, a...)` — allocates a fresh Error object. -/
def newError (msg : String) (st : EState) : Obj × EState :=
  let (r, st1) := alloc st
  (.error r msg, st1)

/-- `nativeBoolToBooleanObject` (evaluator.go lines 302-307). -/
def nativeBoolToBooleanObject (input : Bool) : Obj :=
  if input then TRUEobj else FALSEobj

/-- Go `==` on two `object.Object` interface values: pointer identity,
i.e. equality of allocation refs. -/
def objEq (a b : Obj) : Bool := objRef a == objRef b

/-- `isError(obj)` (evaluator.go lines 403-408). -/
def isError : Option Obj → Bool
  | some o => typeTag o == ERROR_OBJ
  | none => false

/-- `isTruthy(obj)` (evaluator.go lines 387-398): the `switch obj` compares
pointers against the singletons; a `nil` object falls to the default
(truthy). -/
def isTruthy : Option Obj → Bool
  | none => true
  | some o =>
    if objEq o NULLobj then false
    else if objEq o TRUEobj then true
    else if objEq o FALSEobj then false
    else true

/-- `evalBangOperatorExpression` (evaluator.go lines 184-195); a `nil`
operand hits the default case. -/
def evalBangOperatorExpression : Option Obj → Obj
  | none => FALSEobj
  | some r =>
    if objEq r TRUEobj then FALSEobj
    else if objEq r FALSEobj then TRUEobj
    else if objEq r NULLobj then TRUEobj
    else FALSEobj

/-- Go's int64 arithmetic wraps around two's complement. -/
def wrap64 (i : Int) : Int := (i + 2 ^ 63) % 2 ^ 64 - 2 ^ 63

/-- `evalMinusPrefixOperatorExpression` (evaluator.go lines 197-205); the
`right.Type()` call crashes on `nil` (overall `none`). -/
def evalMinusPrefixOperatorExpression (right : Option Obj) (st : EState) :
    Option (Obj × EState) :=
  match right with
  | none => none
  | some r =>
    match r with
    | .integer _ v =>
      let (rf, st1) := alloc st
      some (.integer rf (wrap64 (-v)), st1)
    | _ => some (newError ("unknown operator: -" ++ typeTag r) st)

/-- `evalPrefixExpression` (evaluator.go lines 173-182). -/
def evalPrefixExpression (op : String) (right : Option Obj) (st : EState) :
    Option (Obj × EState) :=
  match op with
  | "!" => some (evalBangOperatorExpression right, st)
  | "-" => evalMinusPrefixOperatorExpression right st
  | _ =>
    match right with
    | none => none
    | some r => some (newError ("unknown operator: " ++ op ++ typeTag r) st)

/-- `evalIntegerInfixExpression` (evaluator.go lines 253-283).  Both
operands are Integers (the caller checked the type tags; the casts panic
otherwise).  `/` panics on a zero divisor (`none`); quotients truncate
toward zero and all arithmetic wraps, as Go int64 does. -/
def evalIntegerInfixExpression (op : String) (left right : Obj) (st : EState) :
    Option (Obj × EState) :=
  match left, right with
  | .integer _ leftVal, .integer _ rightVal =>
    match op with
    | "+" => let (rf, st1) := alloc st
             some (.integer rf (wrap64 (leftVal + rightVal)), st1)
    | "-" => let (rf, st1) := alloc st
             some (.integer rf (wrap64 (leftVal - rightVal)), st1)
    | "*" => let (rf, st1) := alloc st
             some (.integer rf (wrap64 (leftVal * rightVal)), st1)
    | "/" =>
      if rightVal = 0 then none
      else
        let (rf, st1) := alloc st
        some (.integer rf (wrap64 (Int.tdiv leftVal rightVal)), st1)
    | "<" => some (nativeBoolToBooleanObject (decide (leftVal < rightVal)), st)
    | ">" => some (nativeBoolToBooleanObject (decide (rightVal < leftVal)), st)
    | "==" => some (nativeBoolToBooleanObject (decide (leftVal = rightVal)), st)
    | "!=" => some (nativeBoolToBooleanObject (!(decide (leftVal = rightVal))), st)
    | _ => some (newError
        ("unknown operator: " ++ INTEGER_OBJ ++ " " ++ op ++ " " ++ INTEGER_OBJ) st)
  | _, _ => none

/-- `evalStringInfixExpression` (evaluator.go lines 288-300). -/
def evalStringInfixExpression (op : String) (left right : Obj) (st : EState) :
    Option (Obj × EState) :=
  match left, right with
  | .str _ leftVal, .str _ rightVal =>
    if op ≠ "+" then
      some (newError
        ("unknown operator: " ++ STRING_OBJ ++ " " ++ op ++ " " ++ STRING_OBJ) st)
    else
      let (rf, st1) := alloc st
      some (.str rf (leftVal ++ rightVal), st1)
  | _, _ => none

/-- `evalInfixExpression` (evaluator.go lines 210-231). -/
def evalInfixExpression (op : String) (left right : Obj) (st : EState) :
    Option (Obj × EState) :=
  if typeTag left = INTEGER_OBJ ∧ typeTag right = INTEGER_OBJ then
    evalIntegerInfixExpression op left right st
  else if typeTag left = STRING_OBJ ∧ typeTag right = STRING_OBJ then
    evalStringInfixExpression op left right st
  else if op = "==" then
    some (nativeBoolToBooleanObject (objEq left right), st)
  else if op = "!=" then
    some (nativeBoolToBooleanObject (!(objEq left right)), st)
  else if typeTag left ≠ typeTag right then
    some (newError
      ("type mismatch: " ++ typeTag left ++ " " ++ op ++ " " ++ typeTag right) st)
  else
    some (newError
      ("unknown operator: " ++ typeTag left ++ " " ++ op ++ " " ++ typeTag right) st)

/-- `unwrapReturnValue` (evaluator.go lines 456-462); the failed type
assertion on anything else (nil included) just returns the object. -/
def unwrapReturnValue : Option Obj → Option Obj
  | some (.returnValue _ v) => v
  | o => o

/-- `evalArrayIndexExpression` (evaluator.go lines 467-477): bounds-check
against `len-1`; out of range (negative or past the end) gives NULL. -/
def evalArrayIndexExpression (arr idx : Obj) : Option (Option Obj) :=
  match arr, idx with
  | .array _ elements, .integer _ i =>
    let mx : Int := (elements.length : Int) - 1
    if i < 0 ∨ mx < i then some (some NULLobj)
    else elements.get? i.toNat
  | _, _ => none

/-- `evalHashIndexExpression` (evaluator.go lines 482-496). -/
def evalHashIndexExpression (hashObj idx : Obj) (st : EState) :
    Option (Option Obj × EState) :=
  match hashObj with
  | .hash _ pairs =>
    match hashKeyOf idx with
    | none =>
      let (e, st1) := newError ("unusable as hash key: " ++ typeTag idx) st
      some (some e, st1)
    | some k =>
      match pairs.find? (fun p => p.1 = k) with
      | none => some (some NULLobj, st)
      | some p => some (p.2.2, st)
  | _ => none

/-- `evalIndexExpression` (evaluator.go lines 236-248). -/
def evalIndexExpression (left index : Obj) (st : EState) :
    Option (Option Obj × EState) :=
  if typeTag left = ARRAY_OBJ ∧ typeTag index = INTEGER_OBJ then
    (evalArrayIndexExpression left index).map (fun o => (o, st))
  else if typeTag left = HASH_OBJ then
    evalHashIndexExpression left index st
  else
    let (e, st1) := newError ("index operator not supported: " ++ typeTag left) st
    some (some e, st1)

/-- Go map insert for hash pairs (later keys overwrite earlier ones). -/
def pairsSet (pairs : List (HashKey × Obj × Option Obj)) (k : HashKey)
    (kv : Obj × Option Obj) : List (HashKey × Obj × Option Obj) :=
  match pairs with
  | [] => [(k, kv)]
  | (k0, kv0) :: rest =>
    if k0 = k then (k0, kv) :: rest else (k0, kv0) :: pairsSet rest k kv

/-- Modelled from the spec (§4.4): the native functions behind the builtins
table (the missing builtins.go).  `puts` writes to stdout (not modelled)
and returns NULL; each builtin validates argument count and types; calling
a method on a `nil` argument crashes (`none`). -/
def builtinApply (name : String) (args : List (Option Obj)) (st : EState) :
    Option (Option Obj × EState) :=
  match name, args with
  | "len", [some (.str _ s)] =>
    let (rf, st1) := alloc st
    some (some (.integer rf s.utf8ByteSize), st1)
  | "len", [some (.array _ es)] =>
    let (rf, st1) := alloc st
    some (some (.integer rf es.length), st1)
  | "len", [some a] =>
    let (e, st1) := newError ("argument to `len` not supported, got " ++ typeTag a) st
    some (some e, st1)
  | "len", [none] => none
  | "len", _ =>
    let (e, st1) := newError
      ("wrong number of arguments. got=" ++ toString args.length ++ ", want=1") st
    some (some e, st1)
  | "first", [some (.array _ es)] =>
    if es.length > 0 then some (es.headD none, st) else some (some NULLobj, st)
  | "first", [some a] =>
    let (e, st1) := newError
      ("argument to `first` must be ARRAY, got " ++ typeTag a) st
    some (some e, st1)
  | "first", [none] => none
  | "first", _ =>
    let (e, st1) := newError
      ("wrong number of arguments. got=" ++ toString args.length ++ ", want=1") st
    some (some e, st1)
  | "last", [some (.array _ es)] =>
    if es.length > 0 then some (es.getLastD none, st) else some (some NULLobj, st)
  | "last", [some a] =>
    let (e, st1) := newError
      ("argument to `last` must be ARRAY, got " ++ typeTag a) st
    some (some e, st1)
  | "last", [none] => none
  | "last", _ =>
    let (e, st1) := newError
      ("wrong number of arguments. got=" ++ toString args.length ++ ", want=1") st
    some (some e, st1)
  | "rest", [some (.array _ es)] =>
    if es.length > 0 then
      let (rf, st1) := alloc st
      some (some (.array rf es.tail), st1)
    else some (some NULLobj, st)
  | "rest", [some a] =>
    let (e, st1) := newError
      ("argument to `rest` must be ARRAY, got " ++ typeTag a) st
    some (some e, st1)
  | "rest", [none] => none
  | "rest", _ =>
    let (e, st1) := newError
      ("wrong number of arguments. got=" ++ toString args.length ++ ", want=1") st
    some (some e, st1)
  | "push", [some (.array _ es), x] =>
    let (rf, st1) := alloc st
    some (some (.array rf (es ++ [x])), st1)
  | "push", [some a, _] =>
    let (e, st1) := newError
      ("argument to `push` must be ARRAY, got " ++ typeTag a) st
    some (some e, st1)
  | "push", [none, _] => none
  | "push", _ =>
    let (e, st1) := newError
      ("wrong number of arguments. got=" ++ toString args.length ++ ", want=2") st
    some (some e, st1)
  | "puts", psArgs =>
    if psArgs.any (fun a => a.isNone) then none else some (some NULLobj, st)
  | _, _ => none

/-- The binding loop of `extendFunctionEnv`: bind each parameter to the
argument at the same position; `args[paramIdx]` panics when the call was
made with fewer arguments than parameters. -/
def bindParams : Option (List String) → List (Option Obj) → Nat → EState →
    Option EState
  | none, _, _, st => some st
  | some [], _, _, st => some st
  | some (_ :: _), [], _, _ => none
  | some (p :: prest), a :: arest, env, st =>
    bindParams (some prest) arest env (envSet st env p a)

/-- `extendFunctionEnv` (evaluator.go lines 438-451). -/
def extendFunctionEnv (params : Option (List String)) (fnEnv : Nat)
    (args : List (Option Obj)) (st : EState) : Option (Nat × EState) :=
  let (env2, st1) := newEnclosedEnvironment fnEnv st
  match bindParams params args env2 st1 with
  | none => none
  | some st2 => some (env2, st2)

/-- AST nodes as the Go `ast.Node` interface the evaluator dispatches on;
`nilN` is the nil interface value (`Eval(nil)` hits no case and returns
nil). -/
inductive Node where
  | prog (stmts : List Stmt)
  | blockN (stmts : List Stmt)
  | stmtN (s : Stmt)
  | exprN (e : Expr)
  | nilN

def exprNode : Option Expr → Node
  | none => .nilN
  | some e => .exprN e


/-! ## Evaluator version 1 (src/evaluator/evaluator.go)

Fuel-indexed mutual recursion; every call steps the fuel down by one.
`none` = fuel ran out or the Go code panicked (nil dereference, division by
zero, argument index out of range).  A result is `(value?, state)` where
`value? = none` models a `nil` `object.Object`. -/

namespace V1

/-- `evalIdentifier` (evaluator.go lines 349-365): environment chain first,
then the builtins table, else an "identifier not found" error. -/
def evalIdentifier (name : String) (env : Nat) (st : EState) :
    Option Obj × EState :=
  match envGet st env name with
  | some v => (v, st)
  | none =>
    match builtins name with
    | some b => (some b, st)
    | none =>
      let (e, st1) := newError ("identifier not found: " ++ name) st
      (some e, st1)

mutual

/-- `Eval(node, env)` (evaluator.go lines 15-131), case for case. -/
def eval (fuel0 : Nat) (node0 : Node) (env0 : Nat) (st0 : EState) :
    Option (Option Obj × EState) :=
  match fuel0, node0, env0, st0 with
  | 0, _, _, _ => none
  | fuel+1, node, env, st =>
    match node with
    | .prog stmts => evalProgramStmts fuel none stmts env st
    | .stmtN (.exprS e) => eval fuel (exprNode e) env st
    | .exprN (.intLit v) =>
      let (r, st1) := alloc st
      some (some (.integer r v), st1)
    | .exprN (.strLit s) =>
      let (r, st1) := alloc st
      some (some (.str r s), st1)
    | .exprN (.boolLit b) => some (some (nativeBoolToBooleanObject b), st)
    | .exprN (.funcLit ps body) =>
      let (r, st1) := alloc st
      some (some (.function r ps body env), st1)
    | .exprN (.arrayLit elems) =>
      match evalExpressionsLoop fuel [] elems env st with
      | none => none
      | some (elements, st1) =>
        if elements.length = 1 ∧ isError (elements.headD none) then
          some (elements.headD none, st1)
        else
          let (r, st2) := alloc st1
          some (some (.array r elements), st2)
    | .exprN (.hashLit pairsE) => evalHashPairs fuel [] pairsE env st
    | .exprN (.prefixE op right) =>
      match eval fuel (exprNode right) env st with
      | none => none
      | some (rightObj, st1) =>
        if isError rightObj then some (rightObj, st1)
        else
          match evalPrefixExpression op rightObj st1 with
          | none => none
          | some (o, st2) => some (some o, st2)
    | .exprN (.infixE op left right) =>
      match eval fuel (exprNode left) env st with
      | none => none
      | some (leftObj, st1) =>
        if isError leftObj then some (leftObj, st1)
        else
          match eval fuel (exprNode right) env st1 with
          | none => none
          | some (rightObj, st2) =>
            if isError rightObj then some (rightObj, st2)
            else
              match leftObj, rightObj with
              | some lo, some ro =>
                match evalInfixExpression op lo ro st2 with
                | none => none
                | some (o, st3) => some (some o, st3)
              | _, _ => none
    | .exprN (.indexE left index) =>
      match eval fuel (exprNode left) env st with
      | none => none
      | some (leftObj, st1) =>
        if isError leftObj then some (leftObj, st1)
        else
          match eval fuel (exprNode index) env st1 with
          | none => none
          | some (idxObj, st2) =>
            if isError idxObj then some (idxObj, st2)
            else
              match leftObj, idxObj with
              | some lo, some io => evalIndexExpression lo io st2
              | _, _ => none
    | .blockN stmts => evalBlockStmts fuel none stmts env st
    | .exprN (.ifE cond conseq alt) => evalIfExpression fuel cond conseq alt env st
    | .exprN (.call fn args) =>
      match eval fuel (exprNode fn) env st with
      | none => none
      | some (fnObj, st1) =>
        if isError fnObj then some (fnObj, st1)
        else
          match evalExpressionsLoop fuel []
              (match args with | none => [] | some l => l) env st1 with
          | none => none
          | some (argObjs, st2) =>
            if argObjs.length = 1 ∧ isError (argObjs.headD none) then
              some (argObjs.headD none, st2)
            else applyFunction fuel fnObj argObjs st2
    | .stmtN (.returnS v) =>
      match eval fuel (exprNode v) env st with
      | none => none
      | some (val, st1) =>
        if isError val then some (val, st1)
        else
          let (r, st2) := alloc st1
          some (some (.returnValue r val), st2)
    | .stmtN (.letS name v) =>
      match eval fuel (exprNode v) env st with
      | none => none
      | some (val, st1) =>
        if isError val then some (val, st1)
        else some (none, envSet st1 env name val)
    | .exprN (.ident name) => some (evalIdentifier name env st)
    | .nilN => some (none, st)
termination_by structural fuel0

/-- The loop of `evalProgram` (evaluator.go lines 136-151); `acc` is the
running `result` variable (nil before the first statement). -/
def evalProgramStmts (fuel0 : Nat) (acc0 : Option Obj) (stmts0 : List Stmt)
    (env0 : Nat) (st0 : EState) : Option (Option Obj × EState) :=
  match fuel0, acc0, stmts0, env0, st0 with
  | 0, _, _, _, _ => none
  | _+1, acc, [], _, st => some (acc, st)
  | fuel+1, _, s :: rest, env, st =>
    match eval fuel (.stmtN s) env st with
    | none => none
    | some (result, st1) =>
      match result with
      | some (.returnValue _ v) => some (v, st1)
      | some (.error r m) => some (some (.error r m), st1)
      | _ => evalProgramStmts fuel result rest env st1
termination_by structural fuel0

/-- The loop of `evalBlockStatement` (evaluator.go lines 327-344): a
non-nil result whose type tag is RETURN_VALUE or ERROR is returned
unmodified. -/
def evalBlockStmts (fuel0 : Nat) (acc0 : Option Obj) (stmts0 : List Stmt)
    (env0 : Nat) (st0 : EState) : Option (Option Obj × EState) :=
  match fuel0, acc0, stmts0, env0, st0 with
  | 0, _, _, _, _ => none
  | _+1, acc, [], _, st => some (acc, st)
  | fuel+1, _, s :: rest, env, st =>
    match eval fuel (.stmtN s) env st with
    | none => none
    | some (result, st1) =>
      match result with
      | some r =>
        if typeTag r = RETURN_VALUE_OBJ ∨ typeTag r = ERROR_OBJ then
          some (some r, st1)
        else evalBlockStmts fuel (some r) rest env st1
      | none => evalBlockStmts fuel none rest env st1
termination_by structural fuel0

/-- The loop of `evalExpressions` (evaluator.go lines 370-385): evaluate
left to right; on the first error return a singleton list holding it. -/
def evalExpressionsLoop (fuel0 : Nat) (acc0 : List (Option Obj))
    (exps0 : List (Option Expr)) (env0 : Nat) (st0 : EState) :
    Option (List (Option Obj) × EState) :=
  match fuel0, acc0, exps0, env0, st0 with
  | 0, _, _, _, _ => none
  | _+1, acc, [], _, st => some (acc, st)
  | fuel+1, acc, e :: rest, env, st =>
    match eval fuel (exprNode e) env st with
    | none => none
    | some (evaluated, st1) =>
      if isError evaluated then some ([evaluated], st1)
      else evalExpressionsLoop fuel (acc ++ [evaluated]) rest env st1
termination_by structural fuel0

/-- The loop of `evalHashLiteral` (evaluator.go lines 501-528).  The Go AST
stores the pairs in a map and iterates them in nondeterministic order; the
embedding fixes the source order of the literal. -/
def evalHashPairs (fuel0 : Nat) (acc0 : List (HashKey × Obj × Option Obj))
    (pairs0 : List (Option Expr × Option Expr)) (env0 : Nat) (st0 : EState) :
    Option (Option Obj × EState) :=
  match fuel0, acc0, pairs0, env0, st0 with
  | 0, _, _, _, _ => none
  | _+1, acc, [], _, st =>
    let (r, st1) := alloc st
    some (some (.hash r acc), st1)
  | fuel+1, acc, (keyNode, valueNode) :: rest, env, st =>
    match eval fuel (exprNode keyNode) env st with
    | none => none
    | some (key, st1) =>
      if isError key then some (key, st1)
      else
        match key with
        | none => none
        | some k =>
          match hashKeyOf k with
          | none =>
            let (e, st2) := newError ("unusable as hash key: " ++ typeTag k) st1
            some (some e, st2)
          | some hk =>
            match eval fuel (exprNode valueNode) env st1 with
            | none => none
            | some (value, st2) =>
              if isError value then some (value, st2)
              else evalHashPairs fuel (pairsSet acc hk (k, value)) rest env st2
termination_by structural fuel0

/-- `evalIfExpression` (evaluator.go lines 309-322). -/
def evalIfExpression (fuel0 : Nat) (cond0 : Option Expr) (conseq0 : List Stmt)
    (alt0 : Option (List Stmt)) (env0 : Nat) (st0 : EState) :
    Option (Option Obj × EState) :=
  match fuel0, cond0, conseq0, alt0, env0, st0 with
  | 0, _, _, _, _, _ => none
  | fuel+1, cond, conseq, alt, env, st =>
    match eval fuel (exprNode cond) env st with
    | none => none
    | some (condObj, st1) =>
      if isError condObj then some (condObj, st1)
      else if isTruthy condObj then eval fuel (.blockN conseq) env st1
      else
        match alt with
        | some altB => eval fuel (.blockN altB) env st1
        | none => some (some NULLobj, st1)
termination_by structural fuel0

/-- `applyFunction` (evaluator.go lines 417-433): user function, builtin,
or "not a function"; `fn.Type()` on a nil callee crashes. -/
def applyFunction (fuel0 : Nat) (fn0 : Option Obj) (args0 : List (Option Obj))
    (st0 : EState) : Option (Option Obj × EState) :=
  match fuel0, fn0, args0, st0 with
  | 0, _, _, _ => none
  | fuel+1, fn, args, st =>
    match fn with
    | some (.function _ ps body fnEnv) =>
      match extendFunctionEnv ps fnEnv args st with
      | none => none
      | some (env2, st1) =>
        match eval fuel (.blockN body) env2 st1 with
        | none => none
        | some (evaluated, st2) => some (unwrapReturnValue evaluated, st2)
    | some (.builtin _ name) => builtinApply name args st
    | some other =>
      let (e, st1) := newError ("not a function: " ++ typeTag other) st
      some (some e, st1)
    | none => none
termination_by structural fuel0
end

end V1

/-! ## Evaluator version 2 (src/unnamed/part_001)

Same structure as version 1 except: `Eval` has no ArrayLiteral, HashLiteral
or IndexExpression cases (those nodes fall through the switch and yield
nil), `evalIdentifier` has no builtins fallback (part_001 lines 308-321),
and `applyFunction` accepts only user functions (part_001 lines 373-384). -/

namespace V2

/-- `evalIdentifier` (part_001 lines 308-321): environment chain only — no
builtins fallback. -/
def evalIdentifier (name : String) (env : Nat) (st : EState) :
    Option Obj × EState :=
  match envGet st env name with
  | some v => (v, st)
  | none =>
    let (e, st1) := newError ("identifier not found: " ++ name) st
    (some e, st1)

mutual

/-- `Eval(node, env)` (part_001 lines 15-107). -/
def eval (fuel0 : Nat) (node0 : Node) (env0 : Nat) (st0 : EState) :
    Option (Option Obj × EState) :=
  match fuel0, node0, env0, st0 with
  | 0, _, _, _ => none
  | fuel+1, node, env, st =>
    match node with
    | .prog stmts => evalProgramStmts fuel none stmts env st
    | .stmtN (.exprS e) => eval fuel (exprNode e) env st
    | .exprN (.intLit v) =>
      let (r, st1) := alloc st
      some (some (.integer r v), st1)
    | .exprN (.strLit s) =>
      let (r, st1) := alloc st
      some (some (.str r s), st1)
    | .exprN (.boolLit b) => some (some (nativeBoolToBooleanObject b), st)
    | .exprN (.funcLit ps body) =>
      let (r, st1) := alloc st
      some (some (.function r ps body env), st1)
    | .exprN (.prefixE op right) =>
      match eval fuel (exprNode right) env st with
      | none => none
      | some (rightObj, st1) =>
        if isError rightObj then some (rightObj, st1)
        else
          match evalPrefixExpression op rightObj st1 with
          | none => none
          | some (o, st2) => some (some o, st2)
    | .exprN (.infixE op left right) =>
      match eval fuel (exprNode left) env st with
      | none => none
      | some (leftObj, st1) =>
        if isError leftObj then some (leftObj, st1)
        else
          match eval fuel (exprNode right) env st1 with
          | none => none
          | some (rightObj, st2) =>
            if isError rightObj then some (rightObj, st2)
            else
              match leftObj, rightObj with
              | some lo, some ro =>
                match evalInfixExpression op lo ro st2 with
                | none => none
                | some (o, st3) => some (some o, st3)
              | _, _ => none
    | .blockN stmts => evalBlockStmts fuel none stmts env st
    | .exprN (.ifE cond conseq alt) => evalIfExpression fuel cond conseq alt env st
    | .exprN (.call fn args) =>
      match eval fuel (exprNode fn) env st with
      | none => none
      | some (fnObj, st1) =>
        if isError fnObj then some (fnObj, st1)
        else
          match evalExpressionsLoop fuel []
              (match args with | none => [] | some l => l) env st1 with
          | none => none
          | some (argObjs, st2) =>
            if argObjs.length = 1 ∧ isError (argObjs.headD none) then
              some (argObjs.headD none, st2)
            else applyFunction fuel fnObj argObjs st2
    | .stmtN (.returnS v) =>
      match eval fuel (exprNode v) env st with
      | none => none
      | some (val, st1) =>
        if isError val then some (val, st1)
        else
          let (r, st2) := alloc st1
          some (some (.returnValue r val), st2)
    | .stmtN (.letS name v) =>
      match eval fuel (exprNode v) env st with
      | none => none
      | some (val, st1) =>
        if isError val then some (val, st1)
        else some (none, envSet st1 env name val)
    | .exprN (.ident name) => some (evalIdentifier name env st)
    | .exprN (.arrayLit _) => some (none, st)
    | .exprN (.hashLit _) => some (none, st)
    | .exprN (.indexE _ _) => some (none, st)
    | .nilN => some (none, st)
termination_by structural fuel0

/-- The loop of `evalProgram` (part_001 lines 112-127). -/
def evalProgramStmts (fuel0 : Nat) (acc0 : Option Obj) (stmts0 : List Stmt)
    (env0 : Nat) (st0 : EState) : Option (Option Obj × EState) :=
  match fuel0, acc0, stmts0, env0, st0 with
  | 0, _, _, _, _ => none
  | _+1, acc, [], _, st => some (acc, st)
  | fuel+1, _, s :: rest, env, st =>
    match eval fuel (.stmtN s) env st with
    | none => none
    | some (result, st1) =>
      match result with
      | some (.returnValue _ v) => some (v, st1)
      | some (.error r m) => some (some (.error r m), st1)
      | _ => evalProgramStmts fuel result rest env st1
termination_by structural fuel0

/-- The loop of `evalBlockStatement` (part_001 lines 286-303). -/
def evalBlockStmts (fuel0 : Nat) (acc0 : Option Obj) (stmts0 : List Stmt)
    (env0 : Nat) (st0 : EState) : Option (Option Obj × EState) :=
  match fuel0, acc0, stmts0, env0, st0 with
  | 0, _, _, _, _ => none
  | _+1, acc, [], _, st => some (acc, st)
  | fuel+1, _, s :: rest, env, st =>
    match eval fuel (.stmtN s) env st with
    | none => none
    | some (result, st1) =>
      match result with
      | some r =>
        if typeTag r = RETURN_VALUE_OBJ ∨ typeTag r = ERROR_OBJ then
          some (some r, st1)
        else evalBlockStmts fuel (some r) rest env st1
      | none => evalBlockStmts fuel none rest env st1
termination_by structural fuel0

/-- The loop of `evalExpressions` (part_001 lines 326-341). -/
def evalExpressionsLoop (fuel0 : Nat) (acc0 : List (Option Obj))
    (exps0 : List (Option Expr)) (env0 : Nat) (st0 : EState) :
    Option (List (Option Obj) × EState) :=
  match fuel0, acc0, exps0, env0, st0 with
  | 0, _, _, _, _ => none
  | _+1, acc, [], _, st => some (acc, st)
  | fuel+1, acc, e :: rest, env, st =>
    match eval fuel (exprNode e) env st with
    | none => none
    | some (evaluated, st1) =>
      if isError evaluated then some ([evaluated], st1)
      else evalExpressionsLoop fuel (acc ++ [evaluated]) rest env st1
termination_by structural fuel0

/-- `evalIfExpression` (part_001 lines 268-281). -/
def evalIfExpression (fuel0 : Nat) (cond0 : Option Expr) (conseq0 : List Stmt)
    (alt0 : Option (List Stmt)) (env0 : Nat) (st0 : EState) :
    Option (Option Obj × EState) :=
  match fuel0, cond0, conseq0, alt0, env0, st0 with
  | 0, _, _, _, _, _ => none
  | fuel+1, cond, conseq, alt, env, st =>
    match eval fuel (exprNode cond) env st with
    | none => none
    | some (condObj, st1) =>
      if isError condObj then some (condObj, st1)
      else if isTruthy condObj then eval fuel (.blockN conseq) env st1
      else
        match alt with
        | some altB => eval fuel (.blockN altB) env st1
        | none => some (some NULLobj, st1)
termination_by structural fuel0

/-- `applyFunction` (part_001 lines 373-384): only user functions; anything
else, builtins included, is "not a function". -/
def applyFunction (fuel0 : Nat) (fn0 : Option Obj) (args0 : List (Option Obj))
    (st0 : EState) : Option (Option Obj × EState) :=
  match fuel0, fn0, args0, st0 with
  | 0, _, _, _ => none
  | fuel+1, fn, args, st =>
    match fn with
    | some (.function _ ps body fnEnv) =>
      match extendFunctionEnv ps fnEnv args st with
      | none => none
      | some (env2, st1) =>
        match eval fuel (.blockN body) env2 st1 with
        | none => none
        | some (evaluated, st2) => some (unwrapReturnValue evaluated, st2)
    | some other =>
      let (e, st1) := newError ("not a function: " ++ typeTag other) st
      some (some e, st1)
    | none => none
termination_by structural fuel0
end

end V2


/-! ### Claim C4 — identity comparison and type mismatch -/

/-- **C4.**  For operand pairs that are not two Integers and not two
Strings, `==` yields the TRUE singleton exactly when the operands are the
identical object (pointer equality, i.e. equal allocation refs) and `!=`
the negation; any other operator on operands of differing type tags yields
`Error("type mismatch: <L> <op> <R>")`; concretely, `5 + true;` evaluates
to `Error("type mismatch: INTEGER + BOOLEAN")`. -/
theorem c4_infix_identity_and_mismatch :
    (∀ (l r : Obj) (st : EState),
      ¬(typeTag l = INTEGER_OBJ ∧ typeTag r = INTEGER_OBJ) →
      ¬(typeTag l = STRING_OBJ ∧ typeTag r = STRING_OBJ) →
      evalInfixExpression "==" l r st =
        some (if objEq l r then TRUEobj else FALSEobj, st) ∧
      evalInfixExpression "!=" l r st =
        some (if objEq l r then FALSEobj else TRUEobj, st)) ∧
    (∀ (op : String) (l r : Obj) (st : EState),
      ¬(typeTag l = INTEGER_OBJ ∧ typeTag r = INTEGER_OBJ) →
      ¬(typeTag l = STRING_OBJ ∧ typeTag r = STRING_OBJ) →
      op ≠ "==" → op ≠ "!=" → typeTag l ≠ typeTag r →
      evalInfixExpression op l r st =
        some (.error st.nextRef
          ("type mismatch: " ++ typeTag l ++ " " ++ op ++ " " ++ typeTag r),
          { st with nextRef := st.nextRef + 1 })) ∧
    ((V1.eval 50 (.prog [.exprS (some (.infixE "+" (some (.intLit 5))
        (some (.boolLit true))))]) 0 initEState).map (fun p => p.1) =
      some (some (.error 10 "type mismatch: INTEGER + BOOLEAN"))) := by
  refine ⟨?_, ?_, rfl⟩
  · intro l r st h1 h2
    constructor
    · unfold evalInfixExpression
      rw [if_neg h1, if_neg h2, if_pos rfl]
      cases hb : objEq l r <;> simp [nativeBoolToBooleanObject, hb]
    · unfold evalInfixExpression
      rw [if_neg h1, if_neg h2, if_neg (by decide : ¬("!=" = "==")), if_pos rfl]
      cases hb : objEq l r <;> simp [nativeBoolToBooleanObject, hb]
  · intro op l r st h1 h2 hne1 hne2 hty
    unfold evalInfixExpression
    rw [if_neg h1, if_neg h2, if_neg hne1, if_neg hne2, if_pos hty]
    rfl

/-- **C4, witness.**  `TRUE == NULL` is FALSE, `TRUE == TRUE` is TRUE (the
singletons are distinct objects resp. the same one), and
`Integer(5) + TRUE` is the type-mismatch error. -/
theorem c4_infix_identity_and_mismatch_witness :
    (¬(typeTag TRUEobj = INTEGER_OBJ ∧ typeTag NULLobj = INTEGER_OBJ) ∧
     ¬(typeTag TRUEobj = STRING_OBJ ∧ typeTag NULLobj = STRING_OBJ) ∧
     evalInfixExpression "==" TRUEobj NULLobj initEState =
       some (FALSEobj, initEState) ∧
     evalInfixExpression "==" TRUEobj TRUEobj initEState =
       some (TRUEobj, initEState)) ∧
    evalInfixExpression "+" (.integer 9 5) TRUEobj initEState =
      some (.error 9 "type mismatch: INTEGER + BOOLEAN",
        { initEState with nextRef := 10 }) :=
  ⟨⟨by decide, by decide,
    (c4_infix_identity_and_mismatch.1 TRUEobj NULLobj initEState
      (by decide) (by decide)).1,
    (c4_infix_identity_and_mismatch.1 TRUEobj TRUEobj initEState
      (by decide) (by decide)).1⟩,
    c4_infix_identity_and_mismatch.2.1 "+" (.integer 9 5) TRUEobj initEState
      (by decide) (by decide) (by decide) (by decide) (by decide)⟩

/-! ### Claim C10 — array index bounds -/

/-- **C10.**  Indexing an Array with an Integer returns the element at
position `i` when `0 ≤ i < n` and the NULL singleton (no error, no crash)
when `i` is negative or `i ≥ n`; concretely `[1,2,3][5]` evaluates to
NULL. -/
theorem c10_array_index_bounds :
    (∀ (r : Nat) (elems : List (Option Obj)) (ri : Nat) (i : Int)
        (st : EState), i < 0 ∨ (elems.length : Int) ≤ i →
      evalIndexExpression (.array r elems) (.integer ri i) st =
        some (some NULLobj, st)) ∧
    (∀ (r : Nat) (elems : List (Option Obj)) (ri : Nat) (i : Int)
        (st : EState), 0 ≤ i → ∀ h : i.toNat < elems.length,
      evalIndexExpression (.array r elems) (.integer ri i) st =
        some (elems.get ⟨i.toNat, h⟩, st)) ∧
    ((V1.eval 50 (.prog [.exprS (some (.indexE
        (some (.arrayLit [some (.intLit 1), some (.intLit 2),
          some (.intLit 3)]))
        (some (.intLit 5))))]) 0 initEState).map (fun p => p.1) =
      some (some NULLobj)) := by
  refine ⟨?_, ?_, rfl⟩
  · intro r elems ri i st h
    have hc : i < 0 ∨ ((elems.length : Int) - 1) < i := by omega
    have harr : evalArrayIndexExpression (.array r elems) (.integer ri i) =
        some (some NULLobj) := by
      simp only [evalArrayIndexExpression]
      rw [if_pos hc]
    unfold evalIndexExpression
    rw [if_pos ⟨rfl, rfl⟩, harr]
    rfl
  · intro r elems ri i st h0 h
    have hnc : ¬(i < 0 ∨ ((elems.length : Int) - 1) < i) := by omega
    have harr : evalArrayIndexExpression (.array r elems) (.integer ri i) =
        some (elems.get ⟨i.toNat, h⟩) := by
      simp only [evalArrayIndexExpression]
      rw [if_neg hnc]
      exact List.get?_eq_get h
    unfold evalIndexExpression
    rw [if_pos ⟨rfl, rfl⟩, harr]
    rfl

/-- **C10, witness.**  Both bound conjuncts at concrete inputs: index 5 of
a 3-element array is NULL, index 1 is the element. -/
theorem c10_array_index_bounds_witness :
    ((5 : Int) < 0 ∨ (([some (.integer 20 1), some (.integer 21 2),
        some (.integer 22 3)] : List (Option Obj)).length : Int) ≤ 5) ∧
    evalIndexExpression
      (.array 23 [some (.integer 20 1), some (.integer 21 2),
        some (.integer 22 3)]) (.integer 24 5) initEState =
      some (some NULLobj, initEState) ∧
    evalIndexExpression
      (.array 23 [some (.integer 20 1), some (.integer 21 2),
        some (.integer 22 3)]) (.integer 24 1) initEState =
      some (some (.integer 21 2), initEState) :=
  ⟨by decide,
    c10_array_index_bounds.1 23
      [some (.integer 20 1), some (.integer 21 2), some (.integer 22 3)]
      24 5 initEState (by decide),
    c10_array_index_bounds.2.1 23
      [some (.integer 20 1), some (.integer 21 2), some (.integer 22 3)]
      24 1 initEState (by decide) (by decide)⟩

/-! ### Claim C6 — the two evaluator copies are not equivalent -/

/-- **C6, counterexample.**  On the empty array literal `[]` the two `Eval`
functions disagree: evaluator.go builds an Array object, while part_001 has
no ArrayLiteral case and falls through to `nil`. -/
theorem c6_two_evaluators_differ :
    ¬ (V1.eval 10 (.exprN (.arrayLit [])) 0 initEState =
       V2.eval 10 (.exprN (.arrayLit [])) 0 initEState) := by
  intro h
  rw [show V1.eval 10 (.exprN (.arrayLit [])) 0 initEState =
      some (some (.array 9 []), { initEState with nextRef := 10 }) from rfl,
    show V2.eval 10 (.exprN (.arrayLit [])) 0 initEState =
      some (none, initEState) from rfl] at h
  simp at h


/-! ### Claim C3 — identifier resolution -/

/-- The environment heaps the evaluator builds are well-formed: `outer`
always points to an earlier-created frame. -/
def WFEnvHeap (st : EState) : Prop :=
  ∀ i fr, st.frames.get? i = some fr → ∀ o, fr.outer = some o → o < i

/-- On a well-formed heap the fuelled chain walk is fuel-irrelevant past
the chain length. -/
lemma envGetAux_congr (st : EState) (hwf : WFEnvHeap st) (name : String) :
    ∀ i f1 f2, i < f1 → i < f2 →
      envGetAux f1 st i name = envGetAux f2 st i name := by
  intro i
  induction i using Nat.strong_induction_on with
  | _ i IH =>
    intro f1 f2 h1 h2
    obtain ⟨a, rfl⟩ : ∃ a, f1 = a + 1 := ⟨f1 - 1, by omega⟩
    obtain ⟨b, rfl⟩ : ∃ b, f2 = b + 1 := ⟨f2 - 1, by omega⟩
    simp only [envGetAux]
    cases hfr : st.frames.get? i with
    | none => rfl
    | some fr =>
      cases hsg : storeGet fr.store name with
      | some v => simp only [hsg]
      | none =>
        cases ho : fr.outer with
        | none => simp only [hsg, ho]
        | some o =>
          have hoi : o < i := hwf i fr hfr o ho
          simp only [hsg, ho]
          exact IH o hoi a b (by omega) (by omega)

/-- **C3.**  Evaluating an Identifier returns the value bound in the
environment chain if one exists, else the entry of the builtins table, else
`Error("identifier not found: <name>")`; `env.Get` really walks the chain:
a local hit wins, otherwise the lookup continues in the outer environment.
Concretely, `foobar` evaluates to the not-found error. -/
theorem c3_identifier_lookup :
    (∀ fuel name env st,
      V1.eval (fuel+1) (.exprN (.ident name)) env st =
        some (V1.evalIdentifier name env st)) ∧
    (∀ name env st v, envGet st env name = some v →
      V1.evalIdentifier name env st = (v, st)) ∧
    (∀ name env st b, envGet st env name = none → builtins name = some b →
      V1.evalIdentifier name env st = (some b, st)) ∧
    (∀ name env st, envGet st env name = none → builtins name = none →
      V1.evalIdentifier name env st =
        (some (.error st.nextRef ("identifier not found: " ++ name)),
          { st with nextRef := st.nextRef + 1 })) ∧
    (∀ st, WFEnvHeap st → ∀ i name fr, st.frames.get? i = some fr →
      (∀ v, storeGet fr.store name = some v → envGet st i name = some v) ∧
      (storeGet fr.store name = none → fr.outer = none →
        envGet st i name = none) ∧
      (∀ o, storeGet fr.store name = none → fr.outer = some o →
        envGet st i name = envGet st o name)) ∧
    ((V1.eval 10 (.prog [.exprS (some (.ident "foobar"))]) 0 initEState).map
        (fun p => p.1) =
      some (some (.error 9 "identifier not found: foobar"))) := by
  refine ⟨?_, ?_, ?_, ?_, ?_, rfl⟩
  · intro fuel name env st
    simp only [V1.eval]
  · intro name env st v h
    unfold V1.evalIdentifier
    rw [h]
  · intro name env st b h hb
    unfold V1.evalIdentifier
    rw [h, hb]
  · intro name env st h hb
    unfold V1.evalIdentifier
    rw [h, hb]
    rfl
  · intro st hwf i name fr hfr
    refine ⟨?_, ?_, ?_⟩
    · intro v hv
      unfold envGet
      simp only [envGetAux, hfr, hv]
    · intro hv ho
      unfold envGet
      simp only [envGetAux, hfr, hv, ho]
    · intro o hv ho
      have hoi : o < i := hwf i fr hfr o ho
      unfold envGet
      conv =>
        lhs
        rw [show i + 1 = i + 1 from rfl]
      simp only [envGetAux, hfr, hv, ho]
      exact envGetAux_congr st hwf name o i (o+1) hoi (by omega)

/-- **C3, witness.**  A bound `x` resolves from the store, an unbound `len`
resolves from the builtins table, and an unbound, non-builtin `foobar`
errors. -/
theorem c3_identifier_lookup_witness :
    (envGet (EState.mk [Frame.mk [("x", some (.integer 42 7))] none] 43) 0 "x" =
      some (some (.integer 42 7)) ∧
     V1.evalIdentifier "x" 0
        (EState.mk [Frame.mk [("x", some (.integer 42 7))] none] 43) =
      (some (.integer 42 7),
        EState.mk [Frame.mk [("x", some (.integer 42 7))] none] 43)) ∧
    (envGet initEState 0 "len" = none ∧
     builtins "len" = some (.builtin 3 "len") ∧
     V1.evalIdentifier "len" 0 initEState =
      (some (.builtin 3 "len"), initEState)) ∧
    (envGet initEState 0 "foobar" = none ∧ builtins "foobar" = none ∧
     V1.evalIdentifier "foobar" 0 initEState =
      (some (.error 9 "identifier not found: foobar"),
        { initEState with nextRef := 10 })) :=
  ⟨⟨rfl, c3_identifier_lookup.2.1 "x" 0
      (EState.mk [Frame.mk [("x", some (.integer 42 7))] none] 43)
      (some (.integer 42 7)) rfl⟩,
   ⟨rfl, rfl, c3_identifier_lookup.2.2.1 "len" 0 initEState
      (.builtin 3 "len") rfl rfl⟩,
   ⟨rfl, rfl, c3_identifier_lookup.2.2.2.1 "foobar" 0 initEState rfl rfl⟩⟩

/-! ### Claim C2 — Program unwraps, BlockStatement propagates -/

/-- **C2, main helper.**  Running the program loop is exactly running the
block loop and unwrapping a ReturnValue at the end, for any starting
accumulator that is not itself a wrapper. -/
lemma v1_program_eq_unwrap_block :
    ∀ (fuel : Nat) (stmts : List Stmt) (env : Nat) (st : EState)
      (acc : Option Obj), unwrapReturnValue acc = acc →
      V1.evalProgramStmts fuel acc stmts env st =
        (V1.evalBlockStmts fuel acc stmts env st).map
          (fun p => (unwrapReturnValue p.1, p.2)) := by
  intro fuel
  induction fuel with
  | zero => intro stmts env st acc hacc; rfl
  | succ n IH =>
    intro stmts env st acc hacc
    cases stmts with
    | nil =>
      simp only [V1.evalProgramStmts, V1.evalBlockStmts, Option.map, hacc]
    | cons s rest =>
      simp only [V1.evalProgramStmts, V1.evalBlockStmts]
      cases hstep : V1.eval n (.stmtN s) env st with
      | none => rfl
      | some res1 =>
        obtain ⟨result, st1⟩ := res1
        cases result with
        | none => exact IH rest env st1 none rfl
        | some r =>
          cases r with
          | returnValue ref rv => rfl
          | error ref m => rfl
          | integer ref v => exact IH rest env st1 _ rfl
          | boolean ref b => exact IH rest env st1 _ rfl
          | null ref => exact IH rest env st1 _ rfl
          | str ref sv => exact IH rest env st1 _ rfl
          | function ref ps body fe => exact IH rest env st1 _ rfl
          | array ref es => exact IH rest env st1 _ rfl
          | hash ref ps => exact IH rest env st1 _ rfl
          | builtin ref nm => exact IH rest env st1 _ rfl

/-- **C2.**  Evaluating a Program is evaluating the same statements as a
BlockStatement and then unwrapping a ReturnValue wrapper once (errors pass
through unmodified, a plain last value is kept); the loops walk the
statements in order, stop at the first ReturnValue (block: unmodified,
program: unwrapped) or first Error, and otherwise carry the last value. -/
theorem c2_program_unwraps_block_propagates :
    (∀ fuel stmts env st,
      V1.eval (fuel+1) (.prog stmts) env st =
        (V1.eval (fuel+1) (.blockN stmts) env st).map
          (fun p => (unwrapReturnValue p.1, p.2))) ∧
    (∀ (fuel : Nat) (acc : Option Obj) (env : Nat) (st : EState),
      V1.evalProgramStmts (fuel+1) acc [] env st = some (acc, st) ∧
      V1.evalBlockStmts (fuel+1) acc [] env st = some (acc, st)) ∧
    (∀ fuel s rest env st ref rv st1,
      V1.eval fuel (.stmtN s) env st = some (some (.returnValue ref rv), st1) →
      V1.evalProgramStmts (fuel+1) none (s :: rest) env st = some (rv, st1) ∧
      V1.evalBlockStmts (fuel+1) none (s :: rest) env st =
        some (some (.returnValue ref rv), st1)) ∧
    (∀ fuel s rest env st ref m st1,
      V1.eval fuel (.stmtN s) env st = some (some (.error ref m), st1) →
      V1.evalProgramStmts (fuel+1) none (s :: rest) env st =
        some (some (.error ref m), st1) ∧
      V1.evalBlockStmts (fuel+1) none (s :: rest) env st =
        some (some (.error ref m), st1)) ∧
    (∀ fuel s rest env st result st1,
      V1.eval fuel (.stmtN s) env st = some (result, st1) →
      (∀ ref rv, result ≠ some (.returnValue ref rv)) →
      (∀ ref m, result ≠ some (.error ref m)) →
      V1.evalProgramStmts (fuel+1) none (s :: rest) env st =
        V1.evalProgramStmts fuel result rest env st1 ∧
      V1.evalBlockStmts (fuel+1) none (s :: rest) env st =
        V1.evalBlockStmts fuel result rest env st1) := by
  refine ⟨?_, ?_, ?_, ?_, ?_⟩
  · intro fuel stmts env st
    have h1 : V1.eval (fuel+1) (.prog stmts) env st =
        V1.evalProgramStmts fuel none stmts env st := by
      simp only [V1.eval]
    have h2 : V1.eval (fuel+1) (.blockN stmts) env st =
        V1.evalBlockStmts fuel none stmts env st := by
      simp only [V1.eval]
    rw [h1, h2]
    exact v1_program_eq_unwrap_block fuel stmts env st none rfl
  · intro fuel acc env st
    exact ⟨rfl, rfl⟩
  · intro fuel s rest env st ref rv st1 h
    constructor
    · simp only [V1.evalProgramStmts, h]
    · simp only [V1.evalBlockStmts, h]
      simp [typeTag, RETURN_VALUE_OBJ, ERROR_OBJ]
  · intro fuel s rest env st ref m st1 h
    constructor
    · simp only [V1.evalProgramStmts, h]
    · simp only [V1.evalBlockStmts, h]
      simp [typeTag, RETURN_VALUE_OBJ, ERROR_OBJ]
  · intro fuel s rest env st result st1 h hrv herr
    constructor
    · cases result with
      | none => simp only [V1.evalProgramStmts, h]
      | some r =>
        cases r with
        | returnValue ref rv => exact absurd rfl (hrv ref rv)
        | error ref m => exact absurd rfl (herr ref m)
        | integer ref v => simp only [V1.evalProgramStmts, h]
        | boolean ref b => simp only [V1.evalProgramStmts, h]
        | null ref => simp only [V1.evalProgramStmts, h]
        | str ref sv => simp only [V1.evalProgramStmts, h]
        | function ref ps body fe => simp only [V1.evalProgramStmts, h]
        | array ref es => simp only [V1.evalProgramStmts, h]
        | hash ref ps => simp only [V1.evalProgramStmts, h]
        | builtin ref nm => simp only [V1.evalProgramStmts, h]
    · simp only [V1.evalBlockStmts, h]
      cases result with
      | none => rfl
      | some r =>
        cases r with
        | returnValue ref rv => exact absurd rfl (hrv ref rv)
        | error ref m => exact absurd rfl (herr ref m)
        | integer ref v => rfl
        | boolean ref b => rfl
        | null ref => rfl
        | str ref sv => rfl
        | function ref ps body fe => rfl
        | array ref es => rfl
        | hash ref ps => rfl
        | builtin ref nm => rfl

/-- **C2, witness.**  `return 7; 9` as a program yields the unwrapped 7,
as a block the wrapper itself; the short-circuit conjuncts applied at the
concrete first statement. -/
theorem c2_program_unwraps_block_propagates_witness :
    (V1.eval 10 (.stmtN (.returnS (some (.intLit 7)))) 0 initEState =
      some (some (.returnValue 10 (some (.integer 9 7))),
        { initEState with nextRef := 11 })) ∧
    (V1.evalProgramStmts 11 none
        [.returnS (some (.intLit 7)), .exprS (some (.intLit 9))] 0 initEState =
      some (some (.integer 9 7), { initEState with nextRef := 11 })) ∧
    (V1.evalBlockStmts 11 none
        [.returnS (some (.intLit 7)), .exprS (some (.intLit 9))] 0 initEState =
      some (some (.returnValue 10 (some (.integer 9 7))),
        { initEState with nextRef := 11 })) :=
  ⟨rfl,
    (c2_program_unwraps_block_propagates.2.2.1 10
      (.returnS (some (.intLit 7))) [.exprS (some (.intLit 9))] 0 initEState
      10 (some (.integer 9 7)) { initEState with nextRef := 11 } rfl).1,
    (c2_program_unwraps_block_propagates.2.2.1 10
      (.returnS (some (.intLit 7))) [.exprS (some (.intLit 9))] 0 initEState
      10 (some (.integer 9 7)) { initEState with nextRef := 11 } rfl).2⟩


/-! ### Claim C9 — boolean and null singletons

The singletons have the reserved refs 0 (NULL), 1 (TRUE), 2 (FALSE); an
object is "good" when every Boolean or Null reachable inside it is one of
the three singletons.  Generic store/heap lemmas are stated for an
arbitrary predicate on stored values so the C6 fragment invariant can
reuse them. -/

/-- All values of a store satisfy `P`. -/
def storeAllP (P : Option Obj → Bool) : List (String × Option Obj) → Bool
  | [] => true
  | (_, v) :: rest => P v && storeAllP P rest

/-- All stores of a frame list satisfy `P`. -/
def framesAllP (P : Option Obj → Bool) : List Frame → Bool
  | [] => true
  | f :: rest => storeAllP P f.store && framesAllP P rest

/-- All values stored anywhere in the heap satisfy `P`. -/
def stateAllP (P : Option Obj → Bool) (st : EState) : Bool :=
  framesAllP P st.frames

/-- All elements of an object list satisfy `P`. -/
def listAllP (P : Option Obj → Bool) : List (Option Obj) → Bool
  | [] => true
  | o :: rest => P o && listAllP P rest

lemma storeAllP_get (P : Option Obj → Bool) :
    ∀ store, storeAllP P store = true →
      ∀ name v, storeGet store name = some v → P v = true := by
  intro store
  induction store with
  | nil => intro h name v hv; simp [storeGet] at hv
  | cons kv rest IH =>
    obtain ⟨k, w⟩ := kv
    intro h name v hv
    simp only [storeAllP, Bool.and_eq_true] at h
    simp only [storeGet] at hv
    by_cases hk : k = name
    · rw [if_pos hk] at hv
      cases hv
      exact h.1
    · rw [if_neg hk] at hv
      exact IH h.2 name v hv

lemma framesAllP_get (P : Option Obj → Bool) :
    ∀ frames, framesAllP P frames = true →
      ∀ i fr, frames.get? i = some fr → storeAllP P fr.store = true := by
  intro frames
  induction frames with
  | nil => intro h i fr hfr; simp at hfr
  | cons f rest IH =>
    intro h i fr hfr
    simp only [framesAllP, Bool.and_eq_true] at h
    cases i with
    | zero =>
      simp only [List.get?] at hfr
      cases hfr
      exact h.1
    | succ j => exact IH h.2 j fr hfr

lemma envGetAux_allP (P : Option Obj → Bool) (st : EState)
    (h : framesAllP P st.frames = true) :
    ∀ f i name v, envGetAux f st i name = some v → P v = true := by
  intro f
  induction f with
  | zero => intro i name v hv; simp [envGetAux] at hv
  | succ f IH =>
    intro i name v hv
    simp only [envGetAux] at hv
    split at hv
    · simp at hv
    · rename_i fr hfr
      split at hv
      · rename_i w hw
        cases hv
        exact storeAllP_get P fr.store (framesAllP_get P st.frames h _ fr hfr)
          _ _ hw
      · split at hv
        · simp at hv
        · rename_i o ho
          exact IH o name v hv

lemma envGet_allP (P : Option Obj → Bool) (st : EState)
    (h : stateAllP P st = true) (i : Nat) (name : String) (v : Option Obj)
    (hv : envGet st i name = some v) : P v = true :=
  envGetAux_allP P st h (i+1) i name v hv

lemma storeSet_allP (P : Option Obj → Bool) :
    ∀ store name v, storeAllP P store = true → P v = true →
      storeAllP P (storeSet store name v) = true := by
  intro store
  induction store with
  | nil =>
    intro name v _ hv
    simp [storeSet, storeAllP, hv]
  | cons kv rest IH =>
    obtain ⟨k, w⟩ := kv
    intro name v h hv
    simp only [storeAllP, Bool.and_eq_true] at h
    simp only [storeSet]
    by_cases hk : k = name
    · rw [if_pos hk]
      simp [storeAllP, hv, h.2]
    · rw [if_neg hk]
      simp [storeAllP, h.1, IH name v h.2 hv]

lemma framesAllP_set (P : Option Obj → Bool) :
    ∀ frames i fr, framesAllP P frames = true →
      storeAllP P fr.store = true →
      framesAllP P (frames.set i fr) = true := by
  intro frames
  induction frames with
  | nil => intro i fr h _; simpa using h
  | cons f rest IH =>
    intro i fr h hfr
    simp only [framesAllP, Bool.and_eq_true] at h
    cases i with
    | zero => simp [List.set, framesAllP, hfr, h.2]
    | succ j => simp [List.set, framesAllP, h.1, IH j fr h.2 hfr]

lemma envSet_allP (P : Option Obj → Bool) (st : EState) (i : Nat)
    (name : String) (v : Option Obj) (h : stateAllP P st = true)
    (hv : P v = true) : stateAllP P (envSet st i name v) = true := by
  unfold envSet
  split
  · exact h
  · rename_i fr hfr
    unfold stateAllP
    exact framesAllP_set P st.frames i _ h
      (storeSet_allP P fr.store name v
        (framesAllP_get P st.frames h i fr hfr) hv)

lemma framesAllP_append (P : Option Obj → Bool) :
    ∀ fs gs, framesAllP P fs = true → framesAllP P gs = true →
      framesAllP P (fs ++ gs) = true := by
  intro fs
  induction fs with
  | nil => intro gs _ hg; simpa using hg
  | cons f rest IH =>
    intro gs h hg
    simp only [framesAllP, Bool.and_eq_true] at h
    simp [framesAllP, h.1, IH gs h.2 hg]

lemma newEnclosedEnvironment_allP (P : Option Obj → Bool) (outer : Nat)
    (st : EState) (h : stateAllP P st = true) :
    stateAllP P (newEnclosedEnvironment outer st).2 = true := by
  unfold newEnclosedEnvironment stateAllP
  exact framesAllP_append P st.frames [⟨[], some outer⟩] h rfl

lemma bindParams_allP (P : Option Obj → Bool) :
    ∀ params args env st st2, stateAllP P st = true →
      listAllP P args = true → bindParams params args env st = some st2 →
      stateAllP P st2 = true := by
  intro params
  cases params with
  | none =>
    intro args env st st2 h _ hb
    simp only [bindParams] at hb
    cases hb
    exact h
  | some ps =>
    induction ps with
    | nil =>
      intro args env st st2 h _ hb
      simp only [bindParams] at hb
      cases hb
      exact h
    | cons p prest IH =>
      intro args env st st2 h ha hb
      cases args with
      | nil => simp [bindParams] at hb
      | cons a arest =>
        simp only [listAllP, Bool.and_eq_true] at ha
        simp only [bindParams] at hb
        exact IH arest env (envSet st env p a) st2
          (envSet_allP P st env p a h ha.1) ha.2 hb

lemma listAllP_append (P : Option Obj → Bool) :
    ∀ xs ys, listAllP P xs = true → listAllP P ys = true →
      listAllP P (xs ++ ys) = true := by
  intro xs
  induction xs with
  | nil => intro ys _ hy; simpa using hy
  | cons x rest IH =>
    intro ys h hy
    simp only [listAllP, Bool.and_eq_true] at h
    simp [listAllP, h.1, IH ys h.2 hy]

lemma listAllP_get (P : Option Obj → Bool) :
    ∀ xs, listAllP P xs = true → ∀ i v, xs.get? i = some v → P v = true := by
  intro xs
  induction xs with
  | nil => intro _ i v hv; simp at hv
  | cons x rest IH =>
    intro h i v hv
    simp only [listAllP, Bool.and_eq_true] at h
    cases i with
    | zero =>
      simp only [List.get?] at hv
      cases hv
      exact h.1
    | succ j => exact IH h.2 j v hv

lemma listAllP_headD (P : Option Obj → Bool) (hnone : P none = true) :
    ∀ xs, listAllP P xs = true → P (xs.headD none) = true := by
  intro xs h
  cases xs with
  | nil => exact hnone
  | cons x rest =>
    simp only [listAllP, Bool.and_eq_true] at h
    simpa using h.1

lemma listAllP_getLastD (P : Option Obj → Bool) (hnone : P none = true) :
    ∀ xs, listAllP P xs = true → P (xs.getLastD none) = true := by
  intro xs
  induction xs with
  | nil => intro _; exact hnone
  | cons x rest IH =>
    intro h
    simp only [listAllP, Bool.and_eq_true] at h
    cases rest with
    | nil => simpa using h.1
    | cons y ys =>
      rw [List.getLastD_cons]
      exact IH h.2

lemma listAllP_tail (P : Option Obj → Bool) :
    ∀ xs, listAllP P xs = true → listAllP P xs.tail = true := by
  intro xs h
  cases xs with
  | nil => exact h
  | cons x rest =>
    simp only [listAllP, Bool.and_eq_true] at h
    exact h.2

mutual

/-- Every Boolean reachable in the object is the TRUE or FALSE singleton
(refs 1 and 2) and every Null the NULL singleton (ref 0). -/
def goodObj : Obj → Bool
  | .integer _ _ => true
  | .boolean r b => (r == 1 && b) || (r == 2 && !b)
  | .null r => r == 0
  | .str _ _ => true
  | .returnValue _ v => goodOptObj v
  | .error _ _ => true
  | .function _ _ _ _ => true
  | .array _ es => goodOptObjList es
  | .hash _ ps => goodHashPairs ps
  | .builtin _ _ => true

def goodOptObj : Option Obj → Bool
  | none => true
  | some o => goodObj o

def goodOptObjList : List (Option Obj) → Bool
  | [] => true
  | o :: rest => goodOptObj o && goodOptObjList rest

def goodHashPairs : List (HashKey × Obj × Option Obj) → Bool
  | [] => true
  | (_, k, v) :: rest => goodObj k && goodOptObj v && goodHashPairs rest

end

/-- The heap invariant: every stored value is good. -/
def goodState (st : EState) : Bool := stateAllP goodOptObj st


lemma goodOptObjList_eq_listAllP :
    ∀ es, goodOptObjList es = listAllP goodOptObj es := by
  intro es
  induction es with
  | nil => rfl
  | cons o rest IH => simp [goodOptObjList, listAllP, IH]

lemma goodHashPairs_find (pred : HashKey × Obj × Option Obj → Bool) :
    ∀ ps, goodHashPairs ps = true → ∀ p, ps.find? pred = some p →
      goodOptObj p.2.2 = true := by
  intro ps
  induction ps with
  | nil => intro _ p hp; simp at hp
  | cons q rest IH =>
    obtain ⟨k, kv, vv⟩ := q
    intro h p hp
    simp only [goodHashPairs, Bool.and_eq_true] at h
    rw [List.find?_cons] at hp
    split at hp
    · cases hp
      exact h.1.2
    · exact IH h.2 p hp

lemma goodState_of_frames_eq (st st2 : EState)
    (hf : st2.frames = st.frames) (hg : goodState st = true) :
    goodState st2 = true := by
  unfold goodState stateAllP at *
  rw [hf]
  exact hg

lemma good_nativeBool (b : Bool) :
    goodObj (nativeBoolToBooleanObject b) = true := by
  cases b <;> rfl

lemma good_evalBang (r : Option Obj) :
    goodObj (evalBangOperatorExpression r) = true := by
  cases r with
  | none => rfl
  | some o =>
    simp only [evalBangOperatorExpression]
    split_ifs <;> rfl

lemma good_evalMinus (right : Option Obj) (st : EState) (o : Obj)
    (st2 : EState) (h : evalMinusPrefixOperatorExpression right st =
      some (o, st2)) : goodObj o = true ∧ st2.frames = st.frames := by
  unfold evalMinusPrefixOperatorExpression at h
  split at h
  · simp at h
  · split at h <;> (cases h; exact ⟨rfl, rfl⟩)

lemma good_evalPrefixExpr (op : String) (right : Option Obj) (st : EState)
    (o : Obj) (st2 : EState) (h : evalPrefixExpression op right st =
      some (o, st2)) : goodObj o = true ∧ st2.frames = st.frames := by
  unfold evalPrefixExpression at h
  split at h
  · cases h
    exact ⟨good_evalBang right, rfl⟩
  · exact good_evalMinus right st o st2 h
  · split at h
    · simp at h
    · cases h
      exact ⟨rfl, rfl⟩

lemma good_evalIntegerInfixExpr (op : String) (l r : Obj) (st : EState)
    (o : Obj) (st2 : EState) (h : evalIntegerInfixExpression op l r st =
      some (o, st2)) : goodObj o = true ∧ st2.frames = st.frames := by
  unfold evalIntegerInfixExpression at h
  split at h
  · split at h
    · cases h; exact ⟨rfl, rfl⟩
    · cases h; exact ⟨rfl, rfl⟩
    · cases h; exact ⟨rfl, rfl⟩
    · split at h
      · simp at h
      · cases h; exact ⟨rfl, rfl⟩
    · cases h; exact ⟨good_nativeBool _, rfl⟩
    · cases h; exact ⟨good_nativeBool _, rfl⟩
    · cases h; exact ⟨good_nativeBool _, rfl⟩
    · cases h; exact ⟨good_nativeBool _, rfl⟩
    · cases h; exact ⟨rfl, rfl⟩
  · simp at h

lemma good_evalStringInfixExpr (op : String) (l r : Obj) (st : EState)
    (o : Obj) (st2 : EState) (h : evalStringInfixExpression op l r st =
      some (o, st2)) : goodObj o = true ∧ st2.frames = st.frames := by
  unfold evalStringInfixExpression at h
  split at h
  · split at h <;> (cases h; exact ⟨rfl, rfl⟩)
  · simp at h

lemma good_evalInfixExpr (op : String) (l r : Obj) (st : EState)
    (o : Obj) (st2 : EState) (h : evalInfixExpression op l r st =
      some (o, st2)) : goodObj o = true ∧ st2.frames = st.frames := by
  unfold evalInfixExpression at h
  split_ifs at h
  · exact good_evalIntegerInfixExpr op l r st o st2 h
  · exact good_evalStringInfixExpr op l r st o st2 h
  · cases h; exact ⟨good_nativeBool _, rfl⟩
  · cases h; exact ⟨good_nativeBool _, rfl⟩
  · cases h; exact ⟨rfl, rfl⟩
  · cases h; exact ⟨rfl, rfl⟩

lemma good_evalArrayIndex (arr idx : Obj) (v : Option Obj)
    (harr : goodObj arr = true)
    (h : evalArrayIndexExpression arr idx = some v) :
    goodOptObj v = true := by
  unfold evalArrayIndexExpression at h
  split at h
  · rename_i r1 es r2 i
    have h2 : (if i < 0 ∨ (es.length : Int) - 1 < i then some (some NULLobj)
        else es.get? i.toNat) = some v := h
    by_cases hc : i < 0 ∨ (es.length : Int) - 1 < i
    · rw [if_pos hc] at h2
      cases h2
      rfl
    · rw [if_neg hc] at h2
      have hg : goodOptObjList es = true := harr
      rw [goodOptObjList_eq_listAllP] at hg
      exact listAllP_get goodOptObj es hg _ v h2
  · simp at h

lemma good_evalHashIndex (hashObj idx : Obj) (st : EState) (v : Option Obj)
    (st2 : EState) (hh : goodObj hashObj = true)
    (h : evalHashIndexExpression hashObj idx st = some (v, st2)) :
    goodOptObj v = true ∧ st2.frames = st.frames := by
  unfold evalHashIndexExpression at h
  split at h
  · rename_i a pairs
    split at h
    · cases h
      exact ⟨rfl, rfl⟩
    · rename_i k hk
      split at h
      · cases h
        exact ⟨rfl, rfl⟩
      · rename_i p hp
        cases h
        have hg : goodHashPairs pairs = true := hh
        exact ⟨goodHashPairs_find _ pairs hg p hp, rfl⟩
  · simp at h

lemma good_evalIndex (left index : Obj) (st : EState) (v : Option Obj)
    (st2 : EState) (hl : goodObj left = true)
    (h : evalIndexExpression left index st = some (v, st2)) :
    goodOptObj v = true ∧ st2.frames = st.frames := by
  unfold evalIndexExpression at h
  split_ifs at h
  · cases harr2 : evalArrayIndexExpression left index with
    | none => rw [harr2] at h; simp at h
    | some w =>
      rw [harr2] at h
      simp only [Option.map] at h
      cases h
      exact ⟨good_evalArrayIndex left index _ hl harr2, rfl⟩
  · exact good_evalHashIndex left index st v st2 hl h
  · cases h
    exact ⟨rfl, rfl⟩

lemma good_pairsSet :
    ∀ pairs k kv, goodHashPairs pairs = true → goodObj kv.1 = true →
      goodOptObj kv.2 = true → goodHashPairs (pairsSet pairs k kv) = true := by
  intro pairs
  induction pairs with
  | nil =>
    intro k kv _ h1 h2
    simp [pairsSet, goodHashPairs, h1, h2]
  | cons q rest IH =>
    obtain ⟨k0, kv0⟩ := q
    intro k kv h h1 h2
    simp only [goodHashPairs, Bool.and_eq_true] at h
    unfold pairsSet
    split
    · simp [goodHashPairs, h1, h2, h.2]
    · simp [goodHashPairs, h.1.1, h.1.2, IH k kv h.2 h1 h2]

lemma good_unwrap (o : Option Obj) (h : goodOptObj o = true) :
    goodOptObj (unwrapReturnValue o) = true := by
  cases o with
  | none => exact h
  | some obj => cases obj <;> simpa [unwrapReturnValue, goodOptObj,
      goodObj] using h

lemma good_builtins (name : String) (b : Obj) (h : builtins name = some b) :
    goodObj b = true := by
  unfold builtins at h
  split at h <;> first
    | (cases h; rfl)
    | simp at h

lemma good_evalIdentifier (name : String) (env : Nat) (st : EState)
    (hg : goodState st = true) :
    goodOptObj (V1.evalIdentifier name env st).1 = true ∧
      (V1.evalIdentifier name env st).2.frames = st.frames := by
  unfold V1.evalIdentifier
  split
  · rename_i v hv
    exact ⟨envGet_allP goodOptObj st hg env name v hv, rfl⟩
  · split
    · rename_i b hb
      exact ⟨good_builtins name b hb, rfl⟩
    · exact ⟨rfl, rfl⟩

lemma good_extendFunctionEnv (ps : Option (List String)) (fnEnv : Nat)
    (args : List (Option Obj)) (st : EState) (env2 : Nat) (st2 : EState)
    (hg : goodState st = true) (ha : listAllP goodOptObj args = true)
    (h : extendFunctionEnv ps fnEnv args st = some (env2, st2)) :
    goodState st2 = true := by
  have hgood : stateAllP goodOptObj
      { st with frames := st.frames ++ [Frame.mk [] (some fnEnv)] } = true :=
    newEnclosedEnvironment_allP goodOptObj fnEnv st hg
  have h2 : (match bindParams ps args st.frames.length
      { st with frames := st.frames ++ [Frame.mk [] (some fnEnv)] } with
    | none => none
    | some stx => some (st.frames.length, stx)) = some (env2, st2) := h
  cases hb : bindParams ps args st.frames.length
      { st with frames := st.frames ++ [Frame.mk [] (some fnEnv)] } with
  | none =>
    rw [hb] at h2
    simp at h2
  | some stx =>
    rw [hb] at h2
    cases h2
    exact bindParams_allP goodOptObj ps args _ _ _ hgood ha hb

lemma good_builtinApply (name : String) (args : List (Option Obj))
    (st : EState) (v : Option Obj) (st2 : EState)
    (ha : listAllP goodOptObj args = true)
    (h : builtinApply name args st = some (v, st2)) :
    goodOptObj v = true ∧ st2.frames = st.frames := by
  unfold builtinApply at h
  split at h
  · cases h; exact ⟨rfl, rfl⟩
  · cases h; exact ⟨rfl, rfl⟩
  · cases h; exact ⟨rfl, rfl⟩
  · simp at h
  · cases h; exact ⟨rfl, rfl⟩
  · rename_i r1 es
    simp only [listAllP, goodOptObj, goodObj, Bool.and_true] at ha
    rw [goodOptObjList_eq_listAllP] at ha
    split at h <;> cases h
    · exact ⟨listAllP_headD goodOptObj rfl es ha, rfl⟩
    · exact ⟨rfl, rfl⟩
  · cases h; exact ⟨rfl, rfl⟩
  · simp at h
  · cases h; exact ⟨rfl, rfl⟩
  · rename_i r1 es
    simp only [listAllP, goodOptObj, goodObj, Bool.and_true] at ha
    rw [goodOptObjList_eq_listAllP] at ha
    split at h <;> cases h
    · exact ⟨listAllP_getLastD goodOptObj rfl es ha, rfl⟩
    · exact ⟨rfl, rfl⟩
  · cases h; exact ⟨rfl, rfl⟩
  · simp at h
  · cases h; exact ⟨rfl, rfl⟩
  · rename_i r1 es
    simp only [listAllP, goodOptObj, goodObj, Bool.and_true] at ha
    rw [goodOptObjList_eq_listAllP] at ha
    split at h <;> cases h
    · refine ⟨?_, rfl⟩
      show goodOptObjList es.tail = true
      rw [goodOptObjList_eq_listAllP]
      exact listAllP_tail goodOptObj es ha
    · exact ⟨rfl, rfl⟩
  · cases h; exact ⟨rfl, rfl⟩
  · simp at h
  · cases h; exact ⟨rfl, rfl⟩
  · rename_i r1 es x
    simp only [listAllP, goodOptObj, goodObj, Bool.and_true,
      Bool.and_eq_true] at ha
    cases h
    refine ⟨?_, rfl⟩
    show goodOptObjList (es ++ [x]) = true
    rw [goodOptObjList_eq_listAllP]
    refine listAllP_append goodOptObj es [x] ?_ ?_
    · rw [← goodOptObjList_eq_listAllP]
      exact ha.1
    · simp [listAllP, ha.2]
  · cases h; exact ⟨rfl, rfl⟩
  · simp at h
  · cases h; exact ⟨rfl, rfl⟩
  · split at h
    · simp at h
    · cases h; exact ⟨rfl, rfl⟩
  · simp at h

/-- **C9, main induction.**  Every value the evaluator produces, and every
value it stores, is good: Booleans are the TRUE/FALSE singletons and Nulls
the NULL singleton, at every depth. -/
lemma v1_eval_good :
    ∀ fuel,
    (∀ node env st out st2, goodState st = true →
       V1.eval fuel node env st = some (out, st2) →
       goodOptObj out = true ∧ goodState st2 = true) ∧
    (∀ acc stmts env st out st2, goodState st = true → goodOptObj acc = true →
       V1.evalProgramStmts fuel acc stmts env st = some (out, st2) →
       goodOptObj out = true ∧ goodState st2 = true) ∧
    (∀ acc stmts env st out st2, goodState st = true → goodOptObj acc = true →
       V1.evalBlockStmts fuel acc stmts env st = some (out, st2) →
       goodOptObj out = true ∧ goodState st2 = true) ∧
    (∀ acc exps env st outs st2, goodState st = true →
       listAllP goodOptObj acc = true →
       V1.evalExpressionsLoop fuel acc exps env st = some (outs, st2) →
       listAllP goodOptObj outs = true ∧ goodState st2 = true) ∧
    (∀ acc pairs env st out st2, goodState st = true →
       goodHashPairs acc = true →
       V1.evalHashPairs fuel acc pairs env st = some (out, st2) →
       goodOptObj out = true ∧ goodState st2 = true) ∧
    (∀ cond conseq alt env st out st2, goodState st = true →
       V1.evalIfExpression fuel cond conseq alt env st = some (out, st2) →
       goodOptObj out = true ∧ goodState st2 = true) ∧
    (∀ fn args st out st2, goodState st = true → goodOptObj fn = true →
       listAllP goodOptObj args = true →
       V1.applyFunction fuel fn args st = some (out, st2) →
       goodOptObj out = true ∧ goodState st2 = true) := by
  intro fuel
  induction fuel with
  | zero =>
    refine ⟨?_, ?_, ?_, ?_, ?_, ?_, ?_⟩
    · intro node env st out st2 _ h
      exact absurd h (by simp [V1.eval])
    · intro acc stmts env st out st2 _ _ h
      exact absurd h (by simp [V1.evalProgramStmts])
    · intro acc stmts env st out st2 _ _ h
      exact absurd h (by simp [V1.evalBlockStmts])
    · intro acc exps env st outs st2 _ _ h
      exact absurd h (by simp [V1.evalExpressionsLoop])
    · intro acc pairs env st out st2 _ _ h
      exact absurd h (by simp [V1.evalHashPairs])
    · intro cond conseq alt env st out st2 _ h
      exact absurd h (by simp [V1.evalIfExpression])
    · intro fn args st out st2 _ _ _ h
      exact absurd h (by simp [V1.applyFunction])
  | succ fuel IH =>
    obtain ⟨IHe, IHp, IHb, IHx, IHh, IHi, IHa⟩ := IH
    refine ⟨?_, ?_, ?_, ?_, ?_, ?_, ?_⟩
    · -- eval
      intro node env st out st2 hg h
      cases node with
      | prog stmts =>
        simp only [V1.eval] at h
        exact IHp none stmts env st out st2 hg rfl h
      | blockN stmts =>
        simp only [V1.eval] at h
        exact IHb none stmts env st out st2 hg rfl h
      | nilN =>
        simp only [V1.eval] at h
        cases h
        exact ⟨rfl, hg⟩
      | stmtN s =>
        cases s with
        | exprS e =>
          simp only [V1.eval] at h
          exact IHe (exprNode e) env st out st2 hg h
        | returnS v =>
          simp only [V1.eval] at h
          split at h
          · cases h
          · rename_i val st1 heq
            have hv := IHe (exprNode v) env st val st1 hg heq
            split at h
            · cases h
              exact hv
            · cases h
              exact ⟨hv.1, goodState_of_frames_eq st1 _ rfl hv.2⟩
        | letS name v =>
          simp only [V1.eval] at h
          split at h
          · cases h
          · rename_i val st1 heq
            have hv := IHe (exprNode v) env st val st1 hg heq
            split at h
            · cases h
              exact hv
            · cases h
              exact ⟨rfl, envSet_allP goodOptObj st1 env name val hv.2 hv.1⟩
      | exprN e =>
        cases e with
        | ident name =>
          simp only [V1.eval] at h
          injection h with h1
          have hid := good_evalIdentifier name env st hg
          rw [h1] at hid
          exact ⟨hid.1, goodState_of_frames_eq st st2 hid.2 hg⟩
        | intLit v =>
          simp only [V1.eval] at h
          cases h
          exact ⟨rfl, goodState_of_frames_eq st _ rfl hg⟩
        | strLit sv =>
          simp only [V1.eval] at h
          cases h
          exact ⟨rfl, goodState_of_frames_eq st _ rfl hg⟩
        | boolLit b =>
          simp only [V1.eval] at h
          cases h
          exact ⟨good_nativeBool b, hg⟩
        | funcLit ps body =>
          simp only [V1.eval] at h
          cases h
          exact ⟨rfl, goodState_of_frames_eq st _ rfl hg⟩
        | arrayLit elems =>
          simp only [V1.eval] at h
          split at h
          · cases h
          · rename_i elements st1 heq
            have hl := IHx [] elems env st elements st1 hg rfl heq
            split at h
            · cases h
              exact ⟨listAllP_headD goodOptObj rfl elements hl.1, hl.2⟩
            · cases h
              refine ⟨?_, goodState_of_frames_eq st1 _ rfl hl.2⟩
              show goodOptObjList elements = true
              rw [goodOptObjList_eq_listAllP]
              exact hl.1
        | hashLit pairsE =>
          simp only [V1.eval] at h
          exact IHh [] pairsE env st out st2 hg rfl h
        | prefixE op right =>
          simp only [V1.eval] at h
          split at h
          · cases h
          · rename_i rightObj st1 heq
            have hr := IHe (exprNode right) env st rightObj st1 hg heq
            split at h
            · cases h
              exact hr
            · cases heq2 : evalPrefixExpression op rightObj st1 with
              | none => rw [heq2] at h; cases h
              | some p =>
                obtain ⟨o, st3⟩ := p
                rw [heq2] at h
                cases h
                have ho := good_evalPrefixExpr op rightObj st1 o _ heq2
                exact ⟨ho.1, goodState_of_frames_eq st1 _ ho.2 hr.2⟩
        | infixE op left right =>
          simp only [V1.eval] at h
          split at h
          · cases h
          · rename_i leftObj st1 heq1
            have hl := IHe (exprNode left) env st leftObj st1 hg heq1
            split at h
            · cases h
              exact hl
            · split at h
              · cases h
              · rename_i rightObj st1b heq2
                have hr := IHe (exprNode right) env st1 rightObj st1b hl.2 heq2
                split at h
                · cases h
                  exact hr
                · cases leftObj with
                  | none => cases rightObj <;> cases h
                  | some lo =>
                    cases rightObj with
                    | none => cases h
                    | some ro =>
                      have h2 : (match evalInfixExpression op lo ro st1b with
                          | none => none
                          | some (o, st3) => some (some o, st3)) =
                          some (out, st2) := h
                      cases heq3 : evalInfixExpression op lo ro st1b with
                      | none => rw [heq3] at h2; cases h2
                      | some p =>
                        obtain ⟨o, st3⟩ := p
                        rw [heq3] at h2
                        cases h2
                        have ho := good_evalInfixExpr op lo ro st1b o _ heq3
                        exact ⟨ho.1,
                          goodState_of_frames_eq st1b _ ho.2 hr.2⟩
        | indexE left index =>
          simp only [V1.eval] at h
          split at h
          · cases h
          · rename_i leftObj st1 heq1
            have hl := IHe (exprNode left) env st leftObj st1 hg heq1
            split at h
            · cases h
              exact hl
            · split at h
              · cases h
              · rename_i idxObj st1b heq2
                have hr := IHe (exprNode index) env st1 idxObj st1b hl.2 heq2
                split at h
                · cases h
                  exact hr
                · cases leftObj with
                  | none => cases idxObj <;> cases h
                  | some lo =>
                    cases idxObj with
                    | none => cases h
                    | some io =>
                      have ho := good_evalIndex lo io st1b out st2 hl.1 h
                      exact ⟨ho.1,
                        goodState_of_frames_eq st1b st2 ho.2 hr.2⟩
        | ifE cond conseq alt =>
          simp only [V1.eval] at h
          exact IHi cond conseq alt env st out st2 hg h
        | call fn args =>
          simp only [V1.eval] at h
          split at h
          · cases h
          · rename_i fnObj st1 heq1
            have hf := IHe (exprNode fn) env st fnObj st1 hg heq1
            split at h
            · cases h
              exact hf
            · split at h
              · cases h
              · rename_i argObjs st1b heq2
                have hargs := IHx [] _ env st1 argObjs st1b hf.2 rfl heq2
                split at h
                · cases h
                  exact ⟨listAllP_headD goodOptObj rfl argObjs hargs.1,
                    hargs.2⟩
                · exact IHa fnObj argObjs st1b out st2 hargs.2 hf.1
                    hargs.1 h
    · -- evalProgramStmts
      intro acc stmts env st out st2 hg hacc h
      cases stmts with
      | nil =>
        simp only [V1.evalProgramStmts] at h
        cases h
        exact ⟨hacc, hg⟩
      | cons sHd rest =>
        simp only [V1.evalProgramStmts] at h
        split at h
        · cases h
        · rename_i result st1 heq
          have hres := IHe (.stmtN sHd) env st result st1 hg heq
          split at h
          · cases h
            exact ⟨hres.1, hres.2⟩
          · cases h
            exact ⟨hres.1, hres.2⟩
          all_goals exact IHp _ rest env st1 out st2 hres.2 hres.1 h
    · -- evalBlockStmts
      intro acc stmts env st out st2 hg hacc h
      cases stmts with
      | nil =>
        simp only [V1.evalBlockStmts] at h
        cases h
        exact ⟨hacc, hg⟩
      | cons sHd rest =>
        simp only [V1.evalBlockStmts] at h
        split at h
        · cases h
        · rename_i result st1 heq
          have hres := IHe (.stmtN sHd) env st result st1 hg heq
          split at h
          · split at h
            · cases h
              exact ⟨hres.1, hres.2⟩
            · exact IHb _ rest env st1 out st2 hres.2 hres.1 h
          · exact IHb none rest env st1 out st2 hres.2 rfl h
    · -- evalExpressionsLoop
      intro acc exps env st outs st2 hg hacc h
      cases exps with
      | nil =>
        simp only [V1.evalExpressionsLoop] at h
        cases h
        exact ⟨hacc, hg⟩
      | cons e rest =>
        simp only [V1.evalExpressionsLoop] at h
        split at h
        · cases h
        · rename_i evaluated st1 heq
          have hres := IHe (exprNode e) env st evaluated st1 hg heq
          split at h
          · cases h
            refine ⟨?_, hres.2⟩
            simp [listAllP, hres.1]
          · exact IHx (acc ++ [evaluated]) rest env st1 outs st2 hres.2
              (listAllP_append goodOptObj acc [evaluated] hacc
                (by simp [listAllP, hres.1])) h
    · -- evalHashPairs
      intro acc pairs env st out st2 hg hacc h
      cases pairs with
      | nil =>
        simp only [V1.evalHashPairs] at h
        cases h
        exact ⟨hacc, goodState_of_frames_eq st _ rfl hg⟩
      | cons kvp rest =>
        obtain ⟨kN, vN⟩ := kvp
        simp only [V1.evalHashPairs] at h
        split at h
        · cases h
        · rename_i key st1 heq1
          have hk := IHe (exprNode kN) env st key st1 hg heq1
          split at h
          · cases h
            exact hk
          · cases key with
            | none => cases h
            | some k =>
              have h3 : (match hashKeyOf k with
                  | none =>
                    let est := newError
                      ("unusable as hash key: " ++ typeTag k) st1
                    some (some est.1, est.2)
                  | some hk =>
                    match V1.eval fuel (exprNode vN) env st1 with
                    | none => none
                    | some (value, st2a) =>
                      if isError value then some (value, st2a)
                      else V1.evalHashPairs fuel (pairsSet acc hk (k, value))
                        rest env st2a) = some (out, st2) := h
              cases hkk : hashKeyOf k with
              | none =>
                rw [hkk] at h3
                cases h3
                exact ⟨rfl, goodState_of_frames_eq st1 _ rfl hk.2⟩
              | some hk2 =>
                rw [hkk] at h3
                have h4 : (match V1.eval fuel (exprNode vN) env st1 with
                    | none => none
                    | some (value, st2a) =>
                      if isError value then some (value, st2a)
                      else V1.evalHashPairs fuel (pairsSet acc hk2 (k, value))
                        rest env st2a) = some (out, st2) := h3
                cases heq2 : V1.eval fuel (exprNode vN) env st1 with
                | none => rw [heq2] at h4; cases h4
                | some p =>
                  obtain ⟨value, st2b⟩ := p
                  rw [heq2] at h4
                  have hv := IHe (exprNode vN) env st1 value st2b hk.2 heq2
                  have h5 : (if isError value then some (value, st2b)
                      else V1.evalHashPairs fuel (pairsSet acc hk2 (k, value))
                        rest env st2b) = some (out, st2) := h4
                  split at h5
                  · cases h5
                    exact hv
                  · exact IHh _ rest env st2b out st2 hv.2
                      (good_pairsSet acc hk2 (k, value) hacc hk.1 hv.1) h5
    · -- evalIfExpression
      intro cond conseq alt env st out st2 hg h
      simp only [V1.evalIfExpression] at h
      split at h
      · cases h
      · rename_i condObj st1 heq
        have hc := IHe (exprNode cond) env st condObj st1 hg heq
        split at h
        · cases h
          exact hc
        · split at h
          · exact IHe (.blockN conseq) env st1 out st2 hc.2 h
          · cases alt with
            | some altB => exact IHe (.blockN altB) env st1 out st2 hc.2 h
            | none =>
              cases h
              exact ⟨rfl, hc.2⟩
    · -- applyFunction
      intro fn args st out st2 hg hfn hargs h
      simp only [V1.applyFunction] at h
      cases fn with
      | none => cases h
      | some fnObj =>
        cases fnObj with
        | function r1 ps body fnEnv =>
          have h2 : (match extendFunctionEnv ps fnEnv args st with
              | none => none
              | some (env2, st1) =>
                match V1.eval fuel (.blockN body) env2 st1 with
                | none => none
                | some (evaluated, st2a) =>
                  some (unwrapReturnValue evaluated, st2a)) =
              some (out, st2) := h
          cases heq1 : extendFunctionEnv ps fnEnv args st with
          | none => rw [heq1] at h2; cases h2
          | some p =>
            obtain ⟨env2, st1⟩ := p
            rw [heq1] at h2
            have hst1 := good_extendFunctionEnv ps fnEnv args st env2 st1 hg
              hargs heq1
            have h3 : (match V1.eval fuel (.blockN body) env2 st1 with
                | none => none
                | some (evaluated, st2a) =>
                  some (unwrapReturnValue evaluated, st2a)) =
                some (out, st2) := h2
            cases heq2 : V1.eval fuel (.blockN body) env2 st1 with
            | none => rw [heq2] at h3; cases h3
            | some q =>
              obtain ⟨evaluated, st2b⟩ := q
              rw [heq2] at h3
              have hev := IHe (.blockN body) env2 st1 evaluated st2b hst1 heq2
              cases h3
              exact ⟨good_unwrap evaluated hev.1, hev.2⟩
        | builtin r1 nm =>
          have hb := good_builtinApply nm args st out st2 hargs h
          exact ⟨hb.1, goodState_of_frames_eq st st2 hb.2 hg⟩
        | integer r v =>
          cases h
          exact ⟨rfl, goodState_of_frames_eq st _ rfl hg⟩
        | boolean r b =>
          cases h
          exact ⟨rfl, goodState_of_frames_eq st _ rfl hg⟩
        | null r =>
          cases h
          exact ⟨rfl, goodState_of_frames_eq st _ rfl hg⟩
        | str r sv =>
          cases h
          exact ⟨rfl, goodState_of_frames_eq st _ rfl hg⟩
        | returnValue r v =>
          cases h
          exact ⟨rfl, goodState_of_frames_eq st _ rfl hg⟩
        | error r m =>
          cases h
          exact ⟨rfl, goodState_of_frames_eq st _ rfl hg⟩
        | array r es =>
          cases h
          exact ⟨rfl, goodState_of_frames_eq st _ rfl hg⟩
        | hash r ps2 =>
          cases h
          exact ⟨rfl, goodState_of_frames_eq st _ rfl hg⟩

/-- **C9.**  Starting from any good heap (the initial heap included),
every evaluation result and every stored value is good — in particular
every Boolean object an expression evaluates to is the TRUE or FALSE
singleton (refs 1 and 2) and every Null object the NULL singleton (ref 0):
no evaluation path constructs a fresh Boolean or Null. -/
theorem c9_singleton_booleans_and_null :
    (∀ fuel node env st out st2, goodState st = true →
       V1.eval fuel node env st = some (out, st2) →
       goodOptObj out = true ∧ goodState st2 = true) ∧
    (∀ fuel node env st r b st2, goodState st = true →
       V1.eval fuel node env st = some (some (.boolean r b), st2) →
       Obj.boolean r b = TRUEobj ∨ Obj.boolean r b = FALSEobj) ∧
    (∀ fuel node env st r st2, goodState st = true →
       V1.eval fuel node env st = some (some (.null r), st2) →
       Obj.null r = NULLobj) ∧
    goodState initEState = true := by
  refine ⟨fun fuel => (v1_eval_good fuel).1, ?_, ?_, rfl⟩
  · intro fuel node env st r b st2 hg h
    have hgood := (v1_eval_good fuel).1 node env st (some (.boolean r b))
      st2 hg h
    have hb : ((r == 1 && b) || (r == 2 && !b)) = true := hgood.1
    cases b with
    | true =>
      simp at hb
      subst hb
      exact Or.inl rfl
    | false =>
      simp at hb
      subst hb
      exact Or.inr rfl
  · intro fuel node env st r st2 hg h
    have hgood := (v1_eval_good fuel).1 node env st (some (.null r)) st2 hg h
    have hr : (r == 0) = true := hgood.1
    simp at hr
    subst hr
    rfl

/-- **C9, witness.**  `true` evaluates to the TRUE singleton and a
condition-less-else `if` evaluates to the NULL singleton; the invariant
conjuncts applied at those concrete runs. -/
theorem c9_singleton_booleans_and_null_witness :
    (goodState initEState = true ∧
     V1.eval 10 (.exprN (.boolLit true)) 0 initEState =
       some (some (.boolean 1 true), initEState) ∧
     (Obj.boolean 1 true = TRUEobj ∨ Obj.boolean 1 true = FALSEobj)) ∧
    (V1.eval 10 (.exprN (.ifE (some (.boolLit false)) [] none)) 0 initEState =
       some (some (.null 0), initEState) ∧
     Obj.null 0 = NULLobj) ∧
    (goodOptObj (some (.boolean 1 true)) = true ∧
     goodState initEState = true) :=
  ⟨⟨rfl, rfl, c9_singleton_booleans_and_null.2.1 10 (.exprN (.boolLit true)) 0
      initEState 1 true initEState rfl rfl⟩,
   ⟨rfl, c9_singleton_booleans_and_null.2.2.1 10
      (.exprN (.ifE (some (.boolLit false)) [] none)) 0 initEState 0
      initEState rfl rfl⟩,
   c9_singleton_booleans_and_null.1 10 (.exprN (.boolLit true)) 0 initEState
      (some (.boolean 1 true)) initEState rfl rfl⟩


/-! ### Claim C6 — the two evaluators, restricted fragment

The evaluators differ on array literals, hash literals, index expressions,
builtin identifiers and builtin application
(`c6_two_evaluators_differ`).  On the fragment excluding those, they
agree; the fragment is closed under evaluation. -/

mutual

/-- The expression fragment both evaluators implement alike: no array or
hash literals, no index expressions, no identifier naming a builtin. -/
def exprOK : Expr → Bool
  | .ident name => (builtins name).isNone
  | .intLit _ => true
  | .strLit _ => true
  | .boolLit _ => true
  | .prefixE _ right => optExprOK right
  | .infixE _ left right => optExprOK left && optExprOK right
  | .ifE cond conseq alt =>
    optExprOK cond && stmtListOK conseq && optStmtListOK alt
  | .funcLit _ body => stmtListOK body
  | .call fn args => optExprOK fn && optArgsOK args
  | .arrayLit _ => false
  | .hashLit _ => false
  | .indexE _ _ => false

def optExprOK : Option Expr → Bool
  | none => true
  | some e => exprOK e

def argsListOK : List (Option Expr) → Bool
  | [] => true
  | e :: rest => optExprOK e && argsListOK rest

def optArgsOK : Option (List (Option Expr)) → Bool
  | none => true
  | some l => argsListOK l

def stmtOK : Stmt → Bool
  | .letS _ v => optExprOK v
  | .returnS v => optExprOK v
  | .exprS e => optExprOK e

def stmtListOK : List Stmt → Bool
  | [] => true
  | s :: rest => stmtOK s && stmtListOK rest

def optStmtListOK : Option (List Stmt) → Bool
  | none => true
  | some l => stmtListOK l

end

mutual

/-- Values the fragment can produce: no arrays, hashes or builtins, and
function bodies stay in the fragment. -/
def objOK : Obj → Bool
  | .integer _ _ => true
  | .boolean _ _ => true
  | .null _ => true
  | .str _ _ => true
  | .returnValue _ v => optObjOK v
  | .error _ _ => true
  | .function _ _ body _ => stmtListOK body
  | .array _ _ => false
  | .hash _ _ => false
  | .builtin _ _ => false

def optObjOK : Option Obj → Bool
  | none => true
  | some o => objOK o

end

/-- `Node` in the fragment. -/
def nodeOK : Node → Bool
  | .prog stmts => stmtListOK stmts
  | .blockN stmts => stmtListOK stmts
  | .stmtN s => stmtOK s
  | .exprN e => exprOK e
  | .nilN => true

/-- The fragment heap invariant. -/
def stateOK (st : EState) : Bool := stateAllP optObjOK st

lemma stateAllP_of_frames_eq (P : Option Obj → Bool) (st st2 : EState)
    (hf : st2.frames = st.frames) (hg : stateAllP P st = true) :
    stateAllP P st2 = true := by
  unfold stateAllP at *
  rw [hf]
  exact hg

lemma ok_evalBang (r : Option Obj) :
    objOK (evalBangOperatorExpression r) = true := by
  cases r with
  | none => rfl
  | some o =>
    simp only [evalBangOperatorExpression]
    split_ifs <;> rfl

lemma ok_nativeBool (b : Bool) :
    objOK (nativeBoolToBooleanObject b) = true := by
  cases b <;> rfl

lemma ok_evalMinus (right : Option Obj) (st : EState) (o : Obj)
    (st2 : EState) (h : evalMinusPrefixOperatorExpression right st =
      some (o, st2)) : objOK o = true ∧ st2.frames = st.frames := by
  unfold evalMinusPrefixOperatorExpression at h
  split at h
  · simp at h
  · split at h <;> (cases h; exact ⟨rfl, rfl⟩)

lemma ok_evalPrefixExpr (op : String) (right : Option Obj) (st : EState)
    (o : Obj) (st2 : EState) (h : evalPrefixExpression op right st =
      some (o, st2)) : objOK o = true ∧ st2.frames = st.frames := by
  unfold evalPrefixExpression at h
  split at h
  · cases h
    exact ⟨ok_evalBang right, rfl⟩
  · exact ok_evalMinus right st o st2 h
  · split at h
    · simp at h
    · cases h
      exact ⟨rfl, rfl⟩

lemma ok_evalIntegerInfixExpr (op : String) (l r : Obj) (st : EState)
    (o : Obj) (st2 : EState) (h : evalIntegerInfixExpression op l r st =
      some (o, st2)) : objOK o = true ∧ st2.frames = st.frames := by
  unfold evalIntegerInfixExpression at h
  split at h
  · split at h
    · cases h; exact ⟨rfl, rfl⟩
    · cases h; exact ⟨rfl, rfl⟩
    · cases h; exact ⟨rfl, rfl⟩
    · split at h
      · simp at h
      · cases h; exact ⟨rfl, rfl⟩
    · cases h; exact ⟨ok_nativeBool _, rfl⟩
    · cases h; exact ⟨ok_nativeBool _, rfl⟩
    · cases h; exact ⟨ok_nativeBool _, rfl⟩
    · cases h; exact ⟨ok_nativeBool _, rfl⟩
    · cases h; exact ⟨rfl, rfl⟩
  · simp at h

lemma ok_evalStringInfixExpr (op : String) (l r : Obj) (st : EState)
    (o : Obj) (st2 : EState) (h : evalStringInfixExpression op l r st =
      some (o, st2)) : objOK o = true ∧ st2.frames = st.frames := by
  unfold evalStringInfixExpression at h
  split at h
  · split at h <;> (cases h; exact ⟨rfl, rfl⟩)
  · simp at h

lemma ok_evalInfixExpr (op : String) (l r : Obj) (st : EState)
    (o : Obj) (st2 : EState) (h : evalInfixExpression op l r st =
      some (o, st2)) : objOK o = true ∧ st2.frames = st.frames := by
  unfold evalInfixExpression at h
  split_ifs at h
  · exact ok_evalIntegerInfixExpr op l r st o st2 h
  · exact ok_evalStringInfixExpr op l r st o st2 h
  · cases h
    exact ⟨ok_nativeBool _, rfl⟩
  · cases h
    exact ⟨ok_nativeBool _, rfl⟩
  · cases h; exact ⟨rfl, rfl⟩
  · cases h; exact ⟨rfl, rfl⟩

lemma ok_unwrap (o : Option Obj) (h : optObjOK o = true) :
    optObjOK (unwrapReturnValue o) = true := by
  cases o with
  | none => exact h
  | some obj => cases obj <;> simpa [unwrapReturnValue, optObjOK,
      objOK] using h

lemma ok_evalIdentifier (name : String) (env : Nat) (st : EState)
    (hb : (builtins name).isNone = true)
    (hst : stateAllP optObjOK st = true) :
    V2.evalIdentifier name env st = V1.evalIdentifier name env st ∧
    optObjOK (V1.evalIdentifier name env st).1 = true ∧
    stateAllP optObjOK (V1.evalIdentifier name env st).2 = true := by
  unfold V1.evalIdentifier V2.evalIdentifier
  cases hv : envGet st env name with
  | some v => exact ⟨rfl, envGet_allP optObjOK st hst env name v hv, hst⟩
  | none =>
    cases hbn : builtins name with
    | none =>
      exact ⟨rfl, rfl, stateAllP_of_frames_eq optObjOK st _ rfl hst⟩
    | some b =>
      rw [hbn] at hb
      simp at hb

lemma extendFunctionEnv_allP (P : Option Obj → Bool)
    (ps : Option (List String)) (fnEnv : Nat) (args : List (Option Obj))
    (st : EState) (env2 : Nat) (st2 : EState)
    (hg : stateAllP P st = true) (ha : listAllP P args = true)
    (h : extendFunctionEnv ps fnEnv args st = some (env2, st2)) :
    stateAllP P st2 = true := by
  have hgood : stateAllP P
      { st with frames := st.frames ++ [Frame.mk [] (some fnEnv)] } = true :=
    newEnclosedEnvironment_allP P fnEnv st hg
  have h2 : (match bindParams ps args st.frames.length
      { st with frames := st.frames ++ [Frame.mk [] (some fnEnv)] } with
    | none => none
    | some stx => some (st.frames.length, stx)) = some (env2, st2) := h
  cases hb : bindParams ps args st.frames.length
      { st with frames := st.frames ++ [Frame.mk [] (some fnEnv)] } with
  | none =>
    rw [hb] at h2
    simp at h2
  | some stx =>
    rw [hb] at h2
    cases h2
    exact bindParams_allP P ps args _ _ _ hgood ha hb

lemma nodeOK_exprNode : ∀ e, nodeOK (exprNode e) = optExprOK e := by
  intro e
  cases e <;> rfl

/-- The argument list `Eval` hands to `evalExpressions` (nil slice for a
nil `Arguments`). -/
def argsOrNil : Option (List (Option Expr)) → List (Option Expr)
  | none => []
  | some l => l

lemma argsListOK_of_optArgs (args : Option (List (Option Expr)))
    (h : optArgsOK args = true) :
    argsListOK (argsOrNil args) = true := by
  cases args with
  | none => rfl
  | some l => exact h

/-- **C6 (amended), main induction.**  On the fragment the two evaluators
compute identical results and the fragment's value and heap restrictions
are preserved. -/
lemma v1_v2_agree :
    ∀ fuel,
    (∀ node env st, nodeOK node = true → stateOK st = true →
       V2.eval fuel node env st = V1.eval fuel node env st ∧
       (∀ out st2, V1.eval fuel node env st = some (out, st2) →
         optObjOK out = true ∧ stateOK st2 = true)) ∧
    (∀ acc stmts env st, stmtListOK stmts = true → stateOK st = true →
       optObjOK acc = true →
       (V2.evalProgramStmts fuel acc stmts env st =
         V1.evalProgramStmts fuel acc stmts env st) ∧
       (∀ out st2,
         V1.evalProgramStmts fuel acc stmts env st = some (out, st2) →
         optObjOK out = true ∧ stateOK st2 = true)) ∧
    (∀ acc stmts env st, stmtListOK stmts = true → stateOK st = true →
       optObjOK acc = true →
       (V2.evalBlockStmts fuel acc stmts env st =
         V1.evalBlockStmts fuel acc stmts env st) ∧
       (∀ out st2,
         V1.evalBlockStmts fuel acc stmts env st = some (out, st2) →
         optObjOK out = true ∧ stateOK st2 = true)) ∧
    (∀ acc exps env st, argsListOK exps = true → stateOK st = true →
       listAllP optObjOK acc = true →
       (V2.evalExpressionsLoop fuel acc exps env st =
         V1.evalExpressionsLoop fuel acc exps env st) ∧
       (∀ outs st2,
         V1.evalExpressionsLoop fuel acc exps env st = some (outs, st2) →
         listAllP optObjOK outs = true ∧ stateOK st2 = true)) ∧
    (∀ cond conseq alt env st, optExprOK cond = true →
       stmtListOK conseq = true → optStmtListOK alt = true →
       stateOK st = true →
       (V2.evalIfExpression fuel cond conseq alt env st =
         V1.evalIfExpression fuel cond conseq alt env st) ∧
       (∀ out st2,
         V1.evalIfExpression fuel cond conseq alt env st = some (out, st2) →
         optObjOK out = true ∧ stateOK st2 = true)) ∧
    (∀ fn args st, optObjOK fn = true → listAllP optObjOK args = true →
       stateOK st = true →
       (V2.applyFunction fuel fn args st = V1.applyFunction fuel fn args st) ∧
       (∀ out st2, V1.applyFunction fuel fn args st = some (out, st2) →
         optObjOK out = true ∧ stateOK st2 = true)) := by
  intro fuel
  induction fuel with
  | zero =>
    refine ⟨?_, ?_, ?_, ?_, ?_, ?_⟩
    · intro node env st _ _
      exact ⟨rfl, fun out st2 h => absurd h (by simp [V1.eval])⟩
    · intro acc stmts env st _ _ _
      exact ⟨rfl, fun out st2 h => absurd h (by simp [V1.evalProgramStmts])⟩
    · intro acc stmts env st _ _ _
      exact ⟨rfl, fun out st2 h => absurd h (by simp [V1.evalBlockStmts])⟩
    · intro acc exps env st _ _ _
      exact ⟨rfl, fun outs st2 h =>
        absurd h (by simp [V1.evalExpressionsLoop])⟩
    · intro cond conseq alt env st _ _ _ _
      exact ⟨rfl, fun out st2 h => absurd h (by simp [V1.evalIfExpression])⟩
    · intro fn args st _ _ _
      exact ⟨rfl, fun out st2 h => absurd h (by simp [V1.applyFunction])⟩
  | succ fuel IH =>
    obtain ⟨IHe, IHp, IHb, IHx, IHi, IHa⟩ := IH
    refine ⟨?_, ?_, ?_, ?_, ?_, ?_⟩
    · -- eval
      intro node env st hok hst
      cases node with
      | prog stmts =>
        have hsub := IHp none stmts env st hok hst rfl
        exact ⟨hsub.1, hsub.2⟩
      | blockN stmts =>
        have hsub := IHb none stmts env st hok hst rfl
        exact ⟨hsub.1, hsub.2⟩
      | nilN =>
        refine ⟨rfl, ?_⟩
        intro out st2 h
        cases h
        exact ⟨rfl, hst⟩
      | stmtN s =>
        cases s with
        | exprS e =>
          have hsub := IHe (exprNode e) env st
            (by rw [nodeOK_exprNode]; exact hok) hst
          exact ⟨hsub.1, hsub.2⟩
        | returnS v =>
          have hsub := IHe (exprNode v) env st
            (by rw [nodeOK_exprNode]; exact hok) hst
          constructor
          · simp only [V1.eval, V2.eval]
            rw [hsub.1]
          · intro out st2 h
            simp only [V1.eval] at h
            split at h
            · cases h
            · rename_i val st1 heq
              have hv := hsub.2 val st1 heq
              split at h
              · cases h
                exact hv
              · cases h
                exact ⟨hv.1, stateAllP_of_frames_eq optObjOK st1 _ rfl hv.2⟩
        | letS name v =>
          have hsub := IHe (exprNode v) env st
            (by rw [nodeOK_exprNode]; exact hok) hst
          constructor
          · simp only [V1.eval, V2.eval]
            rw [hsub.1]
          · intro out st2 h
            simp only [V1.eval] at h
            split at h
            · cases h
            · rename_i val st1 heq
              have hv := hsub.2 val st1 heq
              split at h
              · cases h
                exact hv
              · cases h
                exact ⟨rfl, envSet_allP optObjOK st1 env name val hv.2 hv.1⟩
      | exprN e =>
        cases e with
        | ident name =>
          have hid := ok_evalIdentifier name env st hok hst
          constructor
          · show some (V2.evalIdentifier name env st) =
              some (V1.evalIdentifier name env st)
            rw [hid.1]
          · intro out st2 h
            have h2 : some (V1.evalIdentifier name env st) =
              some (out, st2) := h
            injection h2 with h3
            rw [h3] at hid
            exact ⟨hid.2.1, hid.2.2⟩
        | intLit v =>
          refine ⟨rfl, ?_⟩
          intro out st2 h
          cases h
          exact ⟨rfl, stateAllP_of_frames_eq optObjOK st _ rfl hst⟩
        | strLit sv =>
          refine ⟨rfl, ?_⟩
          intro out st2 h
          cases h
          exact ⟨rfl, stateAllP_of_frames_eq optObjOK st _ rfl hst⟩
        | boolLit b =>
          refine ⟨rfl, ?_⟩
          intro out st2 h
          cases h
          exact ⟨by cases b <;> rfl, hst⟩
        | funcLit ps body =>
          refine ⟨rfl, ?_⟩
          intro out st2 h
          cases h
          exact ⟨hok, stateAllP_of_frames_eq optObjOK st _ rfl hst⟩
        | arrayLit elems => exact Bool.noConfusion hok
        | hashLit pairsE => exact Bool.noConfusion hok
        | indexE left index => exact Bool.noConfusion hok
        | prefixE op right =>
          have hsub := IHe (exprNode right) env st
            (by rw [nodeOK_exprNode]; exact hok) hst
          constructor
          · simp only [V1.eval, V2.eval]
            rw [hsub.1]
          · intro out st2 h
            simp only [V1.eval] at h
            split at h
            · cases h
            · rename_i rightObj st1 heq
              have hr := hsub.2 rightObj st1 heq
              split at h
              · cases h
                exact hr
              · cases heq2 : evalPrefixExpression op rightObj st1 with
                | none => rw [heq2] at h; cases h
                | some p =>
                  obtain ⟨o, st3⟩ := p
                  rw [heq2] at h
                  cases h
                  have ho := ok_evalPrefixExpr op rightObj st1 o _ heq2
                  exact ⟨ho.1,
                    stateAllP_of_frames_eq optObjOK st1 _ ho.2 hr.2⟩
        | infixE op left right =>
          have hok2 : optExprOK left = true ∧ optExprOK right = true := by
            have h0 : (optExprOK left && optExprOK right) = true := hok
            simpa [Bool.and_eq_true] using h0
          have hsubL := IHe (exprNode left) env st
            (by rw [nodeOK_exprNode]; exact hok2.1) hst
          constructor
          · simp only [V1.eval, V2.eval]
            rw [hsubL.1]
            cases hs1 : V1.eval fuel (exprNode left) env st with
            | none => rfl
            | some p =>
              obtain ⟨leftObj, st1⟩ := p
              have hl := hsubL.2 leftObj st1 hs1
              have hsubR := IHe (exprNode right) env st1
                (by rw [nodeOK_exprNode]; exact hok2.2) hl.2
              clear hs1 hl hsubL
              show (if isError leftObj then some (leftObj, st1)
                  else
                    match V2.eval fuel (exprNode right) env st1 with
                    | none => none
                    | some (rightObj, st2a) =>
                      if isError rightObj then some (rightObj, st2a)
                      else
                        match leftObj, rightObj with
                        | some lo, some ro =>
                          match evalInfixExpression op lo ro st2a with
                          | none => none
                          | some (o, st3) => some (some o, st3)
                        | _, _ => none) =
                (if isError leftObj then some (leftObj, st1)
                  else
                    match V1.eval fuel (exprNode right) env st1 with
                    | none => none
                    | some (rightObj, st2a) =>
                      if isError rightObj then some (rightObj, st2a)
                      else
                        match leftObj, rightObj with
                        | some lo, some ro =>
                          match evalInfixExpression op lo ro st2a with
                          | none => none
                          | some (o, st3) => some (some o, st3)
                        | _, _ => none)
              rw [hsubR.1]
          · intro out st2 h
            simp only [V1.eval] at h
            split at h
            · cases h
            · rename_i leftObj st1 heq1
              have hl := hsubL.2 leftObj st1 heq1
              split at h
              · cases h
                exact hl
              · split at h
                · cases h
                · rename_i rightObj st1b heq2
                  have hsubR := IHe (exprNode right) env st1
                    (by rw [nodeOK_exprNode]; exact hok2.2) hl.2
                  have hr := hsubR.2 rightObj st1b heq2
                  split at h
                  · cases h
                    exact hr
                  · cases leftObj with
                    | none => cases rightObj <;> cases h
                    | some lo =>
                      cases rightObj with
                      | none => cases h
                      | some ro =>
                        have h2 : (match evalInfixExpression op lo ro st1b with
                            | none => none
                            | some (o, st3) => some (some o, st3)) =
                            some (out, st2) := h
                        cases heq3 : evalInfixExpression op lo ro st1b with
                        | none => rw [heq3] at h2; cases h2
                        | some p =>
                          obtain ⟨o, st3⟩ := p
                          rw [heq3] at h2
                          cases h2
                          have ho := ok_evalInfixExpr op lo ro st1b o _ heq3
                          exact ⟨ho.1,
                            stateAllP_of_frames_eq optObjOK st1b _ ho.2 hr.2⟩
        | ifE cond conseq alt =>
          have hok2 : (optExprOK cond = true ∧ stmtListOK conseq = true) ∧
              optStmtListOK alt = true := by
            have h0 : (optExprOK cond && stmtListOK conseq &&
              optStmtListOK alt) = true := hok
            simpa [Bool.and_eq_true] using h0
          have hi := IHi cond conseq alt env st hok2.1.1 hok2.1.2 hok2.2 hst
          exact ⟨hi.1, hi.2⟩
        | call fn args =>
          have hok2 : optExprOK fn = true ∧ optArgsOK args = true := by
            have h0 : (optExprOK fn && optArgsOK args) = true := hok
            simpa [Bool.and_eq_true] using h0
          have hsubF := IHe (exprNode fn) env st
            (by rw [nodeOK_exprNode]; exact hok2.1) hst
          constructor
          · simp only [V1.eval, V2.eval]
            rw [hsubF.1]
            cases hs1 : V1.eval fuel (exprNode fn) env st with
            | none => rfl
            | some p =>
              obtain ⟨fnObj, st1⟩ := p
              have hf := hsubF.2 fnObj st1 hs1
              have hsubA := IHx [] (argsOrNil args) env st1
                (argsListOK_of_optArgs args hok2.2) hf.2 rfl
              show (if isError fnObj then some (fnObj, st1)
                  else
                    match V2.evalExpressionsLoop fuel [] (argsOrNil args)
                        env st1 with
                    | none => none
                    | some (argObjs, st2a) =>
                      if argObjs.length = 1 ∧
                          isError (argObjs.headD none) = true then
                        some (argObjs.headD none, st2a)
                      else V2.applyFunction fuel fnObj argObjs st2a) =
                (if isError fnObj then some (fnObj, st1)
                  else
                    match V1.evalExpressionsLoop fuel [] (argsOrNil args)
                        env st1 with
                    | none => none
                    | some (argObjs, st2a) =>
                      if argObjs.length = 1 ∧
                          isError (argObjs.headD none) = true then
                        some (argObjs.headD none, st2a)
                      else V1.applyFunction fuel fnObj argObjs st2a)
              rw [hsubA.1]
              by_cases hie : isError fnObj = true
              · rw [if_pos hie, if_pos hie]
              · rw [if_neg hie, if_neg hie]
                cases hs2 : V1.evalExpressionsLoop fuel [] (argsOrNil args)
                    env st1 with
                | none => rfl
                | some q =>
                  obtain ⟨argObjs, st2a⟩ := q
                  have hargs := hsubA.2 argObjs st2a hs2
                  show (if argObjs.length = 1 ∧
                        isError (argObjs.headD none) = true then
                      some (argObjs.headD none, st2a)
                    else V2.applyFunction fuel fnObj argObjs st2a) =
                    (if argObjs.length = 1 ∧
                        isError (argObjs.headD none) = true then
                      some (argObjs.headD none, st2a)
                    else V1.applyFunction fuel fnObj argObjs st2a)
                  by_cases hc : argObjs.length = 1 ∧
                      isError (argObjs.headD none) = true
                  · rw [if_pos hc, if_pos hc]
                  · rw [if_neg hc, if_neg hc]
                    exact (IHa fnObj argObjs st2a hf.1 hargs.1 hargs.2).1
          · intro out st2 h
            simp only [V1.eval] at h
            split at h
            · cases h
            · rename_i fnObj st1 heq1
              have hf := hsubF.2 fnObj st1 heq1
              have hsubA := IHx [] (argsOrNil args) env st1
                (argsListOK_of_optArgs args hok2.2) hf.2 rfl
              split at h
              · cases h
                exact hf
              · split at h
                · cases h
                · rename_i argObjs st1b heq2
                  have hargs := hsubA.2 argObjs st1b heq2
                  split at h
                  · cases h
                    exact ⟨listAllP_headD optObjOK rfl argObjs hargs.1,
                      hargs.2⟩
                  · exact (IHa fnObj argObjs st1b hf.1 hargs.1
                      hargs.2).2 out st2 h
    · -- evalProgramStmts
      intro acc stmts env st hsl hst hacc
      cases stmts with
      | nil =>
        refine ⟨rfl, ?_⟩
        intro out st2 h
        cases h
        exact ⟨hacc, hst⟩
      | cons sHd rest =>
        have hss : stmtOK sHd = true ∧ stmtListOK rest = true := by
          have h0 : (stmtOK sHd && stmtListOK rest) = true := hsl
          simpa [Bool.and_eq_true] using h0
        have hsub := IHe (.stmtN sHd) env st hss.1 hst
        constructor
        · simp only [V1.evalProgramStmts, V2.evalProgramStmts]
          rw [hsub.1]
          cases hs : V1.eval fuel (.stmtN sHd) env st with
          | none => rfl
          | some p =>
            obtain ⟨result, st1⟩ := p
            have hres := hsub.2 result st1 hs
            cases result with
            | none => exact (IHp none rest env st1 hss.2 hres.2 rfl).1
            | some r =>
              cases r with
              | returnValue rr rv => rfl
              | error rr m => rfl
              | integer rr v =>
                exact (IHp _ rest env st1 hss.2 hres.2 hres.1).1
              | boolean rr b =>
                exact (IHp _ rest env st1 hss.2 hres.2 hres.1).1
              | null rr =>
                exact (IHp _ rest env st1 hss.2 hres.2 hres.1).1
              | str rr sv =>
                exact (IHp _ rest env st1 hss.2 hres.2 hres.1).1
              | function rr ps body fe =>
                exact (IHp _ rest env st1 hss.2 hres.2 hres.1).1
              | array rr es =>
                exact (IHp _ rest env st1 hss.2 hres.2 hres.1).1
              | hash rr hps =>
                exact (IHp _ rest env st1 hss.2 hres.2 hres.1).1
              | builtin rr nm =>
                exact (IHp _ rest env st1 hss.2 hres.2 hres.1).1
        · intro out st2 h
          simp only [V1.evalProgramStmts] at h
          split at h
          · cases h
          · rename_i result st1 heq
            have hres := hsub.2 result st1 heq
            split at h
            · cases h
              exact ⟨hres.1, hres.2⟩
            · cases h
              exact ⟨hres.1, hres.2⟩
            all_goals
              exact (IHp _ rest env st1 hss.2 hres.2 hres.1).2 out st2 h
    · -- evalBlockStmts
      intro acc stmts env st hsl hst hacc
      cases stmts with
      | nil =>
        refine ⟨rfl, ?_⟩
        intro out st2 h
        cases h
        exact ⟨hacc, hst⟩
      | cons sHd rest =>
        have hss : stmtOK sHd = true ∧ stmtListOK rest = true := by
          have h0 : (stmtOK sHd && stmtListOK rest) = true := hsl
          simpa [Bool.and_eq_true] using h0
        have hsub := IHe (.stmtN sHd) env st hss.1 hst
        constructor
        · simp only [V1.evalBlockStmts, V2.evalBlockStmts]
          rw [hsub.1]
          cases hs : V1.eval fuel (.stmtN sHd) env st with
          | none => rfl
          | some p =>
            obtain ⟨result, st1⟩ := p
            have hres := hsub.2 result st1 hs
            cases result with
            | none => exact (IHb none rest env st1 hss.2 hres.2 rfl).1
            | some r =>
              cases r with
              | returnValue rr rv => rfl
              | error rr m => rfl
              | integer rr v =>
                exact (IHb _ rest env st1 hss.2 hres.2 hres.1).1
              | boolean rr b =>
                exact (IHb _ rest env st1 hss.2 hres.2 hres.1).1
              | null rr =>
                exact (IHb _ rest env st1 hss.2 hres.2 hres.1).1
              | str rr sv =>
                exact (IHb _ rest env st1 hss.2 hres.2 hres.1).1
              | function rr ps body fe =>
                exact (IHb _ rest env st1 hss.2 hres.2 hres.1).1
              | array rr es =>
                exact (IHb _ rest env st1 hss.2 hres.2 hres.1).1
              | hash rr hps =>
                exact (IHb _ rest env st1 hss.2 hres.2 hres.1).1
              | builtin rr nm =>
                exact (IHb _ rest env st1 hss.2 hres.2 hres.1).1
        · intro out st2 h
          simp only [V1.evalBlockStmts] at h
          split at h
          · cases h
          · rename_i result st1 heq
            have hres := hsub.2 result st1 heq
            split at h
            · split at h
              · cases h
                exact ⟨hres.1, hres.2⟩
              · exact (IHb _ rest env st1 hss.2 hres.2 hres.1).2 out st2 h
            · exact (IHb none rest env st1 hss.2 hres.2 rfl).2 out st2 h
    · -- evalExpressionsLoop
      intro acc exps env st hal hst hacc
      cases exps with
      | nil =>
        refine ⟨rfl, ?_⟩
        intro outs st2 h
        cases h
        exact ⟨hacc, hst⟩
      | cons e rest =>
        have hee : optExprOK e = true ∧ argsListOK rest = true := by
          have h0 : (optExprOK e && argsListOK rest) = true := hal
          simpa [Bool.and_eq_true] using h0
        have hsub := IHe (exprNode e) env st
          (by rw [nodeOK_exprNode]; exact hee.1) hst
        constructor
        · simp only [V1.evalExpressionsLoop, V2.evalExpressionsLoop]
          rw [hsub.1]
          cases hs : V1.eval fuel (exprNode e) env st with
          | none => rfl
          | some p =>
            obtain ⟨evaluated, st1⟩ := p
            have hres := hsub.2 evaluated st1 hs
            show (if isError evaluated then some ([evaluated], st1)
                else V2.evalExpressionsLoop fuel (acc ++ [evaluated])
                  rest env st1) =
              (if isError evaluated then some ([evaluated], st1)
                else V1.evalExpressionsLoop fuel (acc ++ [evaluated])
                  rest env st1)
            by_cases hie : isError evaluated = true
            · rw [if_pos hie, if_pos hie]
            · rw [if_neg hie, if_neg hie]
              exact (IHx (acc ++ [evaluated]) rest env st1 hee.2 hres.2
                (listAllP_append optObjOK acc [evaluated] hacc
                  (by simp [listAllP, hres.1]))).1
        · intro outs st2 h
          simp only [V1.evalExpressionsLoop] at h
          split at h
          · cases h
          · rename_i evaluated st1 heq
            have hres := hsub.2 evaluated st1 heq
            split at h
            · cases h
              refine ⟨?_, hres.2⟩
              simp [listAllP, hres.1]
            · exact (IHx (acc ++ [evaluated]) rest env st1 hee.2 hres.2
                (listAllP_append optObjOK acc [evaluated] hacc
                  (by simp [listAllP, hres.1]))).2 outs st2 h
    · -- evalIfExpression
      intro cond conseq alt env st hcond hconseq halt hst
      have hsub := IHe (exprNode cond) env st
        (by rw [nodeOK_exprNode]; exact hcond) hst
      constructor
      · simp only [V1.evalIfExpression, V2.evalIfExpression]
        rw [hsub.1]
        cases hs : V1.eval fuel (exprNode cond) env st with
        | none => rfl
        | some p =>
          obtain ⟨condObj, st1⟩ := p
          have hc := hsub.2 condObj st1 hs
          clear hs
          cases alt with
          | none =>
            show (if isError condObj then some (condObj, st1)
                else if isTruthy condObj then
                  V2.eval fuel (.blockN conseq) env st1
                else some (some NULLobj, st1)) =
              (if isError condObj then some (condObj, st1)
                else if isTruthy condObj then
                  V1.eval fuel (.blockN conseq) env st1
                else some (some NULLobj, st1))
            by_cases h1 : isError condObj = true
            · rw [if_pos h1, if_pos h1]
            · rw [if_neg h1, if_neg h1]
              by_cases h2 : isTruthy condObj = true
              · rw [if_pos h2, if_pos h2]
                exact (IHe (.blockN conseq) env st1 hconseq hc.2).1
              · rw [if_neg h2, if_neg h2]
          | some altB =>
            show (if isError condObj then some (condObj, st1)
                else if isTruthy condObj then
                  V2.eval fuel (.blockN conseq) env st1
                else V2.eval fuel (.blockN altB) env st1) =
              (if isError condObj then some (condObj, st1)
                else if isTruthy condObj then
                  V1.eval fuel (.blockN conseq) env st1
                else V1.eval fuel (.blockN altB) env st1)
            by_cases h1 : isError condObj = true
            · rw [if_pos h1, if_pos h1]
            · rw [if_neg h1, if_neg h1]
              by_cases h2 : isTruthy condObj = true
              · rw [if_pos h2, if_pos h2]
                exact (IHe (.blockN conseq) env st1 hconseq hc.2).1
              · rw [if_neg h2, if_neg h2]
                exact (IHe (.blockN altB) env st1 halt hc.2).1
      · intro out st2 h
        simp only [V1.evalIfExpression] at h
        split at h
        · cases h
        · rename_i condObj st1 heq
          have hc := hsub.2 condObj st1 heq
          split at h
          · cases h
            exact hc
          · split at h
            · exact (IHe (.blockN conseq) env st1 hconseq hc.2).2 out st2 h
            · cases alt with
              | some altB =>
                exact (IHe (.blockN altB) env st1 halt hc.2).2 out st2 h
              | none =>
                cases h
                exact ⟨rfl, hc.2⟩
    · -- applyFunction
      intro fn args st hfn hargs hst
      cases fn with
      | none =>
        refine ⟨rfl, ?_⟩
        intro out st2 h
        cases h
      | some fnObj =>
        cases fnObj with
        | function r1 ps body fnEnv =>
          constructor
          · simp only [V1.applyFunction, V2.applyFunction]
            cases heq1 : extendFunctionEnv ps fnEnv args st with
            | none => rfl
            | some p =>
              obtain ⟨env2, st1⟩ := p
              have hst1 := extendFunctionEnv_allP optObjOK ps fnEnv args st
                env2 st1 hst hargs heq1
              show (match V2.eval fuel (.blockN body) env2 st1 with
                  | none => none
                  | some (evaluated, st2a) =>
                    some (unwrapReturnValue evaluated, st2a)) =
                (match V1.eval fuel (.blockN body) env2 st1 with
                  | none => none
                  | some (evaluated, st2a) =>
                    some (unwrapReturnValue evaluated, st2a))
              rw [(IHe (.blockN body) env2 st1 hfn hst1).1]
          · intro out st2 h
            simp only [V1.applyFunction] at h
            have h2 : (match extendFunctionEnv ps fnEnv args st with
                | none => none
                | some (env2, st1) =>
                  match V1.eval fuel (.blockN body) env2 st1 with
                  | none => none
                  | some (evaluated, st2a) =>
                    some (unwrapReturnValue evaluated, st2a)) =
                some (out, st2) := h
            cases heq1 : extendFunctionEnv ps fnEnv args st with
            | none => rw [heq1] at h2; cases h2
            | some p =>
              obtain ⟨env2, st1⟩ := p
              rw [heq1] at h2
              have hst1 := extendFunctionEnv_allP optObjOK ps fnEnv args st
                env2 st1 hst hargs heq1
              have h3 : (match V1.eval fuel (.blockN body) env2 st1 with
                  | none => none
                  | some (evaluated, st2a) =>
                    some (unwrapReturnValue evaluated, st2a)) =
                  some (out, st2) := h2
              cases heq2 : V1.eval fuel (.blockN body) env2 st1 with
              | none => rw [heq2] at h3; cases h3
              | some q =>
                obtain ⟨evaluated, st2b⟩ := q
                rw [heq2] at h3
                have hev := (IHe (.blockN body) env2 st1 hfn hst1).2
                  evaluated st2b heq2
                cases h3
                exact ⟨ok_unwrap evaluated hev.1, hev.2⟩
        | builtin r1 nm => exact Bool.noConfusion hfn
        | integer r v =>
          refine ⟨rfl, ?_⟩
          intro out st2 h
          cases h
          exact ⟨rfl, stateAllP_of_frames_eq optObjOK st _ rfl hst⟩
        | boolean r b =>
          refine ⟨rfl, ?_⟩
          intro out st2 h
          cases h
          exact ⟨rfl, stateAllP_of_frames_eq optObjOK st _ rfl hst⟩
        | null r =>
          refine ⟨rfl, ?_⟩
          intro out st2 h
          cases h
          exact ⟨rfl, stateAllP_of_frames_eq optObjOK st _ rfl hst⟩
        | str r sv =>
          refine ⟨rfl, ?_⟩
          intro out st2 h
          cases h
          exact ⟨rfl, stateAllP_of_frames_eq optObjOK st _ rfl hst⟩
        | returnValue r v =>
          refine ⟨rfl, ?_⟩
          intro out st2 h
          cases h
          exact ⟨rfl, stateAllP_of_frames_eq optObjOK st _ rfl hst⟩
        | error r m =>
          refine ⟨rfl, ?_⟩
          intro out st2 h
          cases h
          exact ⟨rfl, stateAllP_of_frames_eq optObjOK st _ rfl hst⟩
        | array r es => exact Bool.noConfusion hfn
        | hash r hps => exact Bool.noConfusion hfn

/-- **C6 (amended).**  On the fragment without array literals, hash
literals, index expressions, builtin-named identifiers and builtin values
— the part of the language both files implement — the two evaluators
return the same result and state for every node, every environment and
every fuel, and evaluation keeps results and heap inside the fragment;
the initial heap is in the fragment. -/
theorem c6_two_evaluators_agree_on_fragment :
    (∀ fuel node env st, nodeOK node = true → stateOK st = true →
       V2.eval fuel node env st = V1.eval fuel node env st) ∧
    (∀ fuel node env st out st2, nodeOK node = true → stateOK st = true →
       V1.eval fuel node env st = some (out, st2) →
       optObjOK out = true ∧ stateOK st2 = true) ∧
    stateOK initEState = true := by
  refine ⟨?_, ?_, rfl⟩
  · intro fuel node env st hn hs
    exact ((v1_v2_agree fuel).1 node env st hn hs).1
  · intro fuel node env st out st2 hn hs h
    exact ((v1_v2_agree fuel).1 node env st hn hs).2 out st2 h

/-- **C6 (amended), witness.**  Both evaluators run `2 + 3;` identically
(the result is a fresh Integer 5 at ref 11), and the run stays in the
fragment. -/
theorem c6_two_evaluators_agree_on_fragment_witness :
    (nodeOK (.prog [.exprS (some (.infixE "+" (some (.intLit 2))
        (some (.intLit 3))))]) = true ∧
     stateOK initEState = true ∧
     V2.eval 10 (.prog [.exprS (some (.infixE "+" (some (.intLit 2))
        (some (.intLit 3))))]) 0 initEState =
       V1.eval 10 (.prog [.exprS (some (.infixE "+" (some (.intLit 2))
        (some (.intLit 3))))]) 0 initEState) ∧
    (V1.eval 10 (.prog [.exprS (some (.infixE "+" (some (.intLit 2))
        (some (.intLit 3))))]) 0 initEState =
      some (some (.integer 11 5), { initEState with nextRef := 12 })) ∧
    (optObjOK (some (.integer 11 5)) = true ∧
     stateOK { initEState with nextRef := 12 } = true) :=
  ⟨⟨rfl, rfl,
    c6_two_evaluators_agree_on_fragment.1 10
      (.prog [.exprS (some (.infixE "+" (some (.intLit 2))
        (some (.intLit 3))))]) 0 initEState rfl rfl⟩,
   rfl,
   c6_two_evaluators_agree_on_fragment.2.1 10
     (.prog [.exprS (some (.infixE "+" (some (.intLit 2))
        (some (.intLit 3))))]) 0 initEState
     (some (.integer 11 5)) { initEState with nextRef := 12 } rfl rfl rfl⟩


end Monkey
